import Mathlib

/-!
The file `ftsIO.c`: the bus transaction layer of the STM touch controller driver

A shallow embedding of `drivers/input/touchscreen/stm/fts_lib/ftsIO.c`.

* Bytes, lengths, sizes and retry counters are natural numbers (the `int` lengths are taken
  non-negative); the `u64` address is a natural number reduced modulo `2 ^ 64` whenever the
  source updates it.
* Result codes are integers.  The constants the file takes from headers that are not part of
  it (`OK`, the `ERROR_*` codes, `I2C_RETRY`, the chunk sizes, the sizes of the three
  scratch arrays of `struct fts_ts_info`) are the fields of `Consts`.
* The static `client` pointer and the driver data reached through it are the `client` field
  of `State`: `none` is `client == NULL`, for which `getDrvInfo` returns `NULL` as well.
* The bus and the echo verifier are outside the file.  They are an environment `Env`: the
  `k`-th call of the transfer primitive returns `bus k`, the `k`-th echo check returns
  `echo k`.  Every call of a primitive is appended to `State.trace`.
* The transfer primitive follows the SPI branch (`spi_sync`); the I2C branch issues the same
  messages with the same buffers for lengths below `2 ^ 16`.
* An address byte of a header is a shift of the `u64` address.  With an address width above
  8 bytes (the two widths together, for the dual operations) the shift count reaches 64, which
  C leaves undefined: every theorem on header bytes is stated for widths of at most 8.
* A call that would access memory outside an array, or through the `NULL` driver data, has
  no defined result: the embedding returns `none` for it.  A chunk loop that runs out of its
  fuel returns `none` too; the entry points start it with enough fuel whenever the chunk
  size is positive.
-/

namespace Fts

/-! ## Data model -/

/-- Constants of `ftsError.h`, `ftsHardware.h`, `ftsSoftware.h` and the array sizes of
`struct fts_ts_info`, none of which is defined in `ftsIO.c`. -/
structure Consts where
  OK : Int
  ERROR_ALLOC : Int
  ERROR_BUS_R : Int
  ERROR_BUS_W : Int
  ERROR_BUS_WR : Int
  ERROR_BUS_O : Int
  I2C_RETRY : Nat
  I2C_WAIT_BEFORE_RETRY : Nat
  WRITE_CHUNK : Nat
  READ_CHUNK : Nat
  sizeof_io_write_buf : Nat
  sizeof_io_extra_write_buf : Nat
  sizeof_io_read_buf : Nat
deriving DecidableEq, Repr

/-- The three preallocated arrays of `struct fts_ts_info` used by this file. -/
structure Scratch where
  io_write_buf : List Nat
  io_extra_write_buf : List Nat
  io_read_buf : List Nat
deriving DecidableEq, Repr

/-- What one call of the transfer primitive does: its return value, and the bytes the
device puts on the bus during a read phase (`rx i` is the `i`-th byte). -/
structure Outcome where
  ret : Int
  rx : Nat → Nat

/-- The collaborators outside the file: the bus and the echo verifier. -/
structure Env where
  bus : Nat → Outcome
  echo : Nat → Int

/-- Calls of external primitives, in the order they are made. -/
inductive Event where
  | xfer (tx : List (List Nat)) (rx : Option Nat)
  | mdelay (ms : Nat)
  | checkEcho (cmd : List Nat)
  | resetErrorList
deriving DecidableEq, Repr

/-- The state the functions of the file read and write. -/
structure State where
  client : Option Scratch
  xfers : Nat
  echos : Nat
  trace : List Event
deriving DecidableEq, Repr

/-! ## Memory -/

/-- Read `n` bytes at the start of `buf`. -/
def load (buf : List Nat) (n : Nat) : Option (List Nat) :=
  if n ≤ buf.length then some (buf.take n) else none

/-- Write `bytes` into `buf` at offset `off`. -/
def store (buf : List Nat) (off : Nat) (bytes : List Nat) : Option (List Nat) :=
  if off + bytes.length ≤ buf.length then
    some (buf.take off ++ bytes ++ buf.drop (off + bytes.length))
  else none

/-- The call `memcpy(dst + off, src, n)`. -/
def memcpy (dst : List Nat) (off : Nat) (src : List Nat) (n : Nat) : Option (List Nat) :=
  match load src n with
  | none => none
  | some bytes => store dst off bytes

/-- The bytes of the write phases of a message: each phase is a buffer and a length. -/
def loadAll : List (List Nat × Nat) → Option (List (List Nat))
  | [] => some []
  | (b, n) :: r =>
    match load b n, loadAll r with
    | some x, some xs => some (x :: xs)
    | _, _ => none

/-- The first `n` bytes the device returns in a read phase. -/
def delivered (o : Outcome) (n : Nat) : List Nat :=
  (List.range n).map o.rx

/-! ## The client -/

/-- The function `openChannel`. -/
def openChannel (K : Consts) (clt : Scratch) (s : State) : Int × State :=
  (K.OK, { s with client := some clt })

/-- The function `getDrvInfo`: the driver data of the bound client, `NULL` without one. -/
def getDrvInfo (s : State) : Option Scratch :=
  s.client

/-- Replace the contents of `info->io_write_buf`. -/
def setWriteBuf (s : State) (b : List Nat) : State :=
  { s with client := s.client.map fun i => { i with io_write_buf := b } }

/-- Replace the contents of `info->io_extra_write_buf`. -/
def setExtraBuf (s : State) (b : List Nat) : State :=
  { s with client := s.client.map fun i => { i with io_extra_write_buf := b } }

/-- Replace the contents of `info->io_read_buf`. -/
def setReadBuf (s : State) (b : List Nat) : State :=
  { s with client := s.client.map fun i => { i with io_read_buf := b } }

/-! ## External primitives -/

/-- One call of `spi_sync` (`i2c_transfer` in the I2C build): the write phases `tx`, then a
read phase of `n` bytes into `rxBuf` when `rx = some n`. -/
def spi_sync (E : Env) (tx : List (List Nat × Nat)) (rx : Option Nat) (rxBuf : List Nat)
    (s : State) : Option (Int × List Nat × State) :=
  match loadAll tx with
  | none => none
  | some segs =>
    let o := E.bus s.xfers
    let s1 : State := { s with xfers := s.xfers + 1, trace := s.trace ++ [Event.xfer segs rx] }
    match rx with
    | none => some (o.ret, rxBuf, s1)
    | some n =>
      if n ≤ rxBuf.length then some (o.ret, delivered o n ++ rxBuf.drop n, s1) else none

/-- The call `mdelay(I2C_WAIT_BEFORE_RETRY)`. -/
def mdelay (K : Consts) (s : State) : State :=
  { s with trace := s.trace ++ [Event.mdelay K.I2C_WAIT_BEFORE_RETRY] }

/-- The call `resetErrorList()`. -/
def resetErrorList (s : State) : State :=
  { s with trace := s.trace ++ [Event.resetErrorList] }

/-- The call `checkEcho(cmd, cmdLength)`. -/
def checkEcho (E : Env) (cmd : List Nat) (cmdLength : Nat) (s : State) : Int × State :=
  (E.echo s.echos,
    { s with echos := s.echos + 1, trace := s.trace ++ [Event.checkEcho (cmd.take cmdLength)] })

/-! ## Raw operations -/

/-- The loop `while (retry < I2C_RETRY && ret < OK)` shared by `fts_read_internal`,
`fts_writeRead_internal`, `fts_write_internal` and `fts_writeThenWriteRead_internal`; the
first argument is `I2C_RETRY - retry`. -/
def retryLoop (K : Consts) (E : Env) (tx : List (List Nat × Nat)) (rx : Option Nat) :
    Nat → Int → List Nat → State → Option (Int × List Nat × State)
  | 0, ret, buf, s => some (ret, buf, s)
  | n + 1, ret, buf, s =>
    if ret < K.OK then
      match spi_sync E tx rx buf s with
      | none => none
      | some (ret1, buf1, s1) =>
        retryLoop K E tx rx n ret1 buf1 (if ret1 < K.OK then mdelay K s1 else s1)
    else some (ret, buf, s)

/-- The statements `memcpy(info->io_write_buf, cmd, cmdLength); cmd = info->io_write_buf;`. -/
def stageWrite (cmd : List Nat) (cmdLength : Nat) (s : State) : Option (List Nat × State) :=
  match getDrvInfo s with
  | none => none
  | some info =>
    match memcpy info.io_write_buf 0 cmd cmdLength with
    | none => none
    | some b => some (b, setWriteBuf s b)

/-- The statements `memcpy(info->io_extra_write_buf, readCmd1, readCmdLength);
readCmd1 = info->io_extra_write_buf;`. -/
def stageExtra (cmd : List Nat) (cmdLength : Nat) (s : State) : Option (List Nat × State) :=
  match getDrvInfo s with
  | none => none
  | some info =>
    match memcpy info.io_extra_write_buf 0 cmd cmdLength with
    | none => none
    | some b => some (b, setExtraBuf s b)

/-- The read buffer of a message: `info->io_read_buf` or the caller's `outBuf`. -/
def rxTarget (dma_safe : Bool) (outBuf : List Nat) (s : State) : List Nat :=
  if dma_safe = false then
    match getDrvInfo s with
    | none => []
    | some info => info.io_read_buf
  else outBuf

/-- The end of the three reading functions: the error code `err` after a failed loop, else
the copy `memcpy(outBuf, info->io_read_buf, byteToRead)` of the non-heap variant and `OK`. -/
def finishRead (K : Consts) (err : Int) (dma_safe : Bool) (outBuf : List Nat)
    (byteToRead : Nat) (r : Int × List Nat × State) : Option (Int × List Nat × State) :=
  let ret := r.1
  let rxBuf := r.2.1
  let s := r.2.2
  if dma_safe = false then
    if ret < 0 then some (err, outBuf, setReadBuf s rxBuf)
    else
      match memcpy outBuf 0 rxBuf byteToRead with
      | none => none
      | some o => some (K.OK, o, setReadBuf s rxBuf)
  else
    if ret < 0 then some (err, rxBuf, s) else some (K.OK, rxBuf, s)

/-- The function `fts_read_internal`. -/
def fts_read_internal (K : Consts) (E : Env) (outBuf : List Nat) (byteToRead : Nat)
    (dma_safe : Bool) (s : State) : Option (Int × List Nat × State) :=
  if dma_safe = false ∧ byteToRead > K.sizeof_io_read_buf then some (K.ERROR_ALLOC, outBuf, s)
  else
    match s.client with
    | none => some (K.ERROR_BUS_O, outBuf, s)
    | some _ =>
      match retryLoop K E [] (some byteToRead) K.I2C_RETRY (-1) (rxTarget dma_safe outBuf s) s with
      | none => none
      | some r => finishRead K K.ERROR_BUS_R dma_safe outBuf byteToRead r

/-- The function `fts_writeRead_internal`. -/
def fts_writeRead_internal (K : Consts) (E : Env) (cmd : List Nat) (cmdLength : Nat)
    (outBuf : List Nat) (byteToRead : Nat) (dma_safe : Bool) (s : State) :
    Option (Int × List Nat × State) :=
  if dma_safe = false ∧
      (cmdLength > K.sizeof_io_write_buf ∨ byteToRead > K.sizeof_io_read_buf) then
    some (K.ERROR_ALLOC, outBuf, s)
  else
    match (if dma_safe = false then stageWrite cmd cmdLength s else some (cmd, s)) with
    | none => none
    | some (cmd1, s1) =>
      match s1.client with
      | none => some (K.ERROR_BUS_O, outBuf, s1)
      | some _ =>
        match retryLoop K E [(cmd1, cmdLength)] (some byteToRead) K.I2C_RETRY (-1)
            (rxTarget dma_safe outBuf s1) s1 with
        | none => none
        | some r => finishRead K K.ERROR_BUS_WR dma_safe outBuf byteToRead r

/-- The function `fts_write_internal`. -/
def fts_write_internal (K : Consts) (E : Env) (cmd : List Nat) (cmdLength : Nat)
    (dma_safe : Bool) (s : State) : Option (Int × State) :=
  if dma_safe = false ∧ cmdLength > K.sizeof_io_write_buf then some (K.ERROR_ALLOC, s)
  else
    match (if dma_safe = false then stageWrite cmd cmdLength s else some (cmd, s)) with
    | none => none
    | some (cmd1, s1) =>
      match s1.client with
      | none => some (K.ERROR_BUS_O, s1)
      | some _ =>
        match retryLoop K E [(cmd1, cmdLength)] none K.I2C_RETRY (-1) [] s1 with
        | none => none
        | some (ret, _, s2) =>
          if ret < 0 then some (K.ERROR_BUS_W, s2) else some (K.OK, s2)

/-- The loop `while (retry < I2C_RETRY && (ret < OK || ret2 < OK))` of
`fts_writeFwCmd_internal`; the first argument is `I2C_RETRY - retry`. -/
def fwCmdLoop (K : Consts) (E : Env) (cmd : List Nat) (cmdLength : Nat) :
    Nat → Int → Int → State → Option (Int × Int × State)
  | 0, ret, ret2, s => some (ret, ret2, s)
  | n + 1, ret, ret2, s =>
    if ret < K.OK ∨ ret2 < K.OK then
      match spi_sync E [(cmd, cmdLength)] none [] s with
      | none => none
      | some (ret1, _, s1) =>
        let e := if ret1 ≥ 0 then checkEcho E cmd cmdLength s1 else (ret2, s1)
        fwCmdLoop K E cmd cmdLength n ret1 e.1
          (if ret1 < K.OK ∨ e.1 < K.OK then mdelay K e.2 else e.2)
    else some (ret, ret2, s)

/-- The function `fts_writeFwCmd_internal`. -/
def fts_writeFwCmd_internal (K : Consts) (E : Env) (cmd : List Nat) (cmdLength : Nat)
    (dma_safe : Bool) (s : State) : Option (Int × State) :=
  if dma_safe = false ∧ cmdLength > K.sizeof_io_write_buf then some (K.ERROR_ALLOC, s)
  else
    match (if dma_safe = false then stageWrite cmd cmdLength s else some (cmd, s)) with
    | none => none
    | some (cmd1, s1) =>
      match s1.client with
      | none => some (K.ERROR_BUS_O, s1)
      | some _ =>
        match fwCmdLoop K E cmd1 cmdLength K.I2C_RETRY (-1) (-1) (resetErrorList s1) with
        | none => none
        | some (ret, ret2, s2) =>
          if ret < 0 then some (K.ERROR_BUS_W, s2)
          else if ret2 < K.OK then some (ret2, s2)
          else some (K.OK, s2)

/-- The function `fts_writeThenWriteRead_internal`. -/
def fts_writeThenWriteRead_internal (K : Consts) (E : Env) (writeCmd1 : List Nat)
    (writeCmdLength : Nat) (readCmd1 : List Nat) (readCmdLength : Nat) (outBuf : List Nat)
    (byteToRead : Nat) (dma_safe : Bool) (s : State) : Option (Int × List Nat × State) :=
  if dma_safe = false ∧
      (writeCmdLength > K.sizeof_io_write_buf ∨ readCmdLength > K.sizeof_io_extra_write_buf ∨
        byteToRead > K.sizeof_io_read_buf) then
    some (K.ERROR_ALLOC, outBuf, s)
  else
    match (if dma_safe = false then stageWrite writeCmd1 writeCmdLength s
        else some (writeCmd1, s)) with
    | none => none
    | some (w1, s1) =>
      match (if dma_safe = false then stageExtra readCmd1 readCmdLength s1
          else some (readCmd1, s1)) with
      | none => none
      | some (r1, s2) =>
        match s2.client with
        | none => some (K.ERROR_BUS_O, outBuf, s2)
        | some _ =>
          match retryLoop K E [(w1, writeCmdLength), (r1, readCmdLength)] (some byteToRead)
              K.I2C_RETRY (-1) (rxTarget dma_safe outBuf s2) s2 with
          | none => none
          | some r => finishRead K K.ERROR_BUS_WR dma_safe outBuf byteToRead r

/-- The function `fts_read`. -/
def fts_read (K : Consts) (E : Env) (outBuf : List Nat) (byteToRead : Nat) (s : State) :
    Option (Int × List Nat × State) :=
  fts_read_internal K E outBuf byteToRead false s

/-- The function `fts_read_heap`. -/
def fts_read_heap (K : Consts) (E : Env) (outBuf : List Nat) (byteToRead : Nat) (s : State) :
    Option (Int × List Nat × State) :=
  fts_read_internal K E outBuf byteToRead true s

/-- The function `fts_writeRead`. -/
def fts_writeRead (K : Consts) (E : Env) (cmd : List Nat) (cmdLength : Nat)
    (outBuf : List Nat) (byteToRead : Nat) (s : State) : Option (Int × List Nat × State) :=
  fts_writeRead_internal K E cmd cmdLength outBuf byteToRead false s

/-- The function `fts_writeRead_heap`. -/
def fts_writeRead_heap (K : Consts) (E : Env) (cmd : List Nat) (cmdLength : Nat)
    (outBuf : List Nat) (byteToRead : Nat) (s : State) : Option (Int × List Nat × State) :=
  fts_writeRead_internal K E cmd cmdLength outBuf byteToRead true s

/-- The function `fts_write`. -/
def fts_write (K : Consts) (E : Env) (cmd : List Nat) (cmdLength : Nat) (s : State) :
    Option (Int × State) :=
  fts_write_internal K E cmd cmdLength false s

/-- The function `fts_write_heap`. -/
def fts_write_heap (K : Consts) (E : Env) (cmd : List Nat) (cmdLength : Nat) (s : State) :
    Option (Int × State) :=
  fts_write_internal K E cmd cmdLength true s

/-- The function `fts_writeFwCmd`. -/
def fts_writeFwCmd (K : Consts) (E : Env) (cmd : List Nat) (cmdLength : Nat) (s : State) :
    Option (Int × State) :=
  fts_writeFwCmd_internal K E cmd cmdLength false s

/-- The function `fts_writeFwCmd_heap`. -/
def fts_writeFwCmd_heap (K : Consts) (E : Env) (cmd : List Nat) (cmdLength : Nat)
    (s : State) : Option (Int × State) :=
  fts_writeFwCmd_internal K E cmd cmdLength true s

/-- The function `fts_writeThenWriteRead`. -/
def fts_writeThenWriteRead (K : Consts) (E : Env) (writeCmd1 : List Nat)
    (writeCmdLength : Nat) (readCmd1 : List Nat) (readCmdLength : Nat) (outBuf : List Nat)
    (byteToRead : Nat) (s : State) : Option (Int × List Nat × State) :=
  fts_writeThenWriteRead_internal K E writeCmd1 writeCmdLength readCmd1 readCmdLength outBuf
    byteToRead false s

/-- The function `fts_writeThenWriteRead_heap`. -/
def fts_writeThenWriteRead_heap (K : Consts) (E : Env) (writeCmd1 : List Nat)
    (writeCmdLength : Nat) (readCmd1 : List Nat) (readCmdLength : Nat) (outBuf : List Nat)
    (byteToRead : Nat) (s : State) : Option (Int × List Nat × State) :=
  fts_writeThenWriteRead_internal K E writeCmd1 writeCmdLength readCmd1 readCmdLength outBuf
    byteToRead true s

/-! ## Command headers -/

/-- The expression `(u8)((address >> ((width - 1 - i) * 8)) & 0xFF)`.  For an address width
of at most 8 bytes every shift count is below 64 and this is the value the source computes.
A shift count of 64 or more is undefined in C; the value given for it here (every bit shifted
out) is not a statement about the program, and the theorems on header bytes are stated for
widths of at most 8 only. -/
def addrByte (width i address : Nat) : Nat :=
  ((address >>> ((width - 1 - i) * 8)) &&& 0xFF) % 256

/-- The bytes `finalCmd[0 .. addrSize]` of `fts_writeU8UX` and `fts_writeReadU8UX`:
`finalCmd[0] = cmd` and the loop `for (i = 0; i < addrSize; i++) finalCmd[i + 1] = ...`. -/
def header (cmd addrSize address : Nat) : List Nat :=
  cmd :: (List.range addrSize).map fun i => addrByte addrSize i address

/-- The bytes `finalCmd1[0 .. addrSize1]` of the two dual operations:
`for (i = 0; i < addrSize1; i++) finalCmd1[i + 1] = ...`. -/
def header1 (cmd1 addrSize1 addrSize2 address : Nat) : List Nat :=
  cmd1 :: (List.range addrSize1).map fun i => addrByte (addrSize1 + addrSize2) i address

/-- The bytes `finalCmd2[0 .. addrSize2]` of the two dual operations:
`for (i = addrSize1; i < addrSize1 + addrSize2; i++) finalCmd2[i - addrSize1 + 1] = ...`. -/
def header2 (cmd2 addrSize1 addrSize2 address : Nat) : List Nat :=
  cmd2 :: (List.range' addrSize1 addrSize2).map fun i =>
    addrByte (addrSize1 + addrSize2) i address

/-! ## Chunked operations -/

/-- The size of the next chunk: `toWrite` / `toRead` after the first `if` of a loop body. -/
def chunkOf (chunk remaining : Nat) : Nat :=
  if remaining ≥ chunk then chunk else remaining

/-- The value of `remaining` after the first `if` of a loop body. -/
def restOf (chunk remaining : Nat) : Nat :=
  if remaining ≥ chunk then remaining - chunk else 0

/-- The loop `while (remaining > 0)` of `fts_writeU8UX`. -/
def writeU8UX_loop (K : Consts) (E : Env) (cmd addrSize : Nat) :
    Nat → Nat → Nat → List Nat → State → Option (Int × State)
  | 0, remaining, _, _, s => if remaining > 0 then none else some (K.OK, s)
  | fuel + 1, remaining, address, data, s =>
    if remaining > 0 then
      let toWrite := chunkOf K.WRITE_CHUNK remaining
      match getDrvInfo s with
      | none => none
      | some info =>
        match store info.io_write_buf 0 (header cmd addrSize address) with
        | none => none
        | some b =>
          match memcpy b (addrSize + 1) data toWrite with
          | none => none
          | some finalCmd =>
            match fts_write_heap K E finalCmd (1 + addrSize + toWrite)
                (setWriteBuf s finalCmd) with
            | none => none
            | some (r, s1) =>
              if r < K.OK then some (K.ERROR_BUS_W, s1)
              else
                writeU8UX_loop K E cmd addrSize fuel (restOf K.WRITE_CHUNK remaining)
                  ((address + toWrite) % 2 ^ 64) (data.drop toWrite) s1
    else some (K.OK, s)

/-- The function `fts_writeU8UX`. -/
def fts_writeU8UX (K : Consts) (E : Env) (cmd addrSize address : Nat) (data : List Nat)
    (dataSize : Nat) (s : State) : Option (Int × State) :=
  if addrSize ≤ 8 then writeU8UX_loop K E cmd addrSize dataSize dataSize address data s
  else some (K.OK, s)

/-- One branch of `if (hasDummyByte == 1)`: the call of `fts_writeRead_heap` for
`toRead + skip` bytes into `buff = info->io_read_buf`, and on success
`memcpy(outBuf, buff + skip, toRead)`.  The result is `none` for a memory fault, else the
state and `some` new caller buffer, or no buffer when the read failed. -/
def readChunk (K : Consts) (E : Env) (finalCmd : List Nat) (cmdLength : Nat) (buff : List Nat)
    (toRead skip : Nat) (outBuf : List Nat) (off : Nat) (s : State) :
    Option (Option (List Nat) × State) :=
  match fts_writeRead_heap K E finalCmd cmdLength buff (toRead + skip) s with
  | none => none
  | some (r, buff1, s1) =>
    if r < K.OK then some (none, setReadBuf s1 buff1)
    else
      match memcpy outBuf off (buff1.drop skip) toRead with
      | none => none
      | some out1 => some (some out1, setReadBuf s1 buff1)

/-- The loop `while (remaining > 0)` of `fts_writeReadU8UX`; `off` is the distance the
pointer `outBuf` has advanced. -/
def writeReadU8UX_loop (K : Consts) (E : Env) (cmd addrSize : Nat) (hasDummyByte : Int) :
    Nat → Nat → Nat → List Nat → Nat → State → Option (Int × List Nat × State)
  | 0, remaining, _, outBuf, _, s => if remaining > 0 then none else some (K.OK, outBuf, s)
  | fuel + 1, remaining, address, outBuf, off, s =>
    if remaining > 0 then
      let toRead := chunkOf K.READ_CHUNK remaining
      match getDrvInfo s with
      | none => none
      | some info =>
        match store info.io_write_buf 0 (header cmd addrSize address) with
        | none => none
        | some finalCmd =>
          match (if hasDummyByte = 1 then
              readChunk K E finalCmd (1 + addrSize) info.io_read_buf toRead 1 outBuf off
                (setWriteBuf s finalCmd)
            else
              readChunk K E finalCmd (1 + addrSize) info.io_read_buf toRead 0 outBuf off
                (setWriteBuf s finalCmd)) with
          | none => none
          | some (none, s1) => some (K.ERROR_BUS_WR, outBuf, s1)
          | some (some out1, s1) =>
            writeReadU8UX_loop K E cmd addrSize hasDummyByte fuel
              (restOf K.READ_CHUNK remaining) ((address + toRead) % 2 ^ 64) out1
              (off + toRead) s1
    else some (K.OK, outBuf, s)

/-- The function `fts_writeReadU8UX`. -/
def fts_writeReadU8UX (K : Consts) (E : Env) (cmd addrSize address : Nat)
    (outBuf : List Nat) (byteToRead : Nat) (hasDummyByte : Int) (s : State) :
    Option (Int × List Nat × State) :=
  writeReadU8UX_loop K E cmd addrSize hasDummyByte byteToRead byteToRead address outBuf 0 s

/-- The loop `while (remaining > 0)` of `fts_writeU8UXthenWriteU8UX`. -/
def writeU8UXthenWriteU8UX_loop (K : Consts) (E : Env) (cmd1 addrSize1 cmd2 addrSize2 : Nat) :
    Nat → Nat → Nat → List Nat → State → Option (Int × State)
  | 0, remaining, _, _, s => if remaining > 0 then none else some (K.OK, s)
  | fuel + 1, remaining, address, data, s =>
    if remaining > 0 then
      let toWrite := chunkOf K.WRITE_CHUNK remaining
      match getDrvInfo s with
      | none => none
      | some info =>
        match store info.io_write_buf 0 (header1 cmd1 addrSize1 addrSize2 address) with
        | none => none
        | some finalCmd1 =>
          match store info.io_extra_write_buf 0 (header2 cmd2 addrSize1 addrSize2 address) with
          | none => none
          | some b =>
            match memcpy b (addrSize2 + 1) data toWrite with
            | none => none
            | some finalCmd2 =>
              match fts_write_heap K E finalCmd1 (1 + addrSize1)
                  (setExtraBuf (setWriteBuf s finalCmd1) finalCmd2) with
              | none => none
              | some (r1, s1) =>
                if r1 < K.OK then some (K.ERROR_BUS_W, s1)
                else
                  match fts_write_heap K E finalCmd2 (1 + addrSize2 + toWrite) s1 with
                  | none => none
                  | some (r2, s2) =>
                    if r2 < K.OK then some (K.ERROR_BUS_W, s2)
                    else
                      writeU8UXthenWriteU8UX_loop K E cmd1 addrSize1 cmd2 addrSize2 fuel
                        (restOf K.WRITE_CHUNK remaining) ((address + toWrite) % 2 ^ 64)
                        (data.drop toWrite) s2
    else some (K.OK, s)

/-- The function `fts_writeU8UXthenWriteU8UX`. -/
def fts_writeU8UXthenWriteU8UX (K : Consts) (E : Env) (cmd1 addrSize1 cmd2 addrSize2 : Nat)
    (address : Nat) (data : List Nat) (dataSize : Nat) (s : State) : Option (Int × State) :=
  writeU8UXthenWriteU8UX_loop K E cmd1 addrSize1 cmd2 addrSize2 dataSize dataSize address
    data s

/-- The loop `while (remaining > 0)` of `fts_writeU8UXthenWriteReadU8UX`; `off` is the
distance the pointer `outBuf` has advanced. -/
def writeU8UXthenWriteReadU8UX_loop (K : Consts) (E : Env) (cmd1 addrSize1 cmd2 addrSize2 : Nat)
    (hasDummyByte : Int) :
    Nat → Nat → Nat → List Nat → Nat → State → Option (Int × List Nat × State)
  | 0, remaining, _, outBuf, _, s => if remaining > 0 then none else some (K.OK, outBuf, s)
  | fuel + 1, remaining, address, outBuf, off, s =>
    if remaining > 0 then
      let toRead := chunkOf K.READ_CHUNK remaining
      match getDrvInfo s with
      | none => none
      | some info =>
        match store info.io_write_buf 0 (header1 cmd1 addrSize1 addrSize2 address) with
        | none => none
        | some finalCmd1 =>
          match store info.io_extra_write_buf 0 (header2 cmd2 addrSize1 addrSize2 address) with
          | none => none
          | some finalCmd2 =>
            match fts_write_heap K E finalCmd1 (1 + addrSize1)
                (setExtraBuf (setWriteBuf s finalCmd1) finalCmd2) with
            | none => none
            | some (r1, s1) =>
              if r1 < K.OK then some (K.ERROR_BUS_W, outBuf, s1)
              else
                match (if hasDummyByte = 1 then
                    readChunk K E finalCmd2 (1 + addrSize2) info.io_read_buf toRead 1 outBuf
                      off s1
                  else
                    readChunk K E finalCmd2 (1 + addrSize2) info.io_read_buf toRead 0 outBuf
                      off s1) with
                | none => none
                | some (none, s2) => some (K.ERROR_BUS_WR, outBuf, s2)
                | some (some out1, s2) =>
                  writeU8UXthenWriteReadU8UX_loop K E cmd1 addrSize1 cmd2 addrSize2
                    hasDummyByte fuel (restOf K.READ_CHUNK remaining)
                    ((address + toRead) % 2 ^ 64) out1 (off + toRead) s2
    else some (K.OK, outBuf, s)

/-- The function `fts_writeU8UXthenWriteReadU8UX`. -/
def fts_writeU8UXthenWriteReadU8UX (K : Consts) (E : Env)
    (cmd1 addrSize1 cmd2 addrSize2 : Nat) (address : Nat) (outBuf : List Nat)
    (byteToRead : Nat) (hasDummyByte : Int) (s : State) : Option (Int × List Nat × State) :=
  writeU8UXthenWriteReadU8UX_loop K E cmd1 addrSize1 cmd2 addrSize2 hasDummyByte byteToRead
    byteToRead address outBuf 0 s

/-! ## Notions used in the statements -/

/-- The address bytes of a header of `width` bytes, most significant first. -/
def addrBytes (width address : Nat) : List Nat :=
  (List.range width).map fun i => addrByte width i address

/-- The result codes as the code relies on them: `OK` is 0 and every error code is
negative. -/
structure Consts.Codes (K : Consts) : Prop where
  ok : K.OK = 0
  alloc : K.ERROR_ALLOC < 0
  bus_r : K.ERROR_BUS_R < 0
  bus_w : K.ERROR_BUS_W < 0
  bus_wr : K.ERROR_BUS_WR < 0
  bus_o : K.ERROR_BUS_O < 0

/-- The chunk sizes are positive and the scratch arrays hold a header of up to eight address
bytes with a full write chunk, and a full read chunk with its dummy byte. -/
structure Consts.Limits (K : Consts) : Prop where
  wchunk : 0 < K.WRITE_CHUNK
  rchunk : 0 < K.READ_CHUNK
  wbuf : 1 + 8 + K.WRITE_CHUNK ≤ K.sizeof_io_write_buf
  xbuf : 1 + 8 + K.WRITE_CHUNK ≤ K.sizeof_io_extra_write_buf
  rbuf : K.READ_CHUNK + 1 ≤ K.sizeof_io_read_buf

/-- A client is bound and the scratch arrays of its driver data have their declared sizes. -/
def Bound (K : Consts) (s : State) : Prop :=
  ∃ info, s.client = some info ∧
    info.io_write_buf.length = K.sizeof_io_write_buf ∧
    info.io_extra_write_buf.length = K.sizeof_io_extra_write_buf ∧
    info.io_read_buf.length = K.sizeof_io_read_buf

/-- The read buffer of a message after the device has answered with `o`. -/
def rxInto (o : Outcome) (rx : Option Nat) (buf : List Nat) : List Nat :=
  match rx with
  | none => buf
  | some n => delivered o n ++ buf.drop n

/-- The read phase of a message fits its buffer. -/
def RxFits (rx : Option Nat) (buf : List Nat) : Prop :=
  ∀ n, rx = some n → n ≤ buf.length

/-- The events of `j` failed attempts at one message: a transfer and a delay each. -/
def failedAttempts (K : Consts) (segs : List (List Nat)) (rx : Option Nat) (j : Nat) :
    List Event :=
  (List.replicate j [Event.xfer segs rx, Event.mdelay K.I2C_WAIT_BEFORE_RETRY]).flatten

/-- The state after `n` more transfers that appended the events `ev`. -/
def State.after (s : State) (n : Nat) (ev : List Event) : State :=
  { s with xfers := s.xfers + n, trace := s.trace ++ ev }

/-- The events of one message that succeeds after `j` failed attempts. -/
def okEvents (K : Consts) (segs : List (List Nat)) (rx : Option Nat) (j : Nat) : List Event :=
  failedAttempts K segs rx j ++ [Event.xfer segs rx]

/-- The bus fails in each of the `n` attempts that follow the first `base`. -/
def AllFail (E : Env) (base n : Nat) : Prop :=
  ∀ i, i < n → (E.bus (base + i)).ret < 0

/-- The first success among the attempts that follow the first `base` is attempt `j`
(counted from 0). -/
def FirstOk (E : Env) (base j : Nat) : Prop :=
  AllFail E base j ∧ 0 ≤ (E.bus (base + j)).ret

/-- The run of one retried write-only message, from `s` to `s1` with result `r`: either the
first success is attempt `j` within the budget, the result is `OK`, and the events are `j`
failed attempts (a transfer and a delay each) and one transfer; or all `I2C_RETRY` attempts
fail, the result is `err`, and the events are `I2C_RETRY` failed attempts. -/
def Retried (K : Consts) (E : Env) (segs : List (List Nat)) (rx : Option Nat) (err : Int)
    (s : State) (r : Int) (s1 : State) : Prop :=
  (∃ j, j < K.I2C_RETRY ∧ FirstOk E s.xfers j ∧ r = K.OK ∧ s1.xfers = s.xfers + (j + 1) ∧
      s1.trace = s.trace ++ okEvents K segs rx j) ∨
  (AllFail E s.xfers K.I2C_RETRY ∧ r = err ∧ s1.xfers = s.xfers + K.I2C_RETRY ∧
      s1.trace = s.trace ++ failedAttempts K segs rx K.I2C_RETRY)

/-- The run of one retried message with a read phase of `n` bytes: as `Retried`, and the
caller's buffer receives the `n` bytes the successful attempt returned; after a failure the
buffer keeps its length, and the non-heap variant leaves it untouched. -/
def RetriedRead (K : Consts) (E : Env) (segs : List (List Nat)) (n : Nat) (err : Int)
    (dma_safe : Bool) (outBuf : List Nat) (s : State) (r : Int) (out : List Nat)
    (s1 : State) : Prop :=
  (∃ j, j < K.I2C_RETRY ∧ FirstOk E s.xfers j ∧ r = K.OK ∧
      out = delivered (E.bus (s.xfers + j)) n ++ outBuf.drop n ∧
      s1.xfers = s.xfers + (j + 1) ∧ s1.trace = s.trace ++ okEvents K segs (some n) j) ∨
  (AllFail E s.xfers K.I2C_RETRY ∧ r = err ∧ out.length = outBuf.length ∧
      (dma_safe = false → out = outBuf) ∧ s1.xfers = s.xfers + K.I2C_RETRY ∧
      s1.trace = s.trace ++ failedAttempts K segs (some n) K.I2C_RETRY)

/-- One message of a transfer: the bytes of its write phases and the length of its read
phase. -/
structure Msg where
  segs : List (List Nat)
  rx : Option Nat
deriving DecidableEq, Repr

/-- One retried message that succeeded: the number of failed attempts before the successful
one, and what the successful attempt returned. -/
structure Sub where
  fails : Nat
  o : Outcome

/-- The messages described by `subs` succeeded one after the other, the first of them
starting at attempt `base` of the bus: each met its first success within `R` attempts. -/
def SubsFrom (E : Env) (R : Nat) : Nat → List Sub → Prop
  | _, [] => True
  | base, sub :: rest =>
    sub.fails < R ∧ FirstOk E base sub.fails ∧ sub.o = E.bus (base + sub.fails) ∧
      SubsFrom E R (base + (sub.fails + 1)) rest

/-- The number of transfer attempts of the messages described by `subs`. -/
def spent : List Sub → Nat
  | [] => 0
  | sub :: subs => (sub.fails + 1) + spent subs

/-- The events of messages that succeeded as `subs` describes. -/
def runEvents (K : Consts) : List Msg → List Sub → List Event
  | m :: ms, sub :: subs => okEvents K m.segs m.rx sub.fails ++ runEvents K ms subs
  | _, _ => []

/-- The events of message `k` of `msgs` failing in all its attempts; none if there is no
such message. -/
def failEvents (K : Consts) (msgs : List Msg) (k : Nat) : List Event :=
  match msgs[k]? with
  | some m => failedAttempts K m.segs m.rx K.I2C_RETRY
  | none => []

/-- A run from `s` to `s1` that sends the messages `msgs` in order, each through one retried
raw operation, and stops at the first that fails: the first `subs.length` messages succeeded
as `subs` describes; if these are not all, the next message failed in all `I2C_RETRY`
attempts and nothing was sent after it. -/
def Ran (K : Consts) (E : Env) (msgs : List Msg) (subs : List Sub) (s s1 : State) : Prop :=
  SubsFrom E K.I2C_RETRY s.xfers subs ∧ subs.length ≤ msgs.length ∧
  (subs.length < msgs.length → AllFail E (s.xfers + spent subs) K.I2C_RETRY) ∧
  s1.xfers = s.xfers + spent subs + (if subs.length < msgs.length then K.I2C_RETRY else 0) ∧
  s1.trace = s.trace ++ (runEvents K msgs subs ++ failEvents K msgs subs.length) ∧
  s1.echos = s.echos

/-- A chunk of a chunked operation: its size, the address it is framed with and its offset
in the caller's buffer. -/
structure Chunk where
  size : Nat
  address : Nat
  off : Nat
deriving DecidableEq, Repr

/-- Chunk `k` (counted from 0) of an operation on `L` bytes at `addr` with chunk size `C`. -/
def chunkAt (C L addr k : Nat) : Chunk :=
  ⟨min C (L - k * C), (addr + k * C) % 2 ^ 64, k * C⟩

/-- The number of chunks of `L` bytes: `L / C` rounded up. -/
def nChunks (C L : Nat) : Nat :=
  (L + C - 1) / C

/-- The chunks of an operation on `L` bytes at `addr` with chunk size `C`. -/
def chunks (C L addr : Nat) : List Chunk :=
  (List.range (nChunks C L)).map (chunkAt C L addr)

/-- The chunks from chunk `k` on. -/
def chunksFrom (C L addr k : Nat) : List Chunk :=
  (List.range' k (nChunks C L - k)).map (chunkAt C L addr)

/-- The message of `fts_writeU8UX` for a chunk: the header and the payload in one write. -/
def writeMsg (cmd w : Nat) (data : List Nat) (c : Chunk) : Msg :=
  ⟨[header cmd w c.address ++ (data.drop c.off).take c.size], none⟩

/-- The number of dummy bytes in front of each read: 1 when `hasDummyByte == 1`, else 0. -/
def dummyOf (hasDummyByte : Int) : Nat :=
  if hasDummyByte = 1 then 1 else 0

/-- The message of `fts_writeReadU8UX` for a chunk: the header, then a read of the chunk
and of `d` dummy bytes. -/
def readMsg (cmd w d : Nat) (c : Chunk) : Msg :=
  ⟨[header cmd w c.address], some (c.size + d)⟩

/-- The two messages of `fts_writeU8UXthenWriteU8UX` for a chunk. -/
def dualWriteMsgs (cmd1 w1 cmd2 w2 : Nat) (data : List Nat) (c : Chunk) : List Msg :=
  [⟨[header1 cmd1 w1 w2 c.address], none⟩,
   ⟨[header2 cmd2 w1 w2 c.address ++ (data.drop c.off).take c.size], none⟩]

/-- The two messages of `fts_writeU8UXthenWriteReadU8UX` for a chunk. -/
def dualReadMsgs (cmd1 w1 cmd2 w2 d : Nat) (c : Chunk) : List Msg :=
  [⟨[header1 cmd1 w1 w2 c.address], none⟩,
   ⟨[header2 cmd2 w1 w2 c.address], some (c.size + d)⟩]

/-- The bytes that the reads described by `subs` returned for the chunks, one read a chunk,
without the `d` dummy bytes in front of each. -/
def gather (d : Nat) : List Chunk → List Sub → List Nat
  | c :: cs, sub :: subs => (delivered sub.o (c.size + d)).drop d ++ gather d cs subs
  | _, _ => []

/-- As `gather`, for two messages a chunk of which the second is the read. -/
def gather2 (d : Nat) : List Chunk → List Sub → List Nat
  | c :: cs, _ :: sub :: subs => (delivered sub.o (c.size + d)).drop d ++ gather2 d cs subs
  | _, _ => []

/-- Every one of `n` retried messages sent one after the other, the first starting at
attempt `base` of the bus, succeeds: whenever the messages before one have succeeded, that
one does not fail in all its `I2C_RETRY` attempts. -/
def AllSucceed (K : Consts) (E : Env) (base n : Nat) : Prop :=
  ∀ subs, SubsFrom E K.I2C_RETRY base subs → subs.length < n →
    ¬ AllFail E (base + spent subs) K.I2C_RETRY

/-- The address a single header carries: the big-endian value of its address bytes. -/
def carried (hdr : List Nat) : Nat :=
  Nat.ofDigits 256 hdr.tail.reverse

/-- The address the two headers of a dual operation carry together. -/
def carried2 (hdr1 hdr2 : List Nat) : Nat :=
  Nat.ofDigits 256 (hdr1.tail ++ hdr2.tail).reverse

/-- The bytes of a write-only message after its first `n` bytes. -/
def payloadAfter (n : Nat) (m : Msg) : List Nat :=
  m.segs.flatten.drop n

/-! ## A sample configuration -/

/-- One admissible set of constants: `OK` is 0, the error codes are negative 32-bit values,
three attempts, chunks of 1024 bytes, scratch arrays sized for a chunk and its header. -/
def sampleConsts : Consts where
  OK := 0
  ERROR_ALLOC := 0x80000001 - 2 ^ 32
  ERROR_BUS_R := 0x80000002 - 2 ^ 32
  ERROR_BUS_W := 0x80000003 - 2 ^ 32
  ERROR_BUS_WR := 0x80000004 - 2 ^ 32
  ERROR_BUS_O := 0x80000005 - 2 ^ 32
  I2C_RETRY := 3
  I2C_WAIT_BEFORE_RETRY := 2
  WRITE_CHUNK := 1024
  READ_CHUNK := 1024
  sizeof_io_write_buf := 1034
  sizeof_io_extra_write_buf := 1034
  sizeof_io_read_buf := 1025

/-- As `sampleConsts`, with chunks of 4 bytes. -/
def smallConsts : Consts :=
  { sampleConsts with
    WRITE_CHUNK := 4, READ_CHUNK := 4, sizeof_io_write_buf := 13,
    sizeof_io_extra_write_buf := 13, sizeof_io_read_buf := 5 }

/-- A bus on which every transfer succeeds; the device returns the bytes 0, 1, 2, ... in
each read. -/
def okBus : Env where
  bus := fun _ => ⟨0, fun i => i⟩
  echo := fun _ => 0

/-- A bus on which every transfer fails with `-5`. -/
def deadBus : Env where
  bus := fun _ => ⟨-5, fun _ => 0⟩
  echo := fun _ => 0

/-- A state without a bound client. -/
def unboundState : State :=
  ⟨none, 0, 0, []⟩

/-- A state with a bound client whose scratch arrays are zeroed. -/
def boundState (K : Consts) : State :=
  ⟨some ⟨List.replicate K.sizeof_io_write_buf 0, List.replicate K.sizeof_io_extra_write_buf 0,
    List.replicate K.sizeof_io_read_buf 0⟩, 0, 0, []⟩

/-- The first `n` bytes a message writes. -/
def msgHeader (n : Nat) (m : Msg) : List Nat :=
  m.segs.flatten.take n

/-- The first `n` bytes a transfer writes. -/
def wireHeader (n : Nat) : Event → List Nat
  | Event.xfer tx _ => tx.flatten.take n
  | _ => []

/-! ## Notions for the firmware command -/

/-- The number of attempts, among the first `i` that follow attempt `base` of the bus, whose
raw write succeeded: the number of echo checks made in them. -/
def writesOk (E : Env) (base : Nat) : Nat → Nat
  | 0 => 0
  | i + 1 => writesOk E base i + if 0 ≤ (E.bus (base + i)).ret then 1 else 0

/-- The result of the echo check that attempt `i` of a firmware command makes when its raw
write succeeds; `ebase` echo checks were made before the command. -/
def echoAt (E : Env) (base ebase i : Nat) : Int :=
  E.echo (ebase + writesOk E base i)

/-- Attempt `i` of a firmware command succeeds: its raw write does, and so does the echo
check made in that same attempt. -/
def GoodAttempt (E : Env) (base ebase i : Nat) : Prop :=
  0 ≤ (E.bus (base + i)).ret ∧ 0 ≤ echoAt E base ebase i

/-- The events of attempt `i` of a firmware command: the raw write, the echo check when the
write succeeded, and the delay unless both succeeded. -/
def fwAttempt (K : Consts) (E : Env) (cmd : List Nat) (base ebase i : Nat) : List Event :=
  Event.xfer [cmd] none ::
    ((if 0 ≤ (E.bus (base + i)).ret then [Event.checkEcho cmd] else []) ++
      (if 0 ≤ (E.bus (base + i)).ret ∧ 0 ≤ echoAt E base ebase i then []
        else [Event.mdelay K.I2C_WAIT_BEFORE_RETRY]))

/-- The events of the first `n` attempts of a firmware command. -/
def fwEvents (K : Consts) (E : Env) (cmd : List Nat) (base ebase n : Nat) : List Event :=
  (List.range n).flatMap (fwAttempt K E cmd base ebase)

/-- The state after `n` attempts of a firmware command that started in `s`. -/
def State.afterFw (s : State) (K : Consts) (E : Env) (cmd : List Nat) (n : Nat) : State :=
  { s with
    xfers := s.xfers + n
    echos := s.echos + writesOk E s.xfers n
    trace := s.trace ++ fwEvents K E cmd s.xfers s.echos n }

/-- The error code for a failed size check differs from the bus error codes. -/
def Consts.AllocApart (K : Consts) : Prop :=
  K.ERROR_ALLOC ≠ K.ERROR_BUS_R ∧ K.ERROR_ALLOC ≠ K.ERROR_BUS_W ∧
    K.ERROR_ALLOC ≠ K.ERROR_BUS_WR ∧ K.ERROR_ALLOC ≠ K.ERROR_BUS_O

/-- The run of a firmware command from `s` to `s1` in `m` attempts with the bytes `cmd` on
the wire: the error list is reset, the attempts follow on the next `m` transfers of the bus,
and one echo check is made in each attempt whose raw write succeeded. -/
def FwRan (K : Consts) (E : Env) (cmd : List Nat) (m : Nat) (s s1 : State) : Prop :=
  s1.xfers = s.xfers + m ∧ s1.echos = s.echos + writesOk E s.xfers m ∧
    s1.trace = s.trace ++ Event.resetErrorList :: fwEvents K E cmd s.xfers s.echos m

/-- A bus whose first transfer succeeds and whose later transfers fail with `-5`; every echo
check fails with `-7`. -/
def onceBus : Env where
  bus := fun k => if k = 0 then ⟨0, fun i => i⟩ else ⟨-5, fun _ => 0⟩
  echo := fun _ => -7

/-- A bus on which every transfer succeeds and every echo check fails with `-7`. -/
def noEchoBus : Env where
  bus := fun _ => ⟨0, fun i => i⟩
  echo := fun _ => -7

/-- A chunked operation that sends the messages `msgs` from `s`, with result `r` and final
state `s1`, stops at the first failure: the messages run as `Ran` describes; if one of them
failed in all its attempts, the result is an error and the transfers made are those of the
messages before it and its own `I2C_RETRY` attempts; and the result is `OK` only if every
message succeeded. -/
def StopsAtFailure (K : Consts) (E : Env) (msgs : List Msg) (s : State) (r : Int)
    (s1 : State) : Prop :=
  ∃ subs, Ran K E msgs subs s s1 ∧
    (subs.length < msgs.length →
      r < 0 ∧ r ≠ K.OK ∧ s1.xfers = s.xfers + spent subs + K.I2C_RETRY) ∧
    (r = K.OK → subs.length = msgs.length ∧ s1.xfers = s.xfers + spent subs)

/-- Two calls of a writing raw operation agree for an observer of the bus: both return, with
the same result code, after the same number of transfers and of echo checks, and with the same
events, which hold the bytes and the lengths of every transfer. -/
def AgreeWrite (a b : Option (Int × State)) : Prop :=
  ∃ r s1 s1', a = some (r, s1) ∧ b = some (r, s1') ∧ s1.xfers = s1'.xfers ∧
    s1.echos = s1'.echos ∧ s1.trace = s1'.trace

/-- Two calls of a reading raw operation agree for an observer of the bus and of the caller:
as `AgreeWrite`, and when the result is `OK` the caller's buffer holds the same bytes. -/
def AgreeRead (K : Consts) (a b : Option (Int × List Nat × State)) : Prop :=
  ∃ r out s1 out' s1', a = some (r, out, s1) ∧ b = some (r, out', s1') ∧
    s1.xfers = s1'.xfers ∧ s1.echos = s1'.echos ∧ s1.trace = s1'.trace ∧
    (r = K.OK → out = out')

/-- The start addresses `addr + i * C` of all chunks of an operation on `L` bytes lie in the
block of `2 ^ (8 * w)` addresses that holds `addr`: no chunk starts beyond the last address a
header of `w` address bytes can tell from `addr`. -/
def OneBlock (C L addr w : Nat) : Prop :=
  ∀ i, i < nChunks C L → (addr + i * C) / 2 ^ (8 * w) = addr / 2 ^ (8 * w)

/-! ## Header encoding -/

theorem addrByte_eq (width i address : Nat) :
    addrByte width i address = address / 256 ^ (width - 1 - i) % 256 := by
  unfold addrByte
  have h : (255 : Nat) = 2 ^ 8 - 1 := by norm_num
  rw [h, Nat.and_pow_two_sub_one_eq_mod, Nat.shiftRight_eq_div_pow, Nat.mul_comm, pow_mul]
  norm_num

theorem addrByte_lt (width i address : Nat) : addrByte width i address < 256 := by
  rw [addrByte_eq]; exact Nat.mod_lt _ (by norm_num)

theorem addrBytes_length (width address : Nat) : (addrBytes width address).length = width := by
  simp [addrBytes]

theorem header_eq (cmd w a : Nat) : header cmd w a = cmd :: addrBytes w a := rfl

theorem header_length (cmd w a : Nat) : (header cmd w a).length = w + 1 := by
  simp [header]

theorem header1_length (cmd w1 w2 a : Nat) : (header1 cmd w1 w2 a).length = w1 + 1 := by
  simp [header1]

theorem header2_length (cmd w1 w2 a : Nat) : (header2 cmd w1 w2 a).length = w2 + 1 := by
  simp [header2]

theorem addrBytes_succ (w a : Nat) :
    addrBytes (w + 1) a = addrBytes w (a / 256) ++ [a % 256] := by
  unfold addrBytes
  rw [List.range_succ, List.map_append]
  congr 1
  · apply List.map_congr_left
    intro i hi
    have hi' : i < w := List.mem_range.mp hi
    rw [addrByte_eq, addrByte_eq, Nat.div_div_eq_div_mul, ← pow_succ']
    congr 3
    omega
  · simp [addrByte_eq]

theorem ofDigits_addrBytes (w a : Nat) :
    Nat.ofDigits 256 (addrBytes w a).reverse = a % 256 ^ w := by
  induction w generalizing a with
  | zero => simp [addrBytes, Nat.mod_one]
  | succ w ih =>
    rw [addrBytes_succ, List.reverse_append, List.reverse_singleton, List.singleton_append,
      Nat.ofDigits_cons, ih, pow_succ', Nat.mod_mul]

theorem header1_tail (cmd w1 w2 a : Nat) :
    (header1 cmd w1 w2 a).tail = (addrBytes (w1 + w2) a).take w1 := by
  simp [header1, addrBytes, ← List.map_take, List.take_range]

theorem header2_tail (cmd w1 w2 a : Nat) :
    (header2 cmd w1 w2 a).tail = (addrBytes (w1 + w2) a).drop w1 := by
  simp [header2, addrBytes, ← List.map_drop, List.range_add, List.range'_eq_map_range]

/-- C1: for an op code `cmd`, a width `1 ≤ w ≤ 8` and an address `a`, the header that the
loops of `fts_writeU8UX` and `fts_writeReadU8UX` store in `finalCmd` has `w + 1` bytes,
byte 0 is `cmd`, byte `i` (`1 ≤ i ≤ w`) is `(a >> (8 * (w - i))) & 0xFF`, and the address
bytes are the big-endian digits of `a mod 2 ^ (8 * w)`; every shift count is below 64; the
header is the first `w + 1` bytes of the message either operation sends for a chunk at `a`;
op code `0x10`, width 2 and address `0x10203` give `[0x10, 0x02, 0x03]`. -/
theorem C1_header_big_endian (cmd w a : Nat) (hw : 1 ≤ w ∧ w ≤ 8) :
    (∀ i, i < w → (w - 1 - i) * 8 < 64) ∧
    (header cmd w a).length = w + 1 ∧
    (header cmd w a)[0]? = some cmd ∧
    (∀ i, 1 ≤ i → i ≤ w → (header cmd w a)[i]? = some ((a >>> (8 * (w - i))) &&& 0xFF)) ∧
    (∀ b ∈ (header cmd w a).tail, b < 256) ∧
    Nat.ofDigits 256 (header cmd w a).tail.reverse = a % 2 ^ (8 * w) ∧
    (∀ data d size off,
      msgHeader (w + 1) (writeMsg cmd w data ⟨size, a, off⟩) = header cmd w a ∧
      msgHeader (w + 1) (readMsg cmd w d ⟨size, a, off⟩) = header cmd w a) ∧
    header 0x10 2 0x10203 = [0x10, 0x02, 0x03] := by
  refine ⟨fun i hi => by omega, header_length cmd w a, by simp [header], ?_, ?_, ?_, ?_,
    by decide⟩
  · intro i h1 h2
    obtain ⟨j, rfl⟩ : ∃ j, i = j + 1 := ⟨i - 1, by omega⟩
    have hj : j < w := by omega
    have hm : ((a >>> (8 * (w - (j + 1)))) &&& 0xFF) % 256 = (a >>> (8 * (w - (j + 1)))) &&& 0xFF :=
      Nat.mod_eq_of_lt (lt_of_le_of_lt Nat.and_le_right (by norm_num))
    simp [header, hj, addrByte, List.getElem?_map, List.getElem?_range hj]
    rw [← hm]
    congr 3
    omega
  · intro b hb
    simp only [header, List.tail_cons, List.mem_map] at hb
    obtain ⟨i, _, rfl⟩ := hb
    exact addrByte_lt _ _ _
  · rw [header_eq, List.tail_cons, ofDigits_addrBytes, pow_mul]
    norm_num
  · intro data d size off
    constructor
    · simp [msgHeader, writeMsg, List.take_append_of_le_length, header_length]
    · simp [msgHeader, readMsg, List.take_of_length_le, header_length]

theorem C1_header_big_endian_witness :
    (header 0x10 2 0x10203).length = 2 + 1 :=
  (C1_header_big_endian 0x10 2 0x10203 (by decide)).2.1

/-- C2: for op codes `cmd1`, `cmd2`, widths with `w1 + w2 ≤ 8` and an address `a`, the two
headers that the loops of `fts_writeU8UXthenWriteU8UX` and `fts_writeU8UXthenWriteReadU8UX`
store are `cmd1` followed by the first `w1` bytes and `cmd2` followed by the next `w2` bytes
of the `(w1 + w2)`-byte big-endian encoding of `a mod 2 ^ (8 * (w1 + w2))`; every shift
count is below 64; the two messages either operation sends for a chunk at `a` start with
these same two headers; op codes `0xAA`, `0xBB`, widths 1, 1 and address `0x1234` give
`[0xAA, 0x12]` and `[0xBB, 0x34]`. -/
theorem C2_dual_header_split (cmd1 cmd2 w1 w2 a : Nat) (hw : w1 + w2 ≤ 8) :
    (∀ i, i < w1 + w2 → (w1 + w2 - 1 - i) * 8 < 64) ∧
    (addrBytes (w1 + w2) a).length = w1 + w2 ∧
    (∀ b ∈ addrBytes (w1 + w2) a, b < 256) ∧
    Nat.ofDigits 256 (addrBytes (w1 + w2) a).reverse = a % 2 ^ (8 * (w1 + w2)) ∧
    header1 cmd1 w1 w2 a = cmd1 :: (addrBytes (w1 + w2) a).take w1 ∧
    header2 cmd2 w1 w2 a = cmd2 :: ((addrBytes (w1 + w2) a).drop w1).take w2 ∧
    (∀ data d size off, ∃ mw1 mw2 mr1 mr2,
      dualWriteMsgs cmd1 w1 cmd2 w2 data ⟨size, a, off⟩ = [mw1, mw2] ∧
      dualReadMsgs cmd1 w1 cmd2 w2 d ⟨size, a, off⟩ = [mr1, mr2] ∧
      mw1.segs = [header1 cmd1 w1 w2 a] ∧ mr1.segs = [header1 cmd1 w1 w2 a] ∧
      msgHeader (w2 + 1) mw2 = header2 cmd2 w1 w2 a ∧ mr2.segs = [header2 cmd2 w1 w2 a]) ∧
    header1 0xAA 1 1 0x1234 = [0xAA, 0x12] ∧ header2 0xBB 1 1 0x1234 = [0xBB, 0x34] := by
  refine ⟨fun i hi => by omega, addrBytes_length _ _, ?_, ?_, ?_, ?_, ?_, by decide,
    by decide⟩
  · intro b hb
    simp only [addrBytes, List.mem_map] at hb
    obtain ⟨i, _, rfl⟩ := hb
    exact addrByte_lt _ _ _
  · rw [ofDigits_addrBytes, pow_mul]
    norm_num
  · have h := header1_tail cmd1 w1 w2 a
    simp only [header1, List.tail_cons] at h ⊢
    rw [h]
  · have h := header2_tail cmd2 w1 w2 a
    simp only [header2, List.tail_cons] at h ⊢
    rw [h, List.take_of_length_le]
    simp [addrBytes_length]
  · intro data d size off
    refine ⟨_, _, _, _, rfl, rfl, rfl, rfl, ?_, rfl⟩
    simp [msgHeader, List.take_append_of_le_length, header2_length]

theorem C2_dual_header_split_witness :
    header1 0xAA 1 1 0x1234 = 0xAA :: (addrBytes (1 + 1) 0x1234).take 1 :=
  (C2_dual_header_split 0xAA 0xBB 1 1 0x1234 (by decide)).2.2.2.2.1

/-! ## The transfer primitive and the retry loop -/

theorem State.after_zero (s : State) : s.after 0 [] = s := by
  cases s; simp [State.after]

theorem State.after_after (s : State) (n m : Nat) (e f : List Event) :
    (s.after n e).after m f = s.after (n + m) (e ++ f) := by
  simp [State.after, Nat.add_assoc]

@[simp] theorem State.after_client (s : State) (n : Nat) (e : List Event) :
    (s.after n e).client = s.client := rfl

@[simp] theorem State.after_xfers (s : State) (n : Nat) (e : List Event) :
    (s.after n e).xfers = s.xfers + n := rfl

@[simp] theorem State.after_echos (s : State) (n : Nat) (e : List Event) :
    (s.after n e).echos = s.echos := rfl

@[simp] theorem State.after_trace (s : State) (n : Nat) (e : List Event) :
    (s.after n e).trace = s.trace ++ e := rfl

theorem rxInto_length {rx : Option Nat} {buf : List Nat} (o : Outcome) (h : RxFits rx buf) :
    (rxInto o rx buf).length = buf.length := by
  cases rx with
  | none => rfl
  | some n =>
    have := h n rfl
    simp [rxInto, delivered]; omega

theorem rxInto_fits {rx : Option Nat} {buf : List Nat} (o : Outcome) (h : RxFits rx buf) :
    RxFits rx (rxInto o rx buf) := by
  intro n hn; rw [rxInto_length o h]; exact h n hn

theorem rxInto_rxInto {rx : Option Nat} {buf : List Nat} (o o' : Outcome) :
    rxInto o rx (rxInto o' rx buf) = rxInto o rx buf := by
  cases rx with
  | none => rfl
  | some n =>
    simp only [rxInto]
    congr 1
    rw [List.drop_append_eq_append_drop]
    simp [delivered]

theorem failedAttempts_zero (K : Consts) (segs : List (List Nat)) (rx : Option Nat) :
    failedAttempts K segs rx 0 = [] := rfl

theorem failedAttempts_succ (K : Consts) (segs : List (List Nat)) (rx : Option Nat) (j : Nat) :
    failedAttempts K segs rx (j + 1) =
      Event.xfer segs rx :: Event.mdelay K.I2C_WAIT_BEFORE_RETRY :: failedAttempts K segs rx j := by
  simp [failedAttempts, List.replicate_succ]

theorem spi_sync_eq (E : Env) {tx : List (List Nat × Nat)} {segs : List (List Nat)}
    {rx : Option Nat} {buf : List Nat} (s : State) (hl : loadAll tx = some segs)
    (hf : RxFits rx buf) :
    spi_sync E tx rx buf s =
      some ((E.bus s.xfers).ret, rxInto (E.bus s.xfers) rx buf, s.after 1 [Event.xfer segs rx]) := by
  unfold spi_sync
  rw [hl]
  cases rx with
  | none => rfl
  | some n => simp [rxInto, State.after, hf n rfl]

theorem retryLoop_done (K : Consts) (E : Env) (tx : List (List Nat × Nat)) (rx : Option Nat)
    (n : Nat) {ret : Int} (buf : List Nat) (s : State) (h : ¬ ret < K.OK) :
    retryLoop K E tx rx n ret buf s = some (ret, buf, s) := by
  cases n <;> simp [retryLoop, h]

/-- A retry loop whose first `j` attempts fail and whose next attempt succeeds. -/
theorem retryLoop_success (K : Consts) (E : Env) {tx : List (List Nat × Nat)}
    {segs : List (List Nat)} {rx : Option Nat} (hK : K.OK = 0) (hl : loadAll tx = some segs) :
    ∀ (j n : Nat) (ret0 : Int) (buf : List Nat) (s : State), j < n → ret0 < 0 → RxFits rx buf →
      (∀ k, k < j → (E.bus (s.xfers + k)).ret < 0) → 0 ≤ (E.bus (s.xfers + j)).ret →
      retryLoop K E tx rx n ret0 buf s =
        some ((E.bus (s.xfers + j)).ret, rxInto (E.bus (s.xfers + j)) rx buf,
          s.after (j + 1) (failedAttempts K segs rx j ++ [Event.xfer segs rx])) := by
  intro j
  induction j with
  | zero =>
    intro n ret0 buf s hn h0 hf _ hok
    obtain ⟨m, rfl⟩ : ∃ m, n = m + 1 := ⟨n - 1, by omega⟩
    have hok' : ¬ (E.bus s.xfers).ret < 0 := by simpa using hok
    simp only [retryLoop, hK, h0, if_true, spi_sync_eq E s hl hf, hok', if_false]
    rw [retryLoop_done K E tx rx m _ _ (by rw [hK]; exact hok')]
    simp [failedAttempts_zero]
  | succ j ih =>
    intro n ret0 buf s hn h0 hf hfail hok
    obtain ⟨m, rfl⟩ : ∃ m, n = m + 1 := ⟨n - 1, by omega⟩
    have h1 : (E.bus s.xfers).ret < 0 := by simpa using hfail 0 (by omega)
    simp only [retryLoop, hK, h0, if_true, spi_sync_eq E s hl hf, h1]
    have hx : (mdelay K (s.after 1 [Event.xfer segs rx])).xfers = s.xfers + 1 := rfl
    rw [ih m _ _ _ (by omega) h1 (rxInto_fits _ hf)
      (fun k hk => by rw [hx, Nat.add_assoc, Nat.add_comm 1 k]; exact hfail (k + 1) (by omega))
      (by rw [hx, Nat.add_assoc, Nat.add_comm 1 j]; exact hok)]
    rw [hx, Nat.add_assoc, Nat.add_comm 1 j, rxInto_rxInto]
    simp [mdelay, State.after, failedAttempts_succ, Nat.add_assoc, Nat.add_comm 1 j]
    omega

/-- A retry loop all of whose attempts fail. -/
theorem retryLoop_fail (K : Consts) (E : Env) {tx : List (List Nat × Nat)}
    {segs : List (List Nat)} {rx : Option Nat} (hK : K.OK = 0) (hl : loadAll tx = some segs) :
    ∀ (n : Nat) (ret0 : Int) (buf : List Nat) (s : State), ret0 < 0 → RxFits rx buf →
      (∀ k, k < n → (E.bus (s.xfers + k)).ret < 0) →
      ∃ ret buf1, ret < 0 ∧ buf1.length = buf.length ∧
        retryLoop K E tx rx n ret0 buf s =
          some (ret, buf1, s.after n (failedAttempts K segs rx n)) := by
  intro n
  induction n with
  | zero =>
    intro ret0 buf s h0 _ _
    exact ⟨ret0, buf, h0, rfl, by simp [retryLoop, failedAttempts_zero, State.after_zero]⟩
  | succ n ih =>
    intro ret0 buf s h0 hf hfail
    have h1 : (E.bus s.xfers).ret < 0 := by simpa using hfail 0 (by omega)
    have hx : (mdelay K (s.after 1 [Event.xfer segs rx])).xfers = s.xfers + 1 := rfl
    obtain ⟨ret, buf1, hr, hlen, heq⟩ := ih (E.bus s.xfers).ret (rxInto (E.bus s.xfers) rx buf)
      (mdelay K (s.after 1 [Event.xfer segs rx])) h1 (rxInto_fits _ hf)
      (fun k hk => by rw [hx, Nat.add_assoc, Nat.add_comm 1 k]; exact hfail (k + 1) (by omega))
    refine ⟨ret, buf1, hr, by rw [hlen, rxInto_length _ hf], ?_⟩
    simp only [retryLoop, hK, h0, if_true, spi_sync_eq E s hl hf, h1, heq]
    simp [mdelay, State.after, failedAttempts_succ, Nat.add_assoc, Nat.add_comm 1 n]

theorem first_success_or_all_fail (p : Nat → Prop) [DecidablePred p] (n : Nat) :
    (∃ j, j < n ∧ (∀ i, i < j → ¬ p i) ∧ p j) ∨ (∀ i, i < n → ¬ p i) := by
  induction n with
  | zero => exact Or.inr (fun i hi => absurd hi (Nat.not_lt_zero i))
  | succ n ih =>
    rcases ih with ⟨j, hj, h1, h2⟩ | h
    · exact Or.inl ⟨j, by omega, h1, h2⟩
    · by_cases hp : p n
      · exact Or.inl ⟨n, by omega, h, hp⟩
      · right
        intro i hi
        rcases Nat.lt_succ_iff_lt_or_eq.mp hi with h' | rfl
        · exact h i h'
        · exact hp

/-- Every retry loop either meets a first successful attempt within its budget, or fails
in all of its attempts. -/
theorem retryLoop_cases (K : Consts) (E : Env) {tx : List (List Nat × Nat)}
    {segs : List (List Nat)} {rx : Option Nat} (hK : K.OK = 0) (hl : loadAll tx = some segs)
    (n : Nat) (buf : List Nat) (s : State) (hf : RxFits rx buf) :
    (∃ j, j < n ∧ FirstOk E s.xfers j ∧
      retryLoop K E tx rx n (-1) buf s =
        some ((E.bus (s.xfers + j)).ret, rxInto (E.bus (s.xfers + j)) rx buf,
          s.after (j + 1) (okEvents K segs rx j))) ∨
    (AllFail E s.xfers n ∧
      ∃ ret buf1, ret < 0 ∧ buf1.length = buf.length ∧
        retryLoop K E tx rx n (-1) buf s =
          some (ret, buf1, s.after n (failedAttempts K segs rx n))) := by
  rcases first_success_or_all_fail (fun i => 0 ≤ (E.bus (s.xfers + i)).ret) n with
    ⟨j, hj, h1, h2⟩ | h
  · left
    have h1' : ∀ i, i < j → (E.bus (s.xfers + i)).ret < 0 := fun i hi => by
      simpa using h1 i hi
    exact ⟨j, hj, ⟨h1', h2⟩, retryLoop_success K E hK hl j n (-1) buf s hj (by decide) hf h1' h2⟩
  · right
    have h' : ∀ i, i < n → (E.bus (s.xfers + i)).ret < 0 := fun i hi => by
      simpa using h i hi
    exact ⟨h', retryLoop_fail K E hK hl n (-1) buf s (by decide) hf h'⟩

/-! ## The raw operations on a bound bus -/

theorem load_eq {buf : List Nat} {n : Nat} (h : n ≤ buf.length) : load buf n = some (buf.take n) := by
  simp [load, h]

theorem store_eq {buf : List Nat} {off : Nat} {bytes : List Nat}
    (h : off + bytes.length ≤ buf.length) :
    store buf off bytes = some (buf.take off ++ bytes ++ buf.drop (off + bytes.length)) := by
  simp [store, h]

theorem store_length {buf b : List Nat} {off : Nat} {bytes : List Nat}
    (h : store buf off bytes = some b) : b.length = buf.length := by
  unfold store at h
  split at h
  · cases h
    simp; omega
  · cases h

theorem memcpy_eq {dst src : List Nat} {off n : Nat} (hs : n ≤ src.length)
    (hd : off + n ≤ dst.length) :
    memcpy dst off src n = some (dst.take off ++ src.take n ++ dst.drop (off + n)) := by
  have hl : (src.take n).length = n := by simp [hs]
  simp [memcpy, load_eq hs, store, hl, hd]

theorem loadAll_one {b : List Nat} {n : Nat} (h : n ≤ b.length) :
    loadAll [(b, n)] = some [b.take n] := by
  simp [loadAll, load_eq h]

theorem loadAll_two {b c : List Nat} {n m : Nat} (h : n ≤ b.length) (h' : m ≤ c.length) :
    loadAll [(b, n), (c, m)] = some [b.take n, c.take m] := by
  simp [loadAll, load_eq h, load_eq h']

theorem Bound.after {K : Consts} {s : State} (h : Bound K s) (n : Nat) (e : List Event) :
    Bound K (s.after n e) := h

theorem Bound.setWriteBuf {K : Consts} {s : State} (h : Bound K s) {b : List Nat}
    (hb : b.length = K.sizeof_io_write_buf) : Bound K (setWriteBuf s b) := by
  obtain ⟨info, hc, h1, h2, h3⟩ := h
  exact ⟨{ info with io_write_buf := b }, by simp [Fts.setWriteBuf, hc], hb, h2, h3⟩

theorem Bound.setExtraBuf {K : Consts} {s : State} (h : Bound K s) {b : List Nat}
    (hb : b.length = K.sizeof_io_extra_write_buf) : Bound K (setExtraBuf s b) := by
  obtain ⟨info, hc, h1, h2, h3⟩ := h
  exact ⟨{ info with io_extra_write_buf := b }, by simp [Fts.setExtraBuf, hc], h1, hb, h3⟩

theorem Bound.setReadBuf {K : Consts} {s : State} (h : Bound K s) {b : List Nat}
    (hb : b.length = K.sizeof_io_read_buf) : Bound K (setReadBuf s b) := by
  obtain ⟨info, hc, h1, h2, h3⟩ := h
  exact ⟨{ info with io_read_buf := b }, by simp [Fts.setReadBuf, hc], h1, h2, hb⟩

theorem stageWrite_eq {s : State} {info : Scratch} {cmd : List Nat} {n : Nat}
    (hc : s.client = some info) (hn : n ≤ cmd.length) (hcap : n ≤ info.io_write_buf.length) :
    stageWrite cmd n s =
      some (cmd.take n ++ info.io_write_buf.drop n,
        setWriteBuf s (cmd.take n ++ info.io_write_buf.drop n)) := by
  have h : memcpy info.io_write_buf 0 cmd n =
      some (cmd.take n ++ info.io_write_buf.drop n) := by
    rw [memcpy_eq hn (by omega)]; simp
  simp [stageWrite, getDrvInfo, hc, h]

theorem stageExtra_eq {s : State} {info : Scratch} {cmd : List Nat} {n : Nat}
    (hc : s.client = some info) (hn : n ≤ cmd.length)
    (hcap : n ≤ info.io_extra_write_buf.length) :
    stageExtra cmd n s =
      some (cmd.take n ++ info.io_extra_write_buf.drop n,
        setExtraBuf s (cmd.take n ++ info.io_extra_write_buf.drop n)) := by
  have h : memcpy info.io_extra_write_buf 0 cmd n =
      some (cmd.take n ++ info.io_extra_write_buf.drop n) := by
    rw [memcpy_eq hn (by omega)]; simp
  simp [stageExtra, getDrvInfo, hc, h]

theorem staged_take {cmd buf : List Nat} {n : Nat} (hn : n ≤ cmd.length) :
    (cmd.take n ++ buf.drop n).take n = cmd.take n := by
  rw [List.take_append_of_le_length (by simp [hn])]
  simp

theorem staged_length {cmd buf : List Nat} {n : Nat} (hn : n ≤ cmd.length)
    (hb : n ≤ buf.length) : (cmd.take n ++ buf.drop n).length = buf.length := by
  simp [hn]; omega

/-- The heap write on a bound bus. -/
theorem fts_write_heap_cases (K : Consts) (E : Env) (hK : K.OK = 0) {cmd : List Nat} {n : Nat}
    {s : State} (hc : s.client.isSome) (hn : n ≤ cmd.length) :
    (∃ j, j < K.I2C_RETRY ∧ FirstOk E s.xfers j ∧
      fts_write_heap K E cmd n s =
        some (K.OK, s.after (j + 1) (okEvents K [cmd.take n] none j))) ∨
    (AllFail E s.xfers K.I2C_RETRY ∧
      fts_write_heap K E cmd n s =
        some (K.ERROR_BUS_W,
          s.after K.I2C_RETRY (failedAttempts K [cmd.take n] none K.I2C_RETRY))) := by
  obtain ⟨info, hi⟩ := Option.isSome_iff_exists.mp hc
  have hf : RxFits none ([] : List Nat) := fun n h => by cases h
  rcases retryLoop_cases K E hK (loadAll_one hn) K.I2C_RETRY [] s hf with
    ⟨j, hj, hok, heq⟩ | ⟨hall, ret, buf1, hret, _, heq⟩
  · left
    refine ⟨j, hj, hok, ?_⟩
    have : ¬ (E.bus (s.xfers + j)).ret < 0 := by simpa using hok.2
    simp [fts_write_heap, fts_write_internal, hi, heq, this]
  · right
    refine ⟨hall, ?_⟩
    simp [fts_write_heap, fts_write_internal, hi, heq, hret]

/-- The heap write-then-read on a bound bus. -/
theorem fts_writeRead_heap_cases (K : Consts) (E : Env) (hK : K.OK = 0) {cmd : List Nat}
    {n : Nat} {outBuf : List Nat} {m : Nat} {s : State} (hc : s.client.isSome)
    (hn : n ≤ cmd.length) (hm : m ≤ outBuf.length) :
    (∃ j, j < K.I2C_RETRY ∧ FirstOk E s.xfers j ∧
      fts_writeRead_heap K E cmd n outBuf m s =
        some (K.OK, delivered (E.bus (s.xfers + j)) m ++ outBuf.drop m,
          s.after (j + 1) (okEvents K [cmd.take n] (some m) j))) ∨
    (AllFail E s.xfers K.I2C_RETRY ∧ ∃ buf1, buf1.length = outBuf.length ∧
      fts_writeRead_heap K E cmd n outBuf m s =
        some (K.ERROR_BUS_WR, buf1,
          s.after K.I2C_RETRY (failedAttempts K [cmd.take n] (some m) K.I2C_RETRY))) := by
  obtain ⟨info, hi⟩ := Option.isSome_iff_exists.mp hc
  have hf : RxFits (some m) outBuf := fun k h => by cases h; exact hm
  rcases retryLoop_cases K E hK (loadAll_one hn) K.I2C_RETRY outBuf s hf with
    ⟨j, hj, hok, heq⟩ | ⟨hall, ret, buf1, hret, hlen, heq⟩
  · left
    refine ⟨j, hj, hok, ?_⟩
    have : ¬ (E.bus (s.xfers + j)).ret < 0 := by simpa using hok.2
    simp [fts_writeRead_heap, fts_writeRead_internal, hi, rxTarget, heq, finishRead, this, rxInto]
  · right
    refine ⟨hall, buf1, hlen, ?_⟩
    simp [fts_writeRead_heap, fts_writeRead_internal, hi, rxTarget, heq, finishRead, hret]

theorem delivered_length (o : Outcome) (n : Nat) : (delivered o n).length = n := by
  simp [delivered]

theorem memcpy_rx {outBuf rb : List Nat} (o : Outcome) {n : Nat} (hout : n ≤ outBuf.length) :
    memcpy outBuf 0 (delivered o n ++ rb) n = some (delivered o n ++ outBuf.drop n) := by
  rw [memcpy_eq (by simp [delivered_length]) (by omega)]
  simp [List.take_append_of_le_length, delivered_length]

/-- The end of a reading function after its retry loop, in the two cases of the loop. -/
theorem finishRead_ok (K : Consts) (err : Int) (dma_safe : Bool) {outBuf rb : List Nat} {n : Nat}
    (o : Outcome) (s : State) (ho : 0 ≤ o.ret) (hout : n ≤ outBuf.length)
    (hrb : dma_safe = true → rb = outBuf) :
    ∃ s1, finishRead K err dma_safe outBuf n (o.ret, delivered o n ++ rb.drop n, s) =
        some (K.OK, delivered o n ++ outBuf.drop n, s1) ∧
      s1.xfers = s.xfers ∧ s1.trace = s.trace ∧ s1.echos = s.echos ∧
      (dma_safe = true → s1 = s) ∧
      (dma_safe = false → s1 = setReadBuf s (delivered o n ++ rb.drop n)) := by
  have h : ¬ o.ret < 0 := by simpa using ho
  cases dma_safe with
  | true => exact ⟨s, by simp [finishRead, h, hrb rfl], rfl, rfl, rfl, fun _ => rfl, by simp⟩
  | false =>
    exact ⟨setReadBuf s (delivered o n ++ rb.drop n), by simp [finishRead, h, memcpy_rx o hout],
      rfl, rfl, rfl, by simp, fun _ => rfl⟩

theorem finishRead_fail (K : Consts) (err : Int) (dma_safe : Bool) (outBuf : List Nat)
    {buf1 rb : List Nat} (n : Nat) {ret : Int} (s : State) (hr : ret < 0) (hlen : buf1.length = rb.length)
    (hrb : dma_safe = true → rb = outBuf) :
    ∃ out s1, finishRead K err dma_safe outBuf n (ret, buf1, s) = some (err, out, s1) ∧
      out.length = outBuf.length ∧ (dma_safe = false → out = outBuf) ∧
      s1.xfers = s.xfers ∧ s1.trace = s.trace ∧ s1.echos = s.echos ∧
      (dma_safe = true → s1 = s) ∧ (dma_safe = false → s1 = setReadBuf s buf1) := by
  cases dma_safe with
  | true =>
    exact ⟨buf1, s, by simp [finishRead, hr], by rw [hlen, hrb rfl], by simp, rfl, rfl, rfl,
      fun _ => rfl, by simp⟩
  | false =>
    exact ⟨outBuf, setReadBuf s buf1, by simp [finishRead, hr], rfl, fun _ => rfl, rfl, rfl, rfl,
      by simp, fun _ => rfl⟩

/-- A retried message with a read phase followed by `finishRead`, from a bound state. -/
theorem retried_read (K : Consts) (E : Env) (hK : K.OK = 0) (err : Int) (dma_safe : Bool)
    {tx : List (List Nat × Nat)} {segs : List (List Nat)} (hl : loadAll tx = some segs)
    (outBuf rb : List Nat) (n : Nat) {s : State} (hb : Bound K s)
    (hout : n ≤ outBuf.length) (hrb : dma_safe = true → rb = outBuf)
    (hrbl : dma_safe = false → rb.length = K.sizeof_io_read_buf)
    (hcap : n ≤ rb.length) :
    ∃ r out s1,
      (match retryLoop K E tx (some n) K.I2C_RETRY (-1) rb s with
        | none => none
        | some x => finishRead K err dma_safe outBuf n x) = some (r, out, s1) ∧
      RetriedRead K E segs n err dma_safe outBuf s r out s1 ∧ Bound K s1 ∧
      s1.echos = s.echos := by
  have hf : RxFits (some n) rb := fun k h => by cases h; exact hcap
  rcases retryLoop_cases K E hK hl K.I2C_RETRY rb s hf with
    ⟨j, hj, hok, heq⟩ | ⟨hall, ret, buf1, hret, hlen, heq⟩
  · obtain ⟨s1, h1, hx, ht, he, hs, hs'⟩ := finishRead_ok K err dma_safe
      (E.bus (s.xfers + j)) (s.after (j + 1) (okEvents K segs (some n) j)) hok.2 hout hrb
    refine ⟨K.OK, _, s1, by rw [heq]; exact h1,
      Or.inl ⟨j, hj, hok, rfl, rfl, by rw [hx]; rfl, by rw [ht]; rfl⟩, ?_, by rw [he]; rfl⟩
    cases dma_safe with
    | true => rw [hs rfl]; exact hb.after _ _
    | false =>
      rw [hs' rfl]
      exact (hb.after _ _).setReadBuf (by
        have := rxInto_length (E.bus (s.xfers + j)) hf
        simp only [rxInto] at this
        rw [this, hrbl rfl])
  · obtain ⟨out, s1, h1, hol, hou, hx, ht, he, hs, hs'⟩ := finishRead_fail K err dma_safe
      outBuf n (s.after K.I2C_RETRY (failedAttempts K segs (some n) K.I2C_RETRY)) hret hlen hrb
    refine ⟨err, out, s1, by rw [heq]; exact h1,
      Or.inr ⟨hall, rfl, hol, hou, by rw [hx]; rfl, by rw [ht]; rfl⟩, ?_, by rw [he]; rfl⟩
    cases dma_safe with
    | true => rw [hs rfl]; exact hb.after _ _
    | false =>
      rw [hs' rfl]
      exact (hb.after _ _).setReadBuf (by rw [hlen, hrbl rfl])

/-- `fts_read_internal` on a bound bus, for a length that passes the size check. -/
theorem fts_read_internal_spec (K : Consts) (E : Env) (hK : K.OK = 0) (dma_safe : Bool)
    {outBuf : List Nat} {n : Nat} {s : State} (hb : Bound K s)
    (hsz : dma_safe = false → n ≤ K.sizeof_io_read_buf) (hout : n ≤ outBuf.length) :
    ∃ r out s1, fts_read_internal K E outBuf n dma_safe s = some (r, out, s1) ∧
      RetriedRead K E [] n K.ERROR_BUS_R dma_safe outBuf s r out s1 ∧ Bound K s1 ∧
      s1.echos = s.echos := by
  obtain ⟨info, hc, h1, h2, h3⟩ := id hb
  have hsz' : ¬ (dma_safe = false ∧ n > K.sizeof_io_read_buf) := fun h => by
    have := hsz h.1; omega
  have key := retried_read K E hK K.ERROR_BUS_R dma_safe (show loadAll [] = some [] from rfl)
    outBuf (rxTarget dma_safe outBuf s) n hb hout
    (by intro h; simp [rxTarget, h]) (by intro h; simp [rxTarget, h, getDrvInfo, hc, h3])
    (by cases dma_safe <;> simp [rxTarget, getDrvInfo, hc, h3, hout]; exact hsz rfl)
  simpa only [fts_read_internal, hsz', if_false, hc] using key

/-- `fts_write_internal` on a bound bus, for a length that passes the size check. -/
theorem fts_write_internal_spec (K : Consts) (E : Env) (hK : K.OK = 0) (dma_safe : Bool)
    {cmd : List Nat} {n : Nat} {s : State} (hb : Bound K s)
    (hsz : dma_safe = false → n ≤ K.sizeof_io_write_buf) (hn : n ≤ cmd.length) :
    ∃ r s1, fts_write_internal K E cmd n dma_safe s = some (r, s1) ∧
      Retried K E [cmd.take n] none K.ERROR_BUS_W s r s1 ∧ Bound K s1 ∧
      s1.echos = s.echos := by
  obtain ⟨info, hc, h1, h2, h3⟩ := id hb
  have hf : RxFits none ([] : List Nat) := fun n h => by cases h
  cases dma_safe with
  | true =>
    rcases fts_write_heap_cases K E hK (s := s) (by simp [hc]) hn with
      ⟨j, hj, hok, heq⟩ | ⟨hall, heq⟩
    · exact ⟨_, _, heq, Or.inl ⟨j, hj, hok, rfl, rfl, rfl⟩, hb.after _ _, rfl⟩
    · exact ⟨_, _, heq, Or.inr ⟨hall, rfl, rfl, rfl⟩, hb.after _ _, rfl⟩
  | false =>
    have hcap : n ≤ info.io_write_buf.length := by rw [h1]; exact hsz rfl
    have hsz' : ¬ n > K.sizeof_io_write_buf := by have := hsz rfl; omega
    have hb1 : Bound K (setWriteBuf s (cmd.take n ++ info.io_write_buf.drop n)) :=
      hb.setWriteBuf (by rw [staged_length hn hcap, h1])
    obtain ⟨info1, hc1, -⟩ := id hb1
    have hl : loadAll [(cmd.take n ++ info.io_write_buf.drop n, n)] = some [cmd.take n] := by
      rw [loadAll_one (by rw [staged_length hn hcap]; exact hcap), staged_take hn]
    rcases retryLoop_cases K E hK hl K.I2C_RETRY []
        (setWriteBuf s (cmd.take n ++ info.io_write_buf.drop n)) hf with
      ⟨j, hj, hok, heq⟩ | ⟨hall, ret, buf1, hret, _, heq⟩
    · have : ¬ (E.bus (s.xfers + j)).ret < 0 := by simpa using hok.2
      refine ⟨K.OK, _, ?_, Or.inl ⟨j, hj, hok, rfl, rfl, rfl⟩, hb1.after (j + 1) _, rfl⟩
      simp only [fts_write_internal, hsz', and_false, if_false, if_true, stageWrite_eq hc hn hcap,
        hc1, heq]
      simp [this, Fts.setWriteBuf]
    · refine ⟨K.ERROR_BUS_W, _, ?_, Or.inr ⟨hall, rfl, rfl, rfl⟩, hb1.after K.I2C_RETRY _, rfl⟩
      simp only [fts_write_internal, hsz', and_false, if_false, if_true, stageWrite_eq hc hn hcap,
        hc1, heq]
      simp [hret, Fts.setWriteBuf]

/-- `RetriedRead` only looks at the counters and the trace of the start state. -/
theorem RetriedRead.of_eq {K : Consts} {E : Env} {segs : List (List Nat)} {n : Nat} {err : Int}
    {dma_safe : Bool} {outBuf out : List Nat} {s0 s s1 : State} {r : Int}
    (h : RetriedRead K E segs n err dma_safe outBuf s0 r out s1) (hx : s0.xfers = s.xfers)
    (ht : s0.trace = s.trace) : RetriedRead K E segs n err dma_safe outBuf s r out s1 := by
  unfold RetriedRead at h ⊢
  rw [hx, ht] at h
  exact h

/-- `fts_writeRead_internal` on a bound bus, for lengths that pass the size check. -/
theorem fts_writeRead_internal_spec (K : Consts) (E : Env) (hK : K.OK = 0) (dma_safe : Bool)
    {cmd outBuf : List Nat} {n m : Nat} {s : State} (hb : Bound K s)
    (hsz : dma_safe = false → n ≤ K.sizeof_io_write_buf ∧ m ≤ K.sizeof_io_read_buf)
    (hn : n ≤ cmd.length) (hout : m ≤ outBuf.length) :
    ∃ r out s1, fts_writeRead_internal K E cmd n outBuf m dma_safe s = some (r, out, s1) ∧
      RetriedRead K E [cmd.take n] m K.ERROR_BUS_WR dma_safe outBuf s r out s1 ∧ Bound K s1 ∧
      s1.echos = s.echos := by
  obtain ⟨info, hc, h1, h2, h3⟩ := id hb
  cases dma_safe with
  | true =>
    have key := retried_read K E hK K.ERROR_BUS_WR true (loadAll_one hn)
      outBuf outBuf m hb hout (fun _ => rfl) (by simp) hout
    simpa [fts_writeRead_internal, hc, rxTarget] using key
  | false =>
    have hcap : n ≤ info.io_write_buf.length := by rw [h1]; exact (hsz rfl).1
    have hsz' : ¬ (n > K.sizeof_io_write_buf ∨ m > K.sizeof_io_read_buf) := by
      have := hsz rfl; omega
    have hb1 : Bound K (setWriteBuf s (cmd.take n ++ info.io_write_buf.drop n)) :=
      hb.setWriteBuf (by rw [staged_length hn hcap, h1])
    have hc1 : (setWriteBuf s (cmd.take n ++ info.io_write_buf.drop n)).client =
        some { info with io_write_buf := cmd.take n ++ info.io_write_buf.drop n } := by
      simp [Fts.setWriteBuf, hc]
    have hl : loadAll [(cmd.take n ++ info.io_write_buf.drop n, n)] = some [cmd.take n] := by
      rw [loadAll_one (by rw [staged_length hn hcap]; exact hcap), staged_take hn]
    obtain ⟨r, out, s1, heq, hrr, hbd, he⟩ := retried_read K E hK K.ERROR_BUS_WR false hl
      outBuf info.io_read_buf m hb1 hout (by simp) (fun _ => h3)
      (by rw [h3]; exact (hsz rfl).2)
    refine ⟨r, out, s1, ?_, hrr.of_eq rfl rfl, hbd, he⟩
    simp only [fts_writeRead_internal, hsz', and_false, if_false, if_true,
      stageWrite_eq hc hn hcap, hc1, rxTarget, getDrvInfo]
    exact heq

/-- `fts_writeThenWriteRead_internal` on a bound bus, for lengths that pass the size
check. -/
theorem fts_writeThenWriteRead_internal_spec (K : Consts) (E : Env) (hK : K.OK = 0)
    (dma_safe : Bool) {w c outBuf : List Nat} {n k m : Nat} {s : State} (hb : Bound K s)
    (hsz : dma_safe = false → n ≤ K.sizeof_io_write_buf ∧ k ≤ K.sizeof_io_extra_write_buf ∧
      m ≤ K.sizeof_io_read_buf)
    (hn : n ≤ w.length) (hk : k ≤ c.length) (hout : m ≤ outBuf.length) :
    ∃ r out s1,
      fts_writeThenWriteRead_internal K E w n c k outBuf m dma_safe s = some (r, out, s1) ∧
      RetriedRead K E [w.take n, c.take k] m K.ERROR_BUS_WR dma_safe outBuf s r out s1 ∧
      Bound K s1 ∧ s1.echos = s.echos := by
  obtain ⟨info, hc, h1, h2, h3⟩ := id hb
  cases dma_safe with
  | true =>
    have key := retried_read K E hK K.ERROR_BUS_WR true (loadAll_two hn hk)
      outBuf outBuf m hb hout (fun _ => rfl) (by simp) hout
    simpa [fts_writeThenWriteRead_internal, hc, rxTarget] using key
  | false =>
    have hcap : n ≤ info.io_write_buf.length := by rw [h1]; exact (hsz rfl).1
    have hcapx : k ≤ info.io_extra_write_buf.length := by rw [h2]; exact (hsz rfl).2.1
    have hsz' : ¬ (n > K.sizeof_io_write_buf ∨ k > K.sizeof_io_extra_write_buf ∨
        m > K.sizeof_io_read_buf) := by
      have := hsz rfl; omega
    have hb1 : Bound K (setWriteBuf s (w.take n ++ info.io_write_buf.drop n)) :=
      hb.setWriteBuf (by rw [staged_length hn hcap, h1])
    have hc1 : (setWriteBuf s (w.take n ++ info.io_write_buf.drop n)).client =
        some { info with io_write_buf := w.take n ++ info.io_write_buf.drop n } := by
      simp [Fts.setWriteBuf, hc]
    have hb2 : Bound K (setExtraBuf (setWriteBuf s (w.take n ++ info.io_write_buf.drop n))
        (c.take k ++ info.io_extra_write_buf.drop k)) :=
      hb1.setExtraBuf (by rw [staged_length hk hcapx, h2])
    have hc2 : (setExtraBuf (setWriteBuf s (w.take n ++ info.io_write_buf.drop n))
        (c.take k ++ info.io_extra_write_buf.drop k)).client =
        some { info with io_write_buf := w.take n ++ info.io_write_buf.drop n,
                         io_extra_write_buf := c.take k ++ info.io_extra_write_buf.drop k } := by
      simp [Fts.setExtraBuf, hc1]
    have hl : loadAll [(w.take n ++ info.io_write_buf.drop n, n),
        (c.take k ++ info.io_extra_write_buf.drop k, k)] = some [w.take n, c.take k] := by
      rw [loadAll_two (by rw [staged_length hn hcap]; exact hcap)
        (by rw [staged_length hk hcapx]; exact hcapx), staged_take hn, staged_take hk]
    obtain ⟨r, out, s1, heq, hrr, hbd, he⟩ := retried_read K E hK K.ERROR_BUS_WR false hl
      outBuf info.io_read_buf m hb2 hout (by simp) (fun _ => h3)
      (by rw [h3]; exact (hsz rfl).2.2)
    refine ⟨r, out, s1, ?_, hrr.of_eq rfl rfl, hbd, he⟩
    have hst : stageExtra c k (setWriteBuf s (w.take n ++ info.io_write_buf.drop n)) = _ :=
      stageExtra_eq hc1 hk hcapx
    simp only [fts_writeThenWriteRead_internal, hsz', and_false, if_false, if_true,
      stageWrite_eq hc hn hcap, hst, hc2, rxTarget, getDrvInfo]
    exact heq

/-! ## Runs of retried messages -/

theorem Ran.nil (K : Consts) (E : Env) (s : State) : Ran K E [] [] s s := by
  simp [Ran, SubsFrom, spent, runEvents, failEvents]

/-- The first message fails: the run ends there. -/
theorem Ran.cons_fail {K : Consts} {E : Env} (m : Msg) (ms : List Msg) (s s1 : State)
    (hall : AllFail E s.xfers K.I2C_RETRY) (hx : s1.xfers = s.xfers + K.I2C_RETRY)
    (ht : s1.trace = s.trace ++ failedAttempts K m.segs m.rx K.I2C_RETRY)
    (he : s1.echos = s.echos) : Ran K E (m :: ms) [] s s1 := by
  refine ⟨trivial, by simp, fun _ => by simpa [spent] using hall, by simp [spent, hx], ?_, he⟩
  simp [runEvents, failEvents, ht]

/-- The first message succeeds after `j` failed attempts and the run goes on. -/
theorem Ran.cons_ok {K : Consts} {E : Env} (m : Msg) {ms : List Msg} {subs : List Sub}
    (s s0 : State) {s1 : State} {j : Nat} (hj : j < K.I2C_RETRY) (hok : FirstOk E s.xfers j)
    (hx : s0.xfers = s.xfers + (j + 1))
    (ht : s0.trace = s.trace ++ okEvents K m.segs m.rx j) (he : s0.echos = s.echos)
    (h : Ran K E ms subs s0 s1) :
    Ran K E (m :: ms) (⟨j, E.bus (s.xfers + j)⟩ :: subs) s s1 := by
  obtain ⟨h1, h2, h3, h4, h5, h6⟩ := h
  refine ⟨⟨hj, hok, rfl, by rw [← hx]; exact h1⟩, by simpa using h2, ?_, ?_, ?_, by rw [h6, he]⟩
  · intro hlt
    have := h3 (by simpa using hlt)
    rw [hx] at this
    simpa [spent, Nat.add_assoc] using this
  · rw [h4, hx]
    simp only [spent, List.length_cons, Nat.add_lt_add_iff_right]
    omega
  · rw [h5, ht]
    simp [runEvents, failEvents, List.append_assoc]

/-! ## Chunk arithmetic -/

theorem lt_nChunks {C : Nat} (hC : 0 < C) (L k : Nat) : k < nChunks C L ↔ k * C < L := by
  unfold nChunks
  rw [Nat.lt_iff_add_one_le, Nat.le_div_iff_mul_le hC, Nat.add_mul]
  omega

theorem chunkOf_eq_min (C r : Nat) : chunkOf C r = min C r := by
  unfold chunkOf
  split <;> omega

theorem restOf_eq_sub (C r : Nat) : restOf C r = r - C := by
  unfold restOf
  split <;> omega

theorem chunksFrom_nil {C : Nat} (hC : 0 < C) {L k : Nat} (addr : Nat) (h : L ≤ k * C) :
    chunksFrom C L addr k = [] := by
  have : ¬ k < nChunks C L := by rw [lt_nChunks hC]; omega
  have h0 : nChunks C L - k = 0 := by omega
  simp [chunksFrom, h0]

theorem chunksFrom_cons {C : Nat} (hC : 0 < C) {L k : Nat} (addr : Nat) (h : k * C < L) :
    chunksFrom C L addr k = chunkAt C L addr k :: chunksFrom C L addr (k + 1) := by
  have : k < nChunks C L := by rw [lt_nChunks hC]; exact h
  obtain ⟨m, hm⟩ : ∃ m, nChunks C L - k = m + 1 := ⟨nChunks C L - k - 1, by omega⟩
  have h1 : nChunks C L - (k + 1) = m := by omega
  simp [chunksFrom, hm, h1, List.range'_succ]

theorem chunks_eq_chunksFrom (C L addr : Nat) : chunks C L addr = chunksFrom C L addr 0 := by
  simp [chunks, chunksFrom, List.range_eq_range']

/-! ## The loop of `fts_writeU8UX` -/

/-- The contents of `finalCmd` and the bytes sent once header and payload are stored. -/
theorem finalCmd_write (wb hdr data : List Nat) (n off : Nat) (hoff : hdr.length = off)
    (hn : n ≤ data.length) (hcap : off + n ≤ wb.length) :
    ∃ b fc, store wb 0 hdr = some b ∧ memcpy b off data n = some fc ∧
      fc.length = wb.length ∧ fc.take (off + n) = hdr ++ data.take n := by
  subst hoff
  have h1 : store wb 0 hdr = some (hdr ++ wb.drop hdr.length) := by
    rw [store_eq (by omega)]; simp
  have hl : (hdr ++ wb.drop hdr.length).length = wb.length := by simp; omega
  refine ⟨_, _, h1, memcpy_eq hn (by rw [hl]; exact hcap), ?_, ?_⟩
  · simp [hn]; omega
  · have : (List.take hdr.length (hdr ++ List.drop hdr.length wb) ++ List.take n data).length =
        hdr.length + n := by simp [hn]
    rw [List.take_append_of_le_length (by rw [this]), List.take_of_length_le (by rw [this])]
    simp

theorem writeU8UX_loop_spec (K : Consts) (E : Env) (hK : K.Codes) (hL : K.Limits)
    (cmd w : Nat) (hw : w ≤ 8) (L addr : Nat) (data0 : List Nat) (hd : L ≤ data0.length) :
    ∀ (fuel k remaining address : Nat) (data : List Nat) (s : State), Bound K s →
      remaining ≤ fuel → remaining = L - k * K.WRITE_CHUNK →
      (0 < remaining → address = (addr + k * K.WRITE_CHUNK) % 2 ^ 64 ∧
        data = data0.drop (k * K.WRITE_CHUNK)) →
      ∃ r s1 subs, writeU8UX_loop K E cmd w fuel remaining address data s = some (r, s1) ∧
        Bound K s1 ∧
        Ran K E ((chunksFrom K.WRITE_CHUNK L addr k).map (writeMsg cmd w data0)) subs s s1 ∧
        (r = K.OK ∧ subs.length = (chunksFrom K.WRITE_CHUNK L addr k).length ∨
          r = K.ERROR_BUS_W ∧ subs.length < (chunksFrom K.WRITE_CHUNK L addr k).length) := by
  intro fuel
  induction fuel with
  | zero =>
    intro k remaining address data s hb hf hr _
    have h0 : remaining = 0 := by omega
    have hnil := chunksFrom_nil hL.wchunk addr (show L ≤ k * K.WRITE_CHUNK by omega)
    exact ⟨K.OK, s, [], by simp [writeU8UX_loop, h0], hb, by rw [hnil]; exact Ran.nil K E s,
      Or.inl ⟨rfl, by rw [hnil]; rfl⟩⟩
  | succ fuel ih =>
    intro k remaining address data s hb hf hr hinv
    by_cases h0 : remaining = 0
    · have hnil := chunksFrom_nil hL.wchunk addr (show L ≤ k * K.WRITE_CHUNK by omega)
      exact ⟨K.OK, s, [], by simp [writeU8UX_loop, h0], hb, by rw [hnil]; exact Ran.nil K E s,
        Or.inl ⟨rfl, by rw [hnil]; rfl⟩⟩
    · have hpos : 0 < remaining := Nat.pos_of_ne_zero h0
      obtain ⟨rfl, rfl⟩ := hinv hpos
      obtain ⟨info, hc, h1, h2, h3⟩ := id hb
      have hkl : k * K.WRITE_CHUNK < L := by omega
      have hcons := chunksFrom_cons hL.wchunk addr hkl
      have hC := hL.wchunk
      have hwb := hL.wbuf
      have hsz : chunkOf K.WRITE_CHUNK remaining = min K.WRITE_CHUNK (L - k * K.WRITE_CHUNK) := by
        rw [chunkOf_eq_min, hr]
      obtain ⟨b, fc, hst, hfc, hfl, hft⟩ := finalCmd_write info.io_write_buf
        (header cmd w ((addr + k * K.WRITE_CHUNK) % 2 ^ 64)) (data0.drop (k * K.WRITE_CHUNK))
        (chunkOf K.WRITE_CHUNK remaining) (w + 1) (header_length _ _ _)
        (by rw [hsz, List.length_drop]; omega) (by rw [h1, hsz]; omega)
      have hb0 : Bound K (setWriteBuf s fc) := hb.setWriteBuf (by rw [hfl, h1])
      have hlen : 1 + w + chunkOf K.WRITE_CHUNK remaining ≤ fc.length := by
        rw [hfl, h1, hsz]; omega
      have hmsg : writeMsg cmd w data0 (chunkAt K.WRITE_CHUNK L addr k) =
          ⟨[fc.take (1 + w + chunkOf K.WRITE_CHUNK remaining)], none⟩ := by
        rw [Nat.add_comm 1 w, hft, hsz]; rfl
      have hbody : writeU8UX_loop K E cmd w (fuel + 1) remaining
          ((addr + k * K.WRITE_CHUNK) % 2 ^ 64) (data0.drop (k * K.WRITE_CHUNK)) s =
          (match fts_write_heap K E fc (1 + w + chunkOf K.WRITE_CHUNK remaining)
              (setWriteBuf s fc) with
            | none => none
            | some (r, s1) =>
              if r < K.OK then some (K.ERROR_BUS_W, s1)
              else writeU8UX_loop K E cmd w fuel (restOf K.WRITE_CHUNK remaining)
                (((addr + k * K.WRITE_CHUNK) % 2 ^ 64 + chunkOf K.WRITE_CHUNK remaining) % 2 ^ 64)
                ((data0.drop (k * K.WRITE_CHUNK)).drop (chunkOf K.WRITE_CHUNK remaining)) s1) := by
        simp only [writeU8UX_loop, hpos, if_true, getDrvInfo, hc, hst, hfc]
      rcases fts_write_heap_cases K E hK.ok (s := setWriteBuf s fc)
          (by obtain ⟨i, hi, -⟩ := hb0; simp [hi]) hlen with ⟨j, hj, hok, heq⟩ | ⟨hall, heq⟩
      · have hb1 : Bound K ((setWriteBuf s fc).after (j + 1)
            (okEvents K [fc.take (1 + w + chunkOf K.WRITE_CHUNK remaining)] none j)) :=
          hb0.after _ _
        obtain ⟨r, s1, subs, hrun, hbd, hran, hres⟩ := ih (k + 1)
          (restOf K.WRITE_CHUNK remaining)
          (((addr + k * K.WRITE_CHUNK) % 2 ^ 64 + chunkOf K.WRITE_CHUNK remaining) % 2 ^ 64)
          ((data0.drop (k * K.WRITE_CHUNK)).drop (chunkOf K.WRITE_CHUNK remaining)) _ hb1
          (by rw [restOf_eq_sub]; omega)
          (by rw [restOf_eq_sub, hr, Nat.add_mul]; omega)
          (by
            intro hrest
            rw [restOf_eq_sub] at hrest
            have hmin : chunkOf K.WRITE_CHUNK remaining = K.WRITE_CHUNK := by
              rw [chunkOf_eq_min]; omega
            rw [hmin, List.drop_drop, Nat.add_mul, Nat.one_mul]
            exact ⟨by omega, congrArg (fun n => List.drop n data0) (by omega)⟩)
        refine ⟨r, s1, ⟨j, E.bus (s.xfers + j)⟩ :: subs, ?_, hbd, ?_, ?_⟩
        · rw [hbody, heq]
          simp only [hrun, lt_irrefl, if_false]
        · rw [hcons, List.map_cons, hmsg]
          exact Ran.cons_ok _ s ((setWriteBuf s fc).after (j + 1)
            (okEvents K [fc.take (1 + w + chunkOf K.WRITE_CHUNK remaining)] none j))
            hj hok rfl rfl rfl hran
        · rw [hcons]
          simpa using hres
      · refine ⟨K.ERROR_BUS_W, (setWriteBuf s fc).after K.I2C_RETRY (failedAttempts K
          [fc.take (1 + w + chunkOf K.WRITE_CHUNK remaining)] none K.I2C_RETRY), [], ?_,
          hb0.after _ _, ?_, Or.inr ⟨rfl, by rw [hcons]; simp⟩⟩
        · rw [hbody, heq]
          simp [hK.ok, hK.bus_w]
        · rw [hcons, List.map_cons, hmsg]
          exact Ran.cons_fail _ _ s _ hall rfl rfl rfl

/-! ## The loop of `fts_writeReadU8UX` -/

theorem Bound.client_isSome {K : Consts} {s : State} (h : Bound K s) : s.client.isSome := by
  obtain ⟨i, hi, -⟩ := h
  simp [hi]

/-- One call of `readChunk` from a bound state. -/
theorem readChunk_cases (K : Consts) (E : Env) (hK : K.Codes) (fc : List Nat) (len : Nat)
    (rb : List Nat) (n skip : Nat) (outBuf : List Nat) (off : Nat) (s : State)
    (hb : Bound K s) (hlen : len ≤ fc.length) (hrb : rb.length = K.sizeof_io_read_buf)
    (hn : n + skip ≤ rb.length) (hout : off + n ≤ outBuf.length) :
    (∃ j, j < K.I2C_RETRY ∧ FirstOk E s.xfers j ∧ ∃ s1,
      readChunk K E fc len rb n skip outBuf off s =
        some (some (outBuf.take off ++ (delivered (E.bus (s.xfers + j)) (n + skip)).drop skip ++
          outBuf.drop (off + n)), s1) ∧
      Bound K s1 ∧ s1.xfers = s.xfers + (j + 1) ∧
      s1.trace = s.trace ++ okEvents K [fc.take len] (some (n + skip)) j ∧
      s1.echos = s.echos) ∨
    (AllFail E s.xfers K.I2C_RETRY ∧ ∃ s1,
      readChunk K E fc len rb n skip outBuf off s = some (none, s1) ∧
      Bound K s1 ∧ s1.xfers = s.xfers + K.I2C_RETRY ∧
      s1.trace = s.trace ++ failedAttempts K [fc.take len] (some (n + skip)) K.I2C_RETRY ∧
      s1.echos = s.echos) := by
  rcases fts_writeRead_heap_cases K E hK.ok (s := s) (m := n + skip) hb.client_isSome hlen hn with
    ⟨j, hj, hok, heq⟩ | ⟨hall, buf1, hl1, heq⟩
  · left
    refine ⟨j, hj, hok, setReadBuf (s.after (j + 1) (okEvents K [fc.take len] (some (n + skip)) j))
      (delivered (E.bus (s.xfers + j)) (n + skip) ++ rb.drop (n + skip)), ?_,
      (hb.after _ _).setReadBuf ?_, rfl, rfl, rfl⟩
    · have hd : (delivered (E.bus (s.xfers + j)) (n + skip) ++ rb.drop (n + skip)).drop skip =
          (delivered (E.bus (s.xfers + j)) (n + skip)).drop skip ++ rb.drop (n + skip) := by
        rw [List.drop_append_of_le_length (by rw [delivered_length]; omega)]
      have hdl : ((delivered (E.bus (s.xfers + j)) (n + skip)).drop skip).length = n := by
        simp [delivered_length]
      have htk : ((delivered (E.bus (s.xfers + j)) (n + skip)).drop skip ++
          rb.drop (n + skip)).take n = (delivered (E.bus (s.xfers + j)) (n + skip)).drop skip := by
        rw [List.take_append_of_le_length (by rw [hdl]), List.take_of_length_le (by rw [hdl])]
      have hm : memcpy outBuf off ((delivered (E.bus (s.xfers + j)) (n + skip)).drop skip ++
          rb.drop (n + skip)) n = some (outBuf.take off ++
            (delivered (E.bus (s.xfers + j)) (n + skip)).drop skip ++ outBuf.drop (off + n)) := by
        rw [memcpy_eq (by simp [delivered_length]) hout, htk]
      simp only [readChunk, heq, hK.ok, lt_irrefl, if_false, hd, hm]
    · simp [delivered_length]; omega
  · right
    refine ⟨hall, setReadBuf (s.after K.I2C_RETRY
      (failedAttempts K [fc.take len] (some (n + skip)) K.I2C_RETRY)) buf1, ?_,
      (hb.after _ _).setReadBuf (by rw [hl1, hrb]), rfl, rfl, rfl⟩
    simp [readChunk, heq, hK.ok, hK.bus_wr]

theorem gather_length_le (d : Nat) :
    ∀ (cs : List Chunk) (subs : List Sub), (gather d cs subs).length ≤ (cs.map (·.size)).sum := by
  intro cs
  induction cs with
  | nil => intro subs; simp [gather]
  | cons c cs ih =>
    intro subs
    cases subs with
    | nil => simp [gather]
    | cons sub subs =>
      have := ih subs
      simp [gather, delivered_length]
      omega

/-- The sizes of the chunks from chunk `k` on add up to what is left after `k` chunks. -/
theorem chunksFrom_sum {C : Nat} (hC : 0 < C) (L addr : Nat) :
    ∀ (n k : Nat), L - k * C ≤ n → ((chunksFrom C L addr k).map (·.size)).sum = L - k * C := by
  intro n
  induction n with
  | zero =>
    intro k h
    rw [chunksFrom_nil hC addr (by omega)]
    simp; omega
  | succ n ih =>
    intro k h
    by_cases hk : k * C < L
    · rw [chunksFrom_cons hC addr hk, List.map_cons, List.sum_cons,
        ih (k + 1) (by rw [Nat.add_mul]; omega)]
      simp only [chunkAt, Nat.add_mul]
      omega
    · rw [chunksFrom_nil hC addr (by omega)]
      simp; omega

theorem writeReadU8UX_loop_spec (K : Consts) (E : Env) (hK : K.Codes) (hL : K.Limits)
    (cmd w : Nat) (hw : w + 1 ≤ K.sizeof_io_write_buf) (hasDummyByte : Int) (L addr : Nat) :
    ∀ (fuel k remaining address : Nat) (outBuf : List Nat) (off : Nat) (s : State), Bound K s →
      remaining ≤ fuel → remaining = L - k * K.READ_CHUNK →
      (0 < remaining → address = (addr + k * K.READ_CHUNK) % 2 ^ 64 ∧
        off = k * K.READ_CHUNK) →
      L ≤ outBuf.length →
      ∃ r out s1 subs,
        writeReadU8UX_loop K E cmd w hasDummyByte fuel remaining address outBuf off s =
          some (r, out, s1) ∧
        Bound K s1 ∧
        Ran K E ((chunksFrom K.READ_CHUNK L addr k).map (readMsg cmd w (dummyOf hasDummyByte)))
          subs s s1 ∧
        out = outBuf.take (k * K.READ_CHUNK) ++
          gather (dummyOf hasDummyByte) (chunksFrom K.READ_CHUNK L addr k) subs ++
          outBuf.drop (k * K.READ_CHUNK +
            (gather (dummyOf hasDummyByte) (chunksFrom K.READ_CHUNK L addr k) subs).length) ∧
        (r = K.OK ∧ subs.length = (chunksFrom K.READ_CHUNK L addr k).length ∨
          r = K.ERROR_BUS_WR ∧ subs.length < (chunksFrom K.READ_CHUNK L addr k).length) := by
  intro fuel
  induction fuel with
  | zero =>
    intro k remaining address outBuf off s hb hf hr _ _
    have h0 : remaining = 0 := by omega
    have hnil := chunksFrom_nil hL.rchunk addr (show L ≤ k * K.READ_CHUNK by omega)
    exact ⟨K.OK, outBuf, s, [], by simp [writeReadU8UX_loop, h0], hb,
      by rw [hnil]; exact Ran.nil K E s, by simp [hnil, gather], Or.inl ⟨rfl, by rw [hnil]; rfl⟩⟩
  | succ fuel ih =>
    intro k remaining address outBuf off s hb hf hr hinv hout
    by_cases h0 : remaining = 0
    · have hnil := chunksFrom_nil hL.rchunk addr (show L ≤ k * K.READ_CHUNK by omega)
      exact ⟨K.OK, outBuf, s, [], by simp [writeReadU8UX_loop, h0], hb,
        by rw [hnil]; exact Ran.nil K E s, by simp [hnil, gather],
        Or.inl ⟨rfl, by rw [hnil]; rfl⟩⟩
    · have hpos : 0 < remaining := Nat.pos_of_ne_zero h0
      obtain ⟨rfl, rfl⟩ := hinv hpos
      obtain ⟨info, hc, h1, h2, h3⟩ := id hb
      have hkl : k * K.READ_CHUNK < L := by omega
      have hcons := chunksFrom_cons hL.rchunk addr hkl
      have hC := hL.rchunk
      have hrbuf := hL.rbuf
      have hsz : chunkOf K.READ_CHUNK remaining = min K.READ_CHUNK (L - k * K.READ_CHUNK) := by
        rw [chunkOf_eq_min, hr]
      have hst : store info.io_write_buf 0 (header cmd w ((addr + k * K.READ_CHUNK) % 2 ^ 64)) =
          some (header cmd w ((addr + k * K.READ_CHUNK) % 2 ^ 64) ++
            info.io_write_buf.drop (w + 1)) := by
        rw [store_eq (by rw [header_length, h1]; omega)]; simp [header_length]
      generalize hfc : header cmd w ((addr + k * K.READ_CHUNK) % 2 ^ 64) ++
        info.io_write_buf.drop (w + 1) = fc at hst
      have hfl : fc.length = K.sizeof_io_write_buf := by
        rw [← hfc]; simp [header_length]; omega
      have hft : fc.take (1 + w) = header cmd w ((addr + k * K.READ_CHUNK) % 2 ^ 64) := by
        rw [← hfc, Nat.add_comm 1 w, List.take_append_of_le_length (by rw [header_length]),
          List.take_of_length_le (by rw [header_length])]
      have hb0 : Bound K (setWriteBuf s fc) := hb.setWriteBuf hfl
      have hd1 : dummyOf hasDummyByte ≤ 1 := by unfold dummyOf; split <;> omega
      have hbody : writeReadU8UX_loop K E cmd w hasDummyByte (fuel + 1) remaining
          ((addr + k * K.READ_CHUNK) % 2 ^ 64) outBuf (k * K.READ_CHUNK) s =
          (match readChunk K E fc (1 + w) info.io_read_buf (chunkOf K.READ_CHUNK remaining)
              (dummyOf hasDummyByte) outBuf (k * K.READ_CHUNK) (setWriteBuf s fc) with
            | none => none
            | some (none, s1) => some (K.ERROR_BUS_WR, outBuf, s1)
            | some (some out1, s1) =>
              writeReadU8UX_loop K E cmd w hasDummyByte fuel (restOf K.READ_CHUNK remaining)
                (((addr + k * K.READ_CHUNK) % 2 ^ 64 + chunkOf K.READ_CHUNK remaining) % 2 ^ 64)
                out1 (k * K.READ_CHUNK + chunkOf K.READ_CHUNK remaining) s1) := by
        by_cases hdm : hasDummyByte = 1
        · simp only [writeReadU8UX_loop, hpos, if_true, getDrvInfo, hc, hst, dummyOf, hdm]
        · simp only [writeReadU8UX_loop, hpos, if_true, getDrvInfo, hc, hst, dummyOf, hdm,
            if_false]
      have hmsg : readMsg cmd w (dummyOf hasDummyByte) (chunkAt K.READ_CHUNK L addr k) =
          ⟨[fc.take (1 + w)], some (chunkOf K.READ_CHUNK remaining + dummyOf hasDummyByte)⟩ := by
        rw [hft, hsz]; rfl
      rcases readChunk_cases K E hK fc (1 + w) info.io_read_buf (chunkOf K.READ_CHUNK remaining)
          (dummyOf hasDummyByte) outBuf (k * K.READ_CHUNK) (setWriteBuf s fc) hb0
          (by rw [hfl]; omega) h3 (by rw [h3, hsz]; omega) (by rw [hsz]; omega) with
        ⟨j, hj, hok, s0, heq, hb1, hx, ht, he⟩ | ⟨hall, s0, heq, hb1, hx, ht, he⟩
      · generalize hout1 : outBuf.take (k * K.READ_CHUNK) ++
          (delivered (E.bus ((setWriteBuf s fc).xfers + j))
            (chunkOf K.READ_CHUNK remaining + dummyOf hasDummyByte)).drop (dummyOf hasDummyByte) ++
          outBuf.drop (k * K.READ_CHUNK + chunkOf K.READ_CHUNK remaining) = out1 at heq
        have hdl : ((delivered (E.bus ((setWriteBuf s fc).xfers + j))
            (chunkOf K.READ_CHUNK remaining + dummyOf hasDummyByte)).drop
              (dummyOf hasDummyByte)).length = chunkOf K.READ_CHUNK remaining := by
          simp [delivered_length]
        have hol : out1.length = outBuf.length := by
          rw [← hout1]; simp [hdl]; rw [hsz]; omega
        obtain ⟨r, out, s1, subs, hrun, hbd, hran, hgo, hres⟩ := ih (k + 1)
          (restOf K.READ_CHUNK remaining)
          (((addr + k * K.READ_CHUNK) % 2 ^ 64 + chunkOf K.READ_CHUNK remaining) % 2 ^ 64)
          out1 (k * K.READ_CHUNK + chunkOf K.READ_CHUNK remaining) s0 hb1
          (by rw [restOf_eq_sub]; omega)
          (by rw [restOf_eq_sub, hr, Nat.add_mul]; omega)
          (by
            intro hrest
            rw [restOf_eq_sub] at hrest
            have hmin : chunkOf K.READ_CHUNK remaining = K.READ_CHUNK := by
              rw [chunkOf_eq_min]; omega
            rw [hmin, Nat.add_mul, Nat.one_mul]
            exact ⟨by omega, rfl⟩)
          (by rw [hol]; exact hout)
        refine ⟨r, out, s1, ⟨j, E.bus (s.xfers + j)⟩ :: subs, ?_, hbd, ?_, ?_, ?_⟩
        · rw [hbody, heq]
          exact hrun
        · rw [hcons, List.map_cons, hmsg]
          exact Ran.cons_ok _ s s0 hj hok hx ht he hran
        · rw [hgo, hcons]
          have hg := gather_length_le (dummyOf hasDummyByte)
            (chunksFrom K.READ_CHUNK L addr (k + 1)) subs
          rw [chunksFrom_sum hL.rchunk L addr L (k + 1) (by omega)] at hg
          simp only [gather, chunkAt]
          rw [← hsz]
          generalize gather (dummyOf hasDummyByte) (chunksFrom K.READ_CHUNK L addr (k + 1)) subs = g
            at hg ⊢
          have hk1 : (k + 1) * K.READ_CHUNK = k * K.READ_CHUNK + chunkOf K.READ_CHUNK remaining ∨
              g = [] := by
            by_cases hlast : K.READ_CHUNK ≤ remaining
            · left; rw [chunkOf_eq_min, Nat.add_mul]; omega
            · right
              have : g.length = 0 := by rw [Nat.add_mul] at hg; omega
              exact List.length_eq_zero.mp this
          have hxs : (setWriteBuf s fc).xfers = s.xfers := rfl
          rw [hxs] at hout1 hdl
          generalize (delivered (E.bus (s.xfers + j))
            (chunkOf K.READ_CHUNK remaining + dummyOf hasDummyByte)).drop
              (dummyOf hasDummyByte) = bytes at hout1 hdl ⊢
          have hoff : k * K.READ_CHUNK + chunkOf K.READ_CHUNK remaining ≤ outBuf.length := by
            rw [hsz]; omega
          have htake : ∀ m, out1.drop (k * K.READ_CHUNK + chunkOf K.READ_CHUNK remaining + m) =
              outBuf.drop (k * K.READ_CHUNK + chunkOf K.READ_CHUNK remaining + m) := by
            intro m
            rw [← hout1, List.drop_append_eq_append_drop, List.drop_of_length_le
              (by simp [hdl]; omega)]
            simp [hdl]
            congr 1
            omega
          have htk : out1.take (k * K.READ_CHUNK + chunkOf K.READ_CHUNK remaining) =
              outBuf.take (k * K.READ_CHUNK) ++ bytes := by
            rw [← hout1, List.take_append_of_le_length (by simp [hdl]; omega),
              List.take_of_length_le (by simp [hdl])]
          rcases hk1 with hk1 | hk1
          · rw [hk1, htk, htake]
            simp [hdl, List.append_assoc, Nat.add_assoc]
          · subst hk1
            have e1 : out1.take ((k + 1) * K.READ_CHUNK) ++ [] ++
                out1.drop ((k + 1) * K.READ_CHUNK + ([] : List Nat).length) = out1 := by simp
            rw [e1, ← hout1]
            simp [hdl]
        · rw [hcons]
          simpa using hres
      · refine ⟨K.ERROR_BUS_WR, outBuf, s0, [], ?_, hb1, ?_, ?_, Or.inr ⟨rfl, by rw [hcons]; simp⟩⟩
        · rw [hbody, heq]
        · rw [hcons, List.map_cons, hmsg]
          exact Ran.cons_fail _ _ s s0 hall hx ht he
        · simp [gather]

/-! ## The loops of the two dual operations -/

/-- The header stored at the start of a scratch array, and the bytes then sent from it. -/
theorem store_header (wb hdr : List Nat) (hcap : hdr.length ≤ wb.length) :
    ∃ fc, store wb 0 hdr = some fc ∧ fc.length = wb.length ∧ fc.take hdr.length = hdr := by
  refine ⟨hdr ++ wb.drop hdr.length, by rw [store_eq (by omega)]; simp, by simp; omega, ?_⟩
  rw [List.take_append_of_le_length (le_refl _), List.take_of_length_le (le_refl _)]

/-- The caller's buffer after one more chunk has been copied into it. -/
theorem out_step (outBuf out1 bytes g : List Nat) (a n b : Nat)
    (hout1 : outBuf.take a ++ bytes ++ outBuf.drop (a + n) = out1) (hbl : bytes.length = n)
    (ha : a + n ≤ outBuf.length) (hb : b = a + n ∨ g = []) :
    out1.take b ++ g ++ out1.drop (b + g.length) =
      outBuf.take a ++ (bytes ++ g) ++ outBuf.drop (a + (bytes ++ g).length) := by
  rcases hb with hb | hb
  · subst hb
    have htk : out1.take (a + n) = outBuf.take a ++ bytes := by
      rw [← hout1, List.take_append_of_le_length (by simp [hbl]; omega),
        List.take_of_length_le (by simp [hbl])]
    have hdr : out1.drop (a + n + g.length) = outBuf.drop (a + n + g.length) := by
      rw [← hout1, List.drop_append_eq_append_drop, List.drop_of_length_le
        (by simp [hbl]; omega)]
      simp [hbl]
      congr 1
      omega
    rw [htk, hdr]
    simp [hbl, List.append_assoc, Nat.add_assoc]
  · subst hb
    have e1 : out1.take b ++ [] ++ out1.drop (b + ([] : List Nat).length) = out1 := by simp
    rw [e1, ← hout1]
    simp [hbl]

theorem gather2_length_le (d : Nat) :
    ∀ (cs : List Chunk) (subs : List Sub), (gather2 d cs subs).length ≤ (cs.map (·.size)).sum := by
  intro cs
  induction cs with
  | nil => intro subs; simp [gather2]
  | cons c cs ih =>
    intro subs
    match subs with
    | [] => simp [gather2]
    | [_] => simp [gather2]
    | _ :: sub :: subs =>
      have := ih subs
      simp [gather2, delivered_length]
      omega

theorem writeU8UXthenWriteU8UX_loop_spec (K : Consts) (E : Env) (hK : K.Codes) (hL : K.Limits)
    (cmd1 w1 cmd2 w2 : Nat) (hw1 : w1 + 1 ≤ K.sizeof_io_write_buf) (hw2 : w2 ≤ 8)
    (L addr : Nat) (data0 : List Nat) (hd : L ≤ data0.length) :
    ∀ (fuel k remaining address : Nat) (data : List Nat) (s : State), Bound K s →
      remaining ≤ fuel → remaining = L - k * K.WRITE_CHUNK →
      (0 < remaining → address = (addr + k * K.WRITE_CHUNK) % 2 ^ 64 ∧
        data = data0.drop (k * K.WRITE_CHUNK)) →
      ∃ r s1 subs,
        writeU8UXthenWriteU8UX_loop K E cmd1 w1 cmd2 w2 fuel remaining address data s =
          some (r, s1) ∧
        Bound K s1 ∧
        Ran K E ((chunksFrom K.WRITE_CHUNK L addr k).flatMap
          (dualWriteMsgs cmd1 w1 cmd2 w2 data0)) subs s s1 ∧
        (r = K.OK ∧ subs.length = 2 * (chunksFrom K.WRITE_CHUNK L addr k).length ∨
          r = K.ERROR_BUS_W ∧ subs.length < 2 * (chunksFrom K.WRITE_CHUNK L addr k).length) := by
  intro fuel
  induction fuel with
  | zero =>
    intro k remaining address data s hb hf hr _
    have h0 : remaining = 0 := by omega
    have hnil := chunksFrom_nil hL.wchunk addr (show L ≤ k * K.WRITE_CHUNK by omega)
    exact ⟨K.OK, s, [], by simp [writeU8UXthenWriteU8UX_loop, h0], hb,
      by rw [hnil]; exact Ran.nil K E s, Or.inl ⟨rfl, by rw [hnil]; rfl⟩⟩
  | succ fuel ih =>
    intro k remaining address data s hb hf hr hinv
    by_cases h0 : remaining = 0
    · have hnil := chunksFrom_nil hL.wchunk addr (show L ≤ k * K.WRITE_CHUNK by omega)
      exact ⟨K.OK, s, [], by simp [writeU8UXthenWriteU8UX_loop, h0], hb,
        by rw [hnil]; exact Ran.nil K E s, Or.inl ⟨rfl, by rw [hnil]; rfl⟩⟩
    · have hpos : 0 < remaining := Nat.pos_of_ne_zero h0
      obtain ⟨rfl, rfl⟩ := hinv hpos
      obtain ⟨info, hc, h1, h2, h3⟩ := id hb
      have hkl : k * K.WRITE_CHUNK < L := by omega
      have hcons := chunksFrom_cons hL.wchunk addr hkl
      have hC := hL.wchunk
      have hxb := hL.xbuf
      have hsz : chunkOf K.WRITE_CHUNK remaining = min K.WRITE_CHUNK (L - k * K.WRITE_CHUNK) := by
        rw [chunkOf_eq_min, hr]
      obtain ⟨fc1, hst1, hfl1, hft1⟩ := store_header info.io_write_buf
        (header1 cmd1 w1 w2 ((addr + k * K.WRITE_CHUNK) % 2 ^ 64))
        (by rw [header1_length, h1]; exact hw1)
      obtain ⟨b, fc2, hst2, hfc2, hfl2, hft2⟩ := finalCmd_write info.io_extra_write_buf
        (header2 cmd2 w1 w2 ((addr + k * K.WRITE_CHUNK) % 2 ^ 64))
        (data0.drop (k * K.WRITE_CHUNK)) (chunkOf K.WRITE_CHUNK remaining) (w2 + 1)
        (header2_length _ _ _ _)
        (by rw [hsz, List.length_drop]; omega) (by rw [h2, hsz]; omega)
      rw [header1_length] at hft1
      have hb0 : Bound K (setExtraBuf (setWriteBuf s fc1) fc2) :=
        (hb.setWriteBuf (by rw [hfl1, h1])).setExtraBuf (by rw [hfl2, h2])
      have hmsg : dualWriteMsgs cmd1 w1 cmd2 w2 data0 (chunkAt K.WRITE_CHUNK L addr k) =
          [⟨[fc1.take (1 + w1)], none⟩,
            ⟨[fc2.take (1 + w2 + chunkOf K.WRITE_CHUNK remaining)], none⟩] := by
        rw [Nat.add_comm 1 w1, Nat.add_comm 1 w2, hft1, hft2, hsz]; rfl
      have hbody : writeU8UXthenWriteU8UX_loop K E cmd1 w1 cmd2 w2 (fuel + 1) remaining
          ((addr + k * K.WRITE_CHUNK) % 2 ^ 64) (data0.drop (k * K.WRITE_CHUNK)) s =
          (match fts_write_heap K E fc1 (1 + w1) (setExtraBuf (setWriteBuf s fc1) fc2) with
            | none => none
            | some (r1, s1) =>
              if r1 < K.OK then some (K.ERROR_BUS_W, s1)
              else
                match fts_write_heap K E fc2 (1 + w2 + chunkOf K.WRITE_CHUNK remaining) s1 with
                | none => none
                | some (r2, s2) =>
                  if r2 < K.OK then some (K.ERROR_BUS_W, s2)
                  else writeU8UXthenWriteU8UX_loop K E cmd1 w1 cmd2 w2 fuel
                    (restOf K.WRITE_CHUNK remaining)
                    (((addr + k * K.WRITE_CHUNK) % 2 ^ 64 + chunkOf K.WRITE_CHUNK remaining) %
                      2 ^ 64)
                    ((data0.drop (k * K.WRITE_CHUNK)).drop (chunkOf K.WRITE_CHUNK remaining))
                    s2) := by
        simp only [writeU8UXthenWriteU8UX_loop, hpos, if_true, getDrvInfo, hc, hst1, hst2, hfc2]
      rw [hcons, List.flatMap_cons, hmsg]
      simp only [List.cons_append, List.nil_append, List.length_cons]
      rcases fts_write_heap_cases K E hK.ok (s := setExtraBuf (setWriteBuf s fc1) fc2)
          hb0.client_isSome (show 1 + w1 ≤ fc1.length by rw [hfl1, h1]; omega) with
        ⟨j, hj, hok, heq⟩ | ⟨hall, heq⟩
      · generalize hs1 : (setExtraBuf (setWriteBuf s fc1) fc2).after (j + 1)
          (okEvents K [fc1.take (1 + w1)] none j) = sa at heq
        have hba : Bound K sa := by rw [← hs1]; exact hb0.after _ _
        have hxa : sa.xfers = s.xfers + (j + 1) := by rw [← hs1]; rfl
        have hta : sa.trace = s.trace ++ okEvents K [fc1.take (1 + w1)] none j := by
          rw [← hs1]; rfl
        have hea : sa.echos = s.echos := by rw [← hs1]; rfl
        rcases fts_write_heap_cases K E hK.ok (s := sa) hba.client_isSome
            (show 1 + w2 + chunkOf K.WRITE_CHUNK remaining ≤ fc2.length by
              rw [hfl2, h2, hsz]; omega) with
          ⟨j2, hj2, hok2, heq2⟩ | ⟨hall2, heq2⟩
        · obtain ⟨r, s1, subs, hrun, hbd, hran, hres⟩ := ih (k + 1)
            (restOf K.WRITE_CHUNK remaining)
            (((addr + k * K.WRITE_CHUNK) % 2 ^ 64 + chunkOf K.WRITE_CHUNK remaining) % 2 ^ 64)
            ((data0.drop (k * K.WRITE_CHUNK)).drop (chunkOf K.WRITE_CHUNK remaining))
            (sa.after (j2 + 1) (okEvents K
              [fc2.take (1 + w2 + chunkOf K.WRITE_CHUNK remaining)] none j2))
            (hba.after _ _)
            (by rw [restOf_eq_sub]; omega)
            (by rw [restOf_eq_sub, hr, Nat.add_mul]; omega)
            (by
              intro hrest
              rw [restOf_eq_sub] at hrest
              have hmin : chunkOf K.WRITE_CHUNK remaining = K.WRITE_CHUNK := by
                rw [chunkOf_eq_min]; omega
              rw [hmin, List.drop_drop, Nat.add_mul, Nat.one_mul]
              exact ⟨by omega, congrArg (fun n => List.drop n data0) (by omega)⟩)
          refine ⟨r, s1, ⟨j, E.bus (s.xfers + j)⟩ :: ⟨j2, E.bus (sa.xfers + j2)⟩ :: subs, ?_,
            hbd, ?_, ?_⟩
          · rw [hbody, heq]
            simp only [lt_irrefl, if_false, heq2, hrun]
          · exact Ran.cons_ok _ s sa hj hok hxa hta hea
              (Ran.cons_ok _ sa (sa.after (j2 + 1) (okEvents K
                [fc2.take (1 + w2 + chunkOf K.WRITE_CHUNK remaining)] none j2))
                hj2 hok2 rfl rfl rfl hran)
          · rcases hres with ⟨h, h'⟩ | ⟨h, h'⟩
            · exact Or.inl ⟨h, by simp [h']; omega⟩
            · exact Or.inr ⟨h, by simp; omega⟩
        · refine ⟨K.ERROR_BUS_W, sa.after K.I2C_RETRY (failedAttempts K
            [fc2.take (1 + w2 + chunkOf K.WRITE_CHUNK remaining)] none K.I2C_RETRY),
            [⟨j, E.bus (s.xfers + j)⟩], ?_, hba.after _ _, ?_, Or.inr ⟨rfl, by simp; omega⟩⟩
          · rw [hbody, heq]
            simp only [lt_irrefl, if_false, heq2, hK.ok, hK.bus_w, if_true]
          · exact Ran.cons_ok _ s sa hj hok hxa hta hea
              (Ran.cons_fail _ _ sa _ hall2 rfl rfl rfl)
      · refine ⟨K.ERROR_BUS_W, (setExtraBuf (setWriteBuf s fc1) fc2).after K.I2C_RETRY
          (failedAttempts K [fc1.take (1 + w1)] none K.I2C_RETRY), [], ?_, hb0.after _ _, ?_,
          Or.inr ⟨rfl, by simp⟩⟩
        · rw [hbody, heq]
          simp only [hK.ok, hK.bus_w, if_true]
        · exact Ran.cons_fail _ _ s _ hall rfl rfl rfl

theorem writeU8UXthenWriteReadU8UX_loop_spec (K : Consts) (E : Env) (hK : K.Codes)
    (hL : K.Limits) (cmd1 w1 cmd2 w2 : Nat) (hw1 : w1 + 1 ≤ K.sizeof_io_write_buf)
    (hw2 : w2 + 1 ≤ K.sizeof_io_extra_write_buf) (hasDummyByte : Int) (L addr : Nat) :
    ∀ (fuel k remaining address : Nat) (outBuf : List Nat) (off : Nat) (s : State), Bound K s →
      remaining ≤ fuel → remaining = L - k * K.READ_CHUNK →
      (0 < remaining → address = (addr + k * K.READ_CHUNK) % 2 ^ 64 ∧
        off = k * K.READ_CHUNK) →
      L ≤ outBuf.length →
      ∃ r out s1 subs,
        writeU8UXthenWriteReadU8UX_loop K E cmd1 w1 cmd2 w2 hasDummyByte fuel remaining address
          outBuf off s = some (r, out, s1) ∧
        Bound K s1 ∧
        Ran K E ((chunksFrom K.READ_CHUNK L addr k).flatMap
          (dualReadMsgs cmd1 w1 cmd2 w2 (dummyOf hasDummyByte))) subs s s1 ∧
        out = outBuf.take (k * K.READ_CHUNK) ++
          gather2 (dummyOf hasDummyByte) (chunksFrom K.READ_CHUNK L addr k) subs ++
          outBuf.drop (k * K.READ_CHUNK +
            (gather2 (dummyOf hasDummyByte) (chunksFrom K.READ_CHUNK L addr k) subs).length) ∧
        (r = K.OK ∧ subs.length = 2 * (chunksFrom K.READ_CHUNK L addr k).length ∨
          r = K.ERROR_BUS_W ∧ subs.length < 2 * (chunksFrom K.READ_CHUNK L addr k).length ∧
            subs.length % 2 = 0 ∨
          r = K.ERROR_BUS_WR ∧ subs.length < 2 * (chunksFrom K.READ_CHUNK L addr k).length ∧
            subs.length % 2 = 1) := by
  intro fuel
  induction fuel with
  | zero =>
    intro k remaining address outBuf off s hb hf hr _ _
    have h0 : remaining = 0 := by omega
    have hnil := chunksFrom_nil hL.rchunk addr (show L ≤ k * K.READ_CHUNK by omega)
    exact ⟨K.OK, outBuf, s, [], by simp [writeU8UXthenWriteReadU8UX_loop, h0], hb,
      by rw [hnil]; exact Ran.nil K E s, by simp [hnil, gather2], Or.inl ⟨rfl, by rw [hnil]; rfl⟩⟩
  | succ fuel ih =>
    intro k remaining address outBuf off s hb hf hr hinv hout
    by_cases h0 : remaining = 0
    · have hnil := chunksFrom_nil hL.rchunk addr (show L ≤ k * K.READ_CHUNK by omega)
      exact ⟨K.OK, outBuf, s, [], by simp [writeU8UXthenWriteReadU8UX_loop, h0], hb,
        by rw [hnil]; exact Ran.nil K E s, by simp [hnil, gather2],
        Or.inl ⟨rfl, by rw [hnil]; rfl⟩⟩
    · have hpos : 0 < remaining := Nat.pos_of_ne_zero h0
      obtain ⟨rfl, rfl⟩ := hinv hpos
      obtain ⟨info, hc, h1, h2, h3⟩ := id hb
      have hkl : k * K.READ_CHUNK < L := by omega
      have hcons := chunksFrom_cons hL.rchunk addr hkl
      have hC := hL.rchunk
      have hrbuf := hL.rbuf
      have hsz : chunkOf K.READ_CHUNK remaining = min K.READ_CHUNK (L - k * K.READ_CHUNK) := by
        rw [chunkOf_eq_min, hr]
      obtain ⟨fc1, hst1, hfl1, hft1⟩ := store_header info.io_write_buf
        (header1 cmd1 w1 w2 ((addr + k * K.READ_CHUNK) % 2 ^ 64))
        (by rw [header1_length, h1]; exact hw1)
      obtain ⟨fc2, hst2, hfl2, hft2⟩ := store_header info.io_extra_write_buf
        (header2 cmd2 w1 w2 ((addr + k * K.READ_CHUNK) % 2 ^ 64))
        (by rw [header2_length, h2]; exact hw2)
      rw [header1_length] at hft1
      rw [header2_length] at hft2
      have hb0 : Bound K (setExtraBuf (setWriteBuf s fc1) fc2) :=
        (hb.setWriteBuf (by rw [hfl1, h1])).setExtraBuf (by rw [hfl2, h2])
      have hd1 : dummyOf hasDummyByte ≤ 1 := by unfold dummyOf; split <;> omega
      have hmsg : dualReadMsgs cmd1 w1 cmd2 w2 (dummyOf hasDummyByte)
          (chunkAt K.READ_CHUNK L addr k) =
          [⟨[fc1.take (1 + w1)], none⟩,
            ⟨[fc2.take (1 + w2)],
              some (chunkOf K.READ_CHUNK remaining + dummyOf hasDummyByte)⟩] := by
        rw [Nat.add_comm 1 w1, Nat.add_comm 1 w2, hft1, hft2, hsz]; rfl
      have hbody : writeU8UXthenWriteReadU8UX_loop K E cmd1 w1 cmd2 w2 hasDummyByte (fuel + 1)
          remaining ((addr + k * K.READ_CHUNK) % 2 ^ 64) outBuf (k * K.READ_CHUNK) s =
          (match fts_write_heap K E fc1 (1 + w1) (setExtraBuf (setWriteBuf s fc1) fc2) with
            | none => none
            | some (r1, s1) =>
              if r1 < K.OK then some (K.ERROR_BUS_W, outBuf, s1)
              else
                match readChunk K E fc2 (1 + w2) info.io_read_buf
                    (chunkOf K.READ_CHUNK remaining) (dummyOf hasDummyByte) outBuf
                    (k * K.READ_CHUNK) s1 with
                | none => none
                | some (none, s2) => some (K.ERROR_BUS_WR, outBuf, s2)
                | some (some out1, s2) =>
                  writeU8UXthenWriteReadU8UX_loop K E cmd1 w1 cmd2 w2 hasDummyByte fuel
                    (restOf K.READ_CHUNK remaining)
                    (((addr + k * K.READ_CHUNK) % 2 ^ 64 + chunkOf K.READ_CHUNK remaining) %
                      2 ^ 64)
                    out1 (k * K.READ_CHUNK + chunkOf K.READ_CHUNK remaining) s2) := by
        by_cases hdm : hasDummyByte = 1
        · simp only [writeU8UXthenWriteReadU8UX_loop, hpos, if_true, getDrvInfo, hc, hst1, hst2,
            dummyOf, hdm]
        · simp only [writeU8UXthenWriteReadU8UX_loop, hpos, if_true, getDrvInfo, hc, hst1, hst2,
            dummyOf, hdm, if_false]
      rw [hcons, List.flatMap_cons, hmsg]
      simp only [List.cons_append, List.nil_append, List.length_cons]
      rcases fts_write_heap_cases K E hK.ok (s := setExtraBuf (setWriteBuf s fc1) fc2)
          hb0.client_isSome (show 1 + w1 ≤ fc1.length by rw [hfl1, h1]; omega) with
        ⟨j, hj, hok, heq⟩ | ⟨hall, heq⟩
      · generalize hs1 : (setExtraBuf (setWriteBuf s fc1) fc2).after (j + 1)
          (okEvents K [fc1.take (1 + w1)] none j) = sa at heq
        have hba : Bound K sa := by rw [← hs1]; exact hb0.after _ _
        have hxa : sa.xfers = s.xfers + (j + 1) := by rw [← hs1]; rfl
        have hta : sa.trace = s.trace ++ okEvents K [fc1.take (1 + w1)] none j := by
          rw [← hs1]; rfl
        have hea : sa.echos = s.echos := by rw [← hs1]; rfl
        rcases readChunk_cases K E hK fc2 (1 + w2) info.io_read_buf
            (chunkOf K.READ_CHUNK remaining) (dummyOf hasDummyByte) outBuf (k * K.READ_CHUNK) sa
            hba (by rw [hfl2, h2]; omega) h3 (by rw [h3, hsz]; omega) (by rw [hsz]; omega) with
          ⟨j2, hj2, hok2, sb, heq2, hbb, hxb, htb, heb⟩ | ⟨hall2, sb, heq2, hbb, hxb, htb, heb⟩
        · generalize hbytes : (delivered (E.bus (sa.xfers + j2))
            (chunkOf K.READ_CHUNK remaining + dummyOf hasDummyByte)).drop
              (dummyOf hasDummyByte) = bytes at heq2
          have hdl : bytes.length = chunkOf K.READ_CHUNK remaining := by
            rw [← hbytes]; simp [delivered_length]
          generalize hout1 : outBuf.take (k * K.READ_CHUNK) ++ bytes ++
            outBuf.drop (k * K.READ_CHUNK + chunkOf K.READ_CHUNK remaining) = out1 at heq2
          have hol : out1.length = outBuf.length := by
            rw [← hout1]; simp [hdl]; rw [hsz]; omega
          obtain ⟨r, out, s1, subs, hrun, hbd, hran, hgo, hres⟩ := ih (k + 1)
            (restOf K.READ_CHUNK remaining)
            (((addr + k * K.READ_CHUNK) % 2 ^ 64 + chunkOf K.READ_CHUNK remaining) % 2 ^ 64)
            out1 (k * K.READ_CHUNK + chunkOf K.READ_CHUNK remaining) sb hbb
            (by rw [restOf_eq_sub]; omega)
            (by rw [restOf_eq_sub, hr, Nat.add_mul]; omega)
            (by
              intro hrest
              rw [restOf_eq_sub] at hrest
              have hmin : chunkOf K.READ_CHUNK remaining = K.READ_CHUNK := by
                rw [chunkOf_eq_min]; omega
              rw [hmin, Nat.add_mul, Nat.one_mul]
              exact ⟨by omega, rfl⟩)
            (by rw [hol]; exact hout)
          refine ⟨r, out, s1, ⟨j, E.bus (s.xfers + j)⟩ :: ⟨j2, E.bus (sa.xfers + j2)⟩ :: subs,
            ?_, hbd, ?_, ?_, ?_⟩
          · rw [hbody, heq]
            simp only [lt_irrefl, if_false, heq2, hrun]
          · exact Ran.cons_ok _ s sa hj hok hxa hta hea
              (Ran.cons_ok _ sa sb hj2 hok2 hxb htb heb hran)
          · rw [hgo]
            have hg := gather2_length_le (dummyOf hasDummyByte)
              (chunksFrom K.READ_CHUNK L addr (k + 1)) subs
            rw [chunksFrom_sum hL.rchunk L addr L (k + 1) (by omega)] at hg
            simp only [gather2, chunkAt]
            rw [← hsz, hbytes]
            refine out_step outBuf out1 bytes _ (k * K.READ_CHUNK)
              (chunkOf K.READ_CHUNK remaining) ((k + 1) * K.READ_CHUNK) hout1 hdl
              (by rw [hsz]; omega) ?_
            by_cases hlast : K.READ_CHUNK ≤ remaining
            · left; rw [chunkOf_eq_min, Nat.add_mul]; omega
            · right
              exact List.length_eq_zero.mp (by rw [Nat.add_mul] at hg; omega)
          · rcases hres with ⟨h, h'⟩ | ⟨h, h', h''⟩ | ⟨h, h', h''⟩
            · exact Or.inl ⟨h, by simp [h']; omega⟩
            · exact Or.inr (Or.inl ⟨h, by simp; omega, by simp; omega⟩)
            · exact Or.inr (Or.inr ⟨h, by simp; omega, by simp; omega⟩)
        · refine ⟨K.ERROR_BUS_WR, outBuf, sb, [⟨j, E.bus (s.xfers + j)⟩], ?_, hbb, ?_, ?_,
            Or.inr (Or.inr ⟨rfl, by simp; omega, by simp⟩)⟩
          · rw [hbody, heq]
            simp only [lt_irrefl, if_false, heq2]
          · exact Ran.cons_ok _ s sa hj hok hxa hta hea
              (Ran.cons_fail _ _ sa sb hall2 hxb htb heb)
          · simp [gather2]
      · refine ⟨K.ERROR_BUS_W, outBuf, (setExtraBuf (setWriteBuf s fc1) fc2).after K.I2C_RETRY
          (failedAttempts K [fc1.take (1 + w1)] none K.I2C_RETRY), [], ?_, hb0.after _ _, ?_, ?_,
          Or.inr (Or.inl ⟨rfl, by simp, by simp⟩)⟩
        · rw [hbody, heq]
          simp only [hK.ok, hK.bus_w, if_true]
        · exact Ran.cons_fail _ _ s _ hall rfl rfl rfl
        · simp [gather2]

/-! ## The sample configuration -/

theorem sampleConsts_codes : sampleConsts.Codes :=
  ⟨rfl, by decide, by decide, by decide, by decide, by decide⟩

theorem sampleConsts_limits : sampleConsts.Limits :=
  ⟨by decide, by decide, by decide, by decide, by decide⟩

theorem smallConsts_codes : smallConsts.Codes :=
  ⟨rfl, by decide, by decide, by decide, by decide, by decide⟩

theorem smallConsts_limits : smallConsts.Limits :=
  ⟨by decide, by decide, by decide, by decide, by decide⟩

theorem boundState_bound (K : Consts) : Bound K (boundState K) :=
  ⟨_, rfl, by simp, by simp, by simp⟩

/-! ## Runs in which every message succeeds -/

theorem Ran.complete {K : Consts} {E : Env} {msgs : List Msg} {subs : List Sub} {s s1 : State}
    (h : Ran K E msgs subs s s1) (hall : AllSucceed K E s.xfers msgs.length) :
    subs.length = msgs.length ∧ s1.trace = s.trace ++ runEvents K msgs subs := by
  obtain ⟨h1, h2, h3, -, h5, -⟩ := h
  have hlen : subs.length = msgs.length := by
    by_contra hne
    have hlt : subs.length < msgs.length := lt_of_le_of_ne h2 hne
    exact hall subs h1 hlt (h3 hlt)
  refine ⟨hlen, ?_⟩
  have : failEvents K msgs subs.length = [] := by
    simp [failEvents, hlen]
  rw [h5, this, List.append_nil]

theorem AllSucceed.of_never_fail {K : Consts} {E : Env} (hR : 0 < K.I2C_RETRY)
    (hok : ∀ i, 0 ≤ (E.bus i).ret) (base n : Nat) : AllSucceed K E base n := by
  intro subs _ _ hall
  have := hall 0 hR
  have := hok (base + spent subs + 0)
  omega

/-- On a bus that never fails no message needs a second attempt: the events of a run are
one transfer for each message. -/
theorem runEvents_of_never_fail (K : Consts) (E : Env) (hok : ∀ i, 0 ≤ (E.bus i).ret) :
    ∀ (msgs : List Msg) (subs : List Sub) (base : Nat), SubsFrom E K.I2C_RETRY base subs →
      subs.length = msgs.length →
      runEvents K msgs subs = msgs.map fun m => Event.xfer m.segs m.rx := by
  intro msgs
  induction msgs with
  | nil => intro subs base _ _; cases subs <;> rfl
  | cons m ms ih =>
    intro subs base hs hl
    cases subs with
    | nil => cases hl
    | cons sub subs =>
      obtain ⟨_, ⟨hfail, _⟩, _, hrest⟩ := hs
      have h0 : sub.fails = 0 := by
        by_contra hne
        have := hfail 0 (Nat.pos_of_ne_zero hne)
        have := hok (base + 0)
        omega
      simp only [runEvents, List.map_cons, okEvents, h0, failedAttempts_zero, List.nil_append,
        List.singleton_append]
      rw [ih subs _ hrest (by simpa using hl)]

/-! ## The chunk plan -/

theorem chunks_length (C L addr : Nat) : (chunks C L addr).length = (L + C - 1) / C := by
  simp [chunks, nChunks]

theorem chunks_getElem? (C L addr k : Nat) (hk : k < (L + C - 1) / C) :
    (chunks C L addr)[k]? = some ⟨min C (L - k * C), (addr + k * C) % 2 ^ 64, k * C⟩ := by
  simp [chunks, nChunks, List.getElem?_map, List.getElem?_range hk, chunkAt]

theorem chunks_sum {C : Nat} (hC : 0 < C) (L addr : Nat) :
    ((chunks C L addr).map (·.size)).sum = L := by
  rw [chunks_eq_chunksFrom, chunksFrom_sum hC L addr L 0 (by omega)]
  omega

/-- A header of at most eight address bytes only depends on the address modulo `2 ^ 64`. -/
theorem addrByte_mod {W i : Nat} (hW : W ≤ 8) (a : Nat) :
    addrByte W i (a % 2 ^ 64) = addrByte W i a := by
  rw [addrByte_eq, addrByte_eq]
  have hj : W - 1 - i ≤ 7 := by omega
  generalize W - 1 - i = j at hj
  have h2 : (2 : Nat) ^ 64 = 256 ^ j * (256 * 256 ^ (7 - j)) := by
    rw [← pow_succ', ← pow_add]
    have : j + (7 - j + 1) = 8 := by omega
    rw [this]
    norm_num
  rw [h2, Nat.mod_mul_right_div_self, Nat.mod_mul_right_mod]

theorem header_mod (cmd : Nat) {w : Nat} (hw : w ≤ 8) (a : Nat) :
    header cmd w (a % 2 ^ 64) = header cmd w a := by
  simp only [header, addrByte_mod hw]

theorem header1_mod (cmd : Nat) {w1 w2 : Nat} (hw : w1 + w2 ≤ 8) (a : Nat) :
    header1 cmd w1 w2 (a % 2 ^ 64) = header1 cmd w1 w2 a := by
  simp only [header1, addrByte_mod hw]

theorem header2_mod (cmd : Nat) {w1 w2 : Nat} (hw : w1 + w2 ≤ 8) (a : Nat) :
    header2 cmd w1 w2 (a % 2 ^ 64) = header2 cmd w1 w2 a := by
  simp only [header2, addrByte_mod hw]

/-! ## The four chunked operations -/

/-- `fts_writeU8UX` on a bound bus: it returns, having sent the messages of the chunks in
order until one failed. -/
theorem fts_writeU8UX_spec (K : Consts) (E : Env) (hK : K.Codes) (hL : K.Limits)
    (cmd w : Nat) (hw : w ≤ 8) (addr : Nat) (ha : addr < 2 ^ 64) (data : List Nat) (L : Nat)
    (hd : L ≤ data.length) (s : State) (hb : Bound K s) :
    ∃ r s1 subs, fts_writeU8UX K E cmd w addr data L s = some (r, s1) ∧ Bound K s1 ∧
      Ran K E ((chunks K.WRITE_CHUNK L addr).map (writeMsg cmd w data)) subs s s1 ∧
      (r = K.OK ∧ subs.length = (chunks K.WRITE_CHUNK L addr).length ∨
        r = K.ERROR_BUS_W ∧ subs.length < (chunks K.WRITE_CHUNK L addr).length) := by
  have h := writeU8UX_loop_spec K E hK hL cmd w hw L addr data hd L 0 L addr data s hb
    (le_refl _) (by simp) (fun _ => ⟨by rw [Nat.zero_mul, Nat.add_zero, Nat.mod_eq_of_lt ha], by simp⟩)
  simpa only [fts_writeU8UX, hw, if_true, chunks_eq_chunksFrom] using h

/-- `fts_writeReadU8UX` on a bound bus. -/
theorem fts_writeReadU8UX_spec (K : Consts) (E : Env) (hK : K.Codes) (hL : K.Limits)
    (cmd w : Nat) (hw : w + 1 ≤ K.sizeof_io_write_buf) (addr : Nat) (ha : addr < 2 ^ 64)
    (outBuf : List Nat) (L : Nat) (hasDummyByte : Int) (ho : L ≤ outBuf.length) (s : State)
    (hb : Bound K s) :
    ∃ r out s1 subs, fts_writeReadU8UX K E cmd w addr outBuf L hasDummyByte s =
        some (r, out, s1) ∧ Bound K s1 ∧
      Ran K E ((chunks K.READ_CHUNK L addr).map (readMsg cmd w (dummyOf hasDummyByte)))
        subs s s1 ∧
      out = gather (dummyOf hasDummyByte) (chunks K.READ_CHUNK L addr) subs ++
        outBuf.drop (gather (dummyOf hasDummyByte) (chunks K.READ_CHUNK L addr) subs).length ∧
      (r = K.OK ∧ subs.length = (chunks K.READ_CHUNK L addr).length ∨
        r = K.ERROR_BUS_WR ∧ subs.length < (chunks K.READ_CHUNK L addr).length) := by
  have h := writeReadU8UX_loop_spec K E hK hL cmd w hw hasDummyByte L addr L 0 L addr outBuf 0
    s hb (le_refl _) (by simp) (fun _ => ⟨by rw [Nat.zero_mul, Nat.add_zero, Nat.mod_eq_of_lt ha], by simp⟩) ho
  simpa only [fts_writeReadU8UX, chunks_eq_chunksFrom, Nat.zero_mul, List.take_zero,
    List.nil_append, Nat.zero_add] using h

/-- `fts_writeU8UXthenWriteU8UX` on a bound bus. -/
theorem fts_writeU8UXthenWriteU8UX_spec (K : Consts) (E : Env) (hK : K.Codes) (hL : K.Limits)
    (cmd1 w1 cmd2 w2 : Nat) (hw1 : w1 + 1 ≤ K.sizeof_io_write_buf) (hw2 : w2 ≤ 8) (addr : Nat)
    (ha : addr < 2 ^ 64) (data : List Nat) (L : Nat) (hd : L ≤ data.length) (s : State)
    (hb : Bound K s) :
    ∃ r s1 subs, fts_writeU8UXthenWriteU8UX K E cmd1 w1 cmd2 w2 addr data L s = some (r, s1) ∧
      Bound K s1 ∧
      Ran K E ((chunks K.WRITE_CHUNK L addr).flatMap (dualWriteMsgs cmd1 w1 cmd2 w2 data))
        subs s s1 ∧
      (r = K.OK ∧ subs.length = 2 * (chunks K.WRITE_CHUNK L addr).length ∨
        r = K.ERROR_BUS_W ∧ subs.length < 2 * (chunks K.WRITE_CHUNK L addr).length) := by
  have h := writeU8UXthenWriteU8UX_loop_spec K E hK hL cmd1 w1 cmd2 w2 hw1 hw2 L addr data hd
    L 0 L addr data s hb (le_refl _) (by simp)
    (fun _ => ⟨by rw [Nat.zero_mul, Nat.add_zero, Nat.mod_eq_of_lt ha], by simp⟩)
  simpa only [fts_writeU8UXthenWriteU8UX, chunks_eq_chunksFrom] using h

/-- `fts_writeU8UXthenWriteReadU8UX` on a bound bus. -/
theorem fts_writeU8UXthenWriteReadU8UX_spec (K : Consts) (E : Env) (hK : K.Codes)
    (hL : K.Limits) (cmd1 w1 cmd2 w2 : Nat) (hw1 : w1 + 1 ≤ K.sizeof_io_write_buf)
    (hw2 : w2 + 1 ≤ K.sizeof_io_extra_write_buf) (addr : Nat) (ha : addr < 2 ^ 64)
    (outBuf : List Nat) (L : Nat) (hasDummyByte : Int) (ho : L ≤ outBuf.length) (s : State)
    (hb : Bound K s) :
    ∃ r out s1 subs,
      fts_writeU8UXthenWriteReadU8UX K E cmd1 w1 cmd2 w2 addr outBuf L hasDummyByte s =
        some (r, out, s1) ∧ Bound K s1 ∧
      Ran K E ((chunks K.READ_CHUNK L addr).flatMap
        (dualReadMsgs cmd1 w1 cmd2 w2 (dummyOf hasDummyByte))) subs s s1 ∧
      out = gather2 (dummyOf hasDummyByte) (chunks K.READ_CHUNK L addr) subs ++
        outBuf.drop (gather2 (dummyOf hasDummyByte) (chunks K.READ_CHUNK L addr) subs).length ∧
      (r = K.OK ∧ subs.length = 2 * (chunks K.READ_CHUNK L addr).length ∨
        r = K.ERROR_BUS_W ∧ subs.length < 2 * (chunks K.READ_CHUNK L addr).length ∧
          subs.length % 2 = 0 ∨
        r = K.ERROR_BUS_WR ∧ subs.length < 2 * (chunks K.READ_CHUNK L addr).length ∧
          subs.length % 2 = 1) := by
  have h := writeU8UXthenWriteReadU8UX_loop_spec K E hK hL cmd1 w1 cmd2 w2 hw1 hw2
    hasDummyByte L addr L 0 L addr outBuf 0 s hb (le_refl _) (by simp)
    (fun _ => ⟨by rw [Nat.zero_mul, Nat.add_zero, Nat.mod_eq_of_lt ha], by simp⟩) ho
  simpa only [fts_writeU8UXthenWriteReadU8UX, chunks_eq_chunksFrom, Nat.zero_mul,
    List.take_zero, List.nil_append, Nat.zero_add] using h

theorem dualWriteMsgs_length (cmd1 w1 cmd2 w2 : Nat) (data : List Nat) (cs : List Chunk) :
    (cs.flatMap (dualWriteMsgs cmd1 w1 cmd2 w2 data)).length = 2 * cs.length := by
  induction cs with
  | nil => rfl
  | cons c cs ih => simp [List.flatMap_cons, dualWriteMsgs, ih]; omega

theorem dualReadMsgs_length (cmd1 w1 cmd2 w2 d : Nat) (cs : List Chunk) :
    (cs.flatMap (dualReadMsgs cmd1 w1 cmd2 w2 d)).length = 2 * cs.length := by
  induction cs with
  | nil => rfl
  | cons c cs ih => simp [List.flatMap_cons, dualReadMsgs, ih]; omega

theorem flatMap_pair_getElem? {α β : Type} (a b : α → β) :
    ∀ (cs : List α) (k : Nat),
      (cs.flatMap fun c => [a c, b c])[2 * k]? = cs[k]?.map a ∧
      (cs.flatMap fun c => [a c, b c])[2 * k + 1]? = cs[k]?.map b := by
  intro cs
  induction cs with
  | nil => intro k; simp
  | cons c cs ih =>
    intro k
    cases k with
    | zero => simp [List.flatMap_cons]
    | succ k =>
      have h2 : 2 * (k + 1) = 2 * k + 1 + 1 := by omega
      rw [h2]
      simpa [List.flatMap_cons] using ih k

/-- C3: on a bound bus, for a length `L` and a 64-bit start address `addr`, when every
sub-transfer succeeds each of the four chunked operations returns `OK` after exactly
`ceil(L / C)` chunk iterations (`C` is `WRITE_CHUNK` for the two writes, `READ_CHUNK` for
the two reads): it sends the messages of the chunks `chunks C L addr` in order, one message
a chunk (two for the dual operations), each after the failed attempts its retry loop went
through.  Chunk `k` has size `min C (L - k * C)`, the sizes add up to `L`, and chunk `k` is
framed with the 64-bit value of `addr + k * C`, which for a header of at most eight address
bytes is the header of `addr + k * C`.  On a bus that never fails the events are exactly
one transfer for each message.  The address width is at most 8 bytes, for the dual operations
the two widths together: beyond that the shift that makes an address byte is undefined in the
source. -/
theorem C3_chunk_iterations (K : Consts) (E : Env) (hK : K.Codes) (hL : K.Limits) (s : State)
    (hb : Bound K s) (L addr : Nat) (ha : addr < 2 ^ 64) :
    (∀ C, 0 < C →
      (chunks C L addr).length = (L + C - 1) / C ∧
      (∀ k, k < (L + C - 1) / C →
        (chunks C L addr)[k]? = some ⟨min C (L - k * C), (addr + k * C) % 2 ^ 64, k * C⟩) ∧
      ((chunks C L addr).map (·.size)).sum = L) ∧
    (∀ cmd w a, w ≤ 8 → header cmd w (a % 2 ^ 64) = header cmd w a) ∧
    (∀ cmd w1 w2 a, w1 + w2 ≤ 8 →
      header1 cmd w1 w2 (a % 2 ^ 64) = header1 cmd w1 w2 a ∧
      header2 cmd w1 w2 (a % 2 ^ 64) = header2 cmd w1 w2 a) ∧
    (∀ cmd w data, w ≤ 8 → L ≤ data.length →
      AllSucceed K E s.xfers (chunks K.WRITE_CHUNK L addr).length →
      ∃ s1 subs, fts_writeU8UX K E cmd w addr data L s = some (K.OK, s1) ∧
        SubsFrom E K.I2C_RETRY s.xfers subs ∧
        subs.length = (chunks K.WRITE_CHUNK L addr).length ∧
        s1.trace = s.trace ++
          runEvents K ((chunks K.WRITE_CHUNK L addr).map (writeMsg cmd w data)) subs) ∧
    (∀ cmd w outBuf hasDummyByte, w ≤ 8 → L ≤ outBuf.length →
      AllSucceed K E s.xfers (chunks K.READ_CHUNK L addr).length →
      ∃ out s1 subs,
        fts_writeReadU8UX K E cmd w addr outBuf L hasDummyByte s = some (K.OK, out, s1) ∧
        SubsFrom E K.I2C_RETRY s.xfers subs ∧
        subs.length = (chunks K.READ_CHUNK L addr).length ∧
        s1.trace = s.trace ++ runEvents K
          ((chunks K.READ_CHUNK L addr).map (readMsg cmd w (dummyOf hasDummyByte))) subs) ∧
    (∀ cmd1 w1 cmd2 w2 data, w1 + w2 ≤ 8 → L ≤ data.length →
      AllSucceed K E s.xfers (2 * (chunks K.WRITE_CHUNK L addr).length) →
      ∃ s1 subs,
        fts_writeU8UXthenWriteU8UX K E cmd1 w1 cmd2 w2 addr data L s = some (K.OK, s1) ∧
        SubsFrom E K.I2C_RETRY s.xfers subs ∧
        subs.length = 2 * (chunks K.WRITE_CHUNK L addr).length ∧
        s1.trace = s.trace ++ runEvents K
          ((chunks K.WRITE_CHUNK L addr).flatMap (dualWriteMsgs cmd1 w1 cmd2 w2 data)) subs) ∧
    (∀ cmd1 w1 cmd2 w2 outBuf hasDummyByte, w1 + w2 ≤ 8 → L ≤ outBuf.length →
      AllSucceed K E s.xfers (2 * (chunks K.READ_CHUNK L addr).length) →
      ∃ out s1 subs,
        fts_writeU8UXthenWriteReadU8UX K E cmd1 w1 cmd2 w2 addr outBuf L hasDummyByte s =
          some (K.OK, out, s1) ∧
        SubsFrom E K.I2C_RETRY s.xfers subs ∧
        subs.length = 2 * (chunks K.READ_CHUNK L addr).length ∧
        s1.trace = s.trace ++ runEvents K ((chunks K.READ_CHUNK L addr).flatMap
          (dualReadMsgs cmd1 w1 cmd2 w2 (dummyOf hasDummyByte))) subs) ∧
    ((∀ i, 0 ≤ (E.bus i).ret) → ∀ (msgs : List Msg) (subs : List Sub) (base : Nat),
      SubsFrom E K.I2C_RETRY base subs → subs.length = msgs.length →
      runEvents K msgs subs = msgs.map fun m => Event.xfer m.segs m.rx) := by
  refine ⟨fun C hC => ⟨chunks_length C L addr, chunks_getElem? C L addr, chunks_sum hC L addr⟩,
    fun cmd w a hw => header_mod cmd hw a,
    fun cmd w1 w2 a hw => ⟨header1_mod cmd hw a, header2_mod cmd hw a⟩, ?_, ?_, ?_, ?_,
    runEvents_of_never_fail K E⟩
  · intro cmd w data hw hd hall
    obtain ⟨r, s1, subs, hrun, -, hran, hres⟩ :=
      fts_writeU8UX_spec K E hK hL cmd w hw addr ha data L hd s hb
    obtain ⟨hlen, htr⟩ := hran.complete (by simpa using hall)
    rw [List.length_map] at hlen
    rcases hres with ⟨rfl, -⟩ | ⟨-, hlt⟩
    · exact ⟨s1, subs, hrun, hran.1, hlen, htr⟩
    · omega
  · intro cmd w outBuf hasDummyByte hw ho hall
    obtain ⟨r, out, s1, subs, hrun, -, hran, -, hres⟩ :=
      fts_writeReadU8UX_spec K E hK hL cmd w (by have := hL.wbuf; omega) addr ha outBuf L
        hasDummyByte ho s hb
    obtain ⟨hlen, htr⟩ := hran.complete (by simpa using hall)
    rw [List.length_map] at hlen
    rcases hres with ⟨rfl, -⟩ | ⟨-, hlt⟩
    · exact ⟨out, s1, subs, hrun, hran.1, hlen, htr⟩
    · omega
  · intro cmd1 w1 cmd2 w2 data hw hd hall
    obtain ⟨r, s1, subs, hrun, -, hran, hres⟩ :=
      fts_writeU8UXthenWriteU8UX_spec K E hK hL cmd1 w1 cmd2 w2 (by have := hL.wbuf; omega)
        (by omega) addr ha data L hd s hb
    obtain ⟨hlen, htr⟩ := hran.complete (by rw [dualWriteMsgs_length]; exact hall)
    rw [dualWriteMsgs_length] at hlen
    rcases hres with ⟨rfl, -⟩ | ⟨-, hlt⟩
    · exact ⟨s1, subs, hrun, hran.1, hlen, htr⟩
    · omega
  · intro cmd1 w1 cmd2 w2 outBuf hasDummyByte hw ho hall
    obtain ⟨r, out, s1, subs, hrun, -, hran, -, hres⟩ :=
      fts_writeU8UXthenWriteReadU8UX_spec K E hK hL cmd1 w1 cmd2 w2
        (by have := hL.wbuf; omega) (by have := hL.xbuf; omega) addr ha outBuf L
        hasDummyByte ho s hb
    obtain ⟨hlen, htr⟩ := hran.complete (by rw [dualReadMsgs_length]; exact hall)
    rw [dualReadMsgs_length] at hlen
    rcases hres with ⟨rfl, -⟩ | ⟨-, hlt, -⟩ | ⟨-, hlt, -⟩
    · exact ⟨out, s1, subs, hrun, hran.1, hlen, htr⟩
    · omega
    · omega

theorem C3_chunk_iterations_witness :
    ∃ s1 subs, fts_writeU8UX smallConsts okBus 0x10 2 0x10203 [1, 2, 3, 4, 5] 5
        (boundState smallConsts) = some (smallConsts.OK, s1) ∧
      SubsFrom okBus smallConsts.I2C_RETRY (boundState smallConsts).xfers subs ∧
      subs.length = (chunks smallConsts.WRITE_CHUNK 5 0x10203).length ∧
      s1.trace = (boundState smallConsts).trace ++ runEvents smallConsts
        ((chunks smallConsts.WRITE_CHUNK 5 0x10203).map (writeMsg 0x10 2 [1, 2, 3, 4, 5])) subs :=
  (C3_chunk_iterations smallConsts okBus smallConsts_codes smallConsts_limits
    (boundState smallConsts) (boundState_bound smallConsts) 5 0x10203 (by decide)).2.2.2.1
    0x10 2 [1, 2, 3, 4, 5] (by decide) (by decide)
    (AllSucceed.of_never_fail (by decide) (fun _ => le_refl _) _ _)

/-! ## Addresses carried by successive chunks -/

theorem carried_header (cmd w a : Nat) : carried (header cmd w a) = a % 256 ^ w := by
  rw [carried, header_eq, List.tail_cons, ofDigits_addrBytes]

theorem carried2_headers (cmd1 cmd2 w1 w2 a : Nat) :
    carried2 (header1 cmd1 w1 w2 a) (header2 cmd2 w1 w2 a) = a % 256 ^ (w1 + w2) := by
  rw [carried2, header1_tail, header2_tail, List.take_append_drop, ofDigits_addrBytes]

theorem chunks_getElem?_eq {C L addr k : Nat} {c : Chunk} (h : (chunks C L addr)[k]? = some c) :
    k < nChunks C L ∧ c = chunkAt C L addr k := by
  unfold chunks at h
  rw [List.getElem?_map] at h
  have hk : k < nChunks C L := by
    by_contra hne
    rw [List.getElem?_eq_none (by simpa using hne)] at h
    cases h
  rw [List.getElem?_range hk] at h
  exact ⟨hk, by simpa using h.symm⟩

/-- Two chunks of one operation all of whose chunks start in the block of `2 ^ (8 * W)`
addresses of the start address: each carries its offset in the block, and the earlier one
carries at least a chunk size less than the later one. -/
theorem chunk_order_block {C L addr W j k : Nat} {cj ck : Chunk} (hW : W ≤ 8)
    (ha : addr < 2 ^ 64) (hwin : OneBlock C L addr W) (hjk : j < k)
    (hj : (chunks C L addr)[j]? = some cj) (hk : (chunks C L addr)[k]? = some ck) :
    cj.address % 256 ^ W = addr % 2 ^ (8 * W) + j * C ∧
      ck.address % 256 ^ W = addr % 2 ^ (8 * W) + k * C ∧
      cj.address % 256 ^ W + C ≤ ck.address % 256 ^ W := by
  obtain ⟨hj1, rfl⟩ := chunks_getElem?_eq hj
  obtain ⟨hk1, rfl⟩ := chunks_getElem?_eq hk
  have hp : (256 : Nat) ^ W = 2 ^ (8 * W) := by rw [pow_mul]; norm_num
  have hpos : 0 < 2 ^ (8 * W) := Nat.pow_pos (by norm_num)
  have h64 : (2 : Nat) ^ 64 = 2 ^ (8 * W) * 2 ^ (64 - 8 * W) := by
    rw [← pow_add]; congr 1; omega
  have hq : addr / 2 ^ (8 * W) < 2 ^ (64 - 8 * W) :=
    Nat.div_lt_of_lt_mul (by rw [← h64]; exact ha)
  have hblock : 2 ^ (8 * W) * (addr / 2 ^ (8 * W)) + 2 ^ (8 * W) ≤ 2 ^ 64 := by
    rw [h64, ← Nat.mul_succ]
    exact Nat.mul_le_mul_left _ hq
  have key : ∀ i, i < nChunks C L →
      (addr + i * C) % 2 ^ 64 % 2 ^ (8 * W) = addr % 2 ^ (8 * W) + i * C := by
    intro i hi
    have e1 := Nat.div_add_mod (addr + i * C) (2 ^ (8 * W))
    have e2 := Nat.div_add_mod addr (2 ^ (8 * W))
    have e3 := Nat.mod_lt (addr + i * C) hpos
    rw [hwin i hi] at e1
    rw [Nat.mod_eq_of_lt (show addr + i * C < 2 ^ 64 by omega)]
    omega
  have hkj : (j + 1) * C ≤ k * C := Nat.mul_le_mul_right C hjk
  rw [Nat.add_mul, Nat.one_mul] at hkj
  simp only [chunkAt, hp]
  rw [key j hj1, key k hk1]
  refine ⟨rfl, rfl, ?_⟩
  omega

theorem msgHeader_writeMsg (cmd w : Nat) (data : List Nat) (c : Chunk) :
    msgHeader (w + 1) (writeMsg cmd w data c) = header cmd w c.address := by
  simp [msgHeader, writeMsg, List.take_append_of_le_length, header_length]

theorem msgHeader_readMsg (cmd w d : Nat) (c : Chunk) :
    msgHeader (w + 1) (readMsg cmd w d c) = header cmd w c.address := by
  simp [msgHeader, readMsg, List.take_of_length_le, header_length]

/-- C4 (as amended): on a bound bus, for a header width of at most eight bytes (the two
widths together for the dual operations), when all chunks start in the block of
`2 ^ (8 * width)` addresses of the start address (`OneBlock`; so in particular when the start
address of the last chunk is below `2 ^ (8 * width)`), each chunked operation sends the
messages of its chunks in order, and for chunks `j < k` the address carried in the header of
chunk `j` is `addr mod 2 ^ (8 * width) + j * C`, at least a full chunk below the address
carried by chunk `k`: the carried addresses increase strictly and the ranges do not
overlap. -/
theorem C4_addresses_increase (K : Consts) (E : Env) (hK : K.Codes) (hL : K.Limits)
    (s : State) (hb : Bound K s) (L addr : Nat) (ha : addr < 2 ^ 64) (j k : Nat)
    (hjk : j < k) :
    (∀ cmd w data, w ≤ 8 → L ≤ data.length → OneBlock K.WRITE_CHUNK L addr w →
      ∃ r s1 subs, fts_writeU8UX K E cmd w addr data L s = some (r, s1) ∧
        Ran K E ((chunks K.WRITE_CHUNK L addr).map (writeMsg cmd w data)) subs s s1 ∧
        ∀ mj mk, ((chunks K.WRITE_CHUNK L addr).map (writeMsg cmd w data))[j]? = some mj →
          ((chunks K.WRITE_CHUNK L addr).map (writeMsg cmd w data))[k]? = some mk →
          carried (msgHeader (w + 1) mj) = addr % 2 ^ (8 * w) + j * K.WRITE_CHUNK ∧
          carried (msgHeader (w + 1) mk) = addr % 2 ^ (8 * w) + k * K.WRITE_CHUNK ∧
          carried (msgHeader (w + 1) mj) + K.WRITE_CHUNK ≤ carried (msgHeader (w + 1) mk) ∧
          carried (msgHeader (w + 1) mj) < carried (msgHeader (w + 1) mk)) ∧
    (∀ cmd w outBuf d, w ≤ 8 → L ≤ outBuf.length → OneBlock K.READ_CHUNK L addr w →
      ∃ r out s1 subs, fts_writeReadU8UX K E cmd w addr outBuf L d s = some (r, out, s1) ∧
        Ran K E ((chunks K.READ_CHUNK L addr).map (readMsg cmd w (dummyOf d))) subs s s1 ∧
        ∀ mj mk,
          ((chunks K.READ_CHUNK L addr).map (readMsg cmd w (dummyOf d)))[j]? = some mj →
          ((chunks K.READ_CHUNK L addr).map (readMsg cmd w (dummyOf d)))[k]? = some mk →
          carried (msgHeader (w + 1) mj) = addr % 2 ^ (8 * w) + j * K.READ_CHUNK ∧
          carried (msgHeader (w + 1) mk) = addr % 2 ^ (8 * w) + k * K.READ_CHUNK ∧
          carried (msgHeader (w + 1) mj) + K.READ_CHUNK ≤ carried (msgHeader (w + 1) mk) ∧
          carried (msgHeader (w + 1) mj) < carried (msgHeader (w + 1) mk)) ∧
    (∀ cmd1 w1 cmd2 w2 data, w1 + w2 ≤ 8 → L ≤ data.length →
      OneBlock K.WRITE_CHUNK L addr (w1 + w2) →
      ∃ r s1 subs,
        fts_writeU8UXthenWriteU8UX K E cmd1 w1 cmd2 w2 addr data L s = some (r, s1) ∧
        Ran K E ((chunks K.WRITE_CHUNK L addr).flatMap (dualWriteMsgs cmd1 w1 cmd2 w2 data))
          subs s s1 ∧
        ∀ mj1 mj2 mk1 mk2,
          ((chunks K.WRITE_CHUNK L addr).flatMap
            (dualWriteMsgs cmd1 w1 cmd2 w2 data))[2 * j]? = some mj1 →
          ((chunks K.WRITE_CHUNK L addr).flatMap
            (dualWriteMsgs cmd1 w1 cmd2 w2 data))[2 * j + 1]? = some mj2 →
          ((chunks K.WRITE_CHUNK L addr).flatMap
            (dualWriteMsgs cmd1 w1 cmd2 w2 data))[2 * k]? = some mk1 →
          ((chunks K.WRITE_CHUNK L addr).flatMap
            (dualWriteMsgs cmd1 w1 cmd2 w2 data))[2 * k + 1]? = some mk2 →
          carried2 (msgHeader (w1 + 1) mj1) (msgHeader (w2 + 1) mj2) =
            addr % 2 ^ (8 * (w1 + w2)) + j * K.WRITE_CHUNK ∧
          carried2 (msgHeader (w1 + 1) mk1) (msgHeader (w2 + 1) mk2) =
            addr % 2 ^ (8 * (w1 + w2)) + k * K.WRITE_CHUNK ∧
          carried2 (msgHeader (w1 + 1) mj1) (msgHeader (w2 + 1) mj2) + K.WRITE_CHUNK ≤
            carried2 (msgHeader (w1 + 1) mk1) (msgHeader (w2 + 1) mk2) ∧
          carried2 (msgHeader (w1 + 1) mj1) (msgHeader (w2 + 1) mj2) <
            carried2 (msgHeader (w1 + 1) mk1) (msgHeader (w2 + 1) mk2)) ∧
    (∀ cmd1 w1 cmd2 w2 outBuf d, w1 + w2 ≤ 8 → L ≤ outBuf.length →
      OneBlock K.READ_CHUNK L addr (w1 + w2) →
      ∃ r out s1 subs,
        fts_writeU8UXthenWriteReadU8UX K E cmd1 w1 cmd2 w2 addr outBuf L d s =
          some (r, out, s1) ∧
        Ran K E ((chunks K.READ_CHUNK L addr).flatMap
          (dualReadMsgs cmd1 w1 cmd2 w2 (dummyOf d))) subs s s1 ∧
        ∀ mj1 mj2 mk1 mk2,
          ((chunks K.READ_CHUNK L addr).flatMap
            (dualReadMsgs cmd1 w1 cmd2 w2 (dummyOf d)))[2 * j]? = some mj1 →
          ((chunks K.READ_CHUNK L addr).flatMap
            (dualReadMsgs cmd1 w1 cmd2 w2 (dummyOf d)))[2 * j + 1]? = some mj2 →
          ((chunks K.READ_CHUNK L addr).flatMap
            (dualReadMsgs cmd1 w1 cmd2 w2 (dummyOf d)))[2 * k]? = some mk1 →
          ((chunks K.READ_CHUNK L addr).flatMap
            (dualReadMsgs cmd1 w1 cmd2 w2 (dummyOf d)))[2 * k + 1]? = some mk2 →
          carried2 (msgHeader (w1 + 1) mj1) (msgHeader (w2 + 1) mj2) =
            addr % 2 ^ (8 * (w1 + w2)) + j * K.READ_CHUNK ∧
          carried2 (msgHeader (w1 + 1) mk1) (msgHeader (w2 + 1) mk2) =
            addr % 2 ^ (8 * (w1 + w2)) + k * K.READ_CHUNK ∧
          carried2 (msgHeader (w1 + 1) mj1) (msgHeader (w2 + 1) mj2) + K.READ_CHUNK ≤
            carried2 (msgHeader (w1 + 1) mk1) (msgHeader (w2 + 1) mk2) ∧
          carried2 (msgHeader (w1 + 1) mj1) (msgHeader (w2 + 1) mj2) <
            carried2 (msgHeader (w1 + 1) mk1) (msgHeader (w2 + 1) mk2)) := by
  have hwc := hL.wchunk
  have hrc := hL.rchunk
  refine ⟨?_, ?_, ?_, ?_⟩
  · intro cmd w data hw hd hwin
    obtain ⟨r, s1, subs, heq, -, hran, -⟩ :=
      fts_writeU8UX_spec K E hK hL cmd w hw addr ha data L hd s hb
    refine ⟨r, s1, subs, heq, hran, fun mj mk hj hk => ?_⟩
    rw [List.getElem?_map, Option.map_eq_some'] at hj hk
    obtain ⟨cj, hcj, rfl⟩ := hj
    obtain ⟨ck, hck, rfl⟩ := hk
    obtain ⟨h1, h2, h3⟩ := chunk_order_block hw ha hwin hjk hcj hck
    rw [msgHeader_writeMsg, msgHeader_writeMsg, carried_header, carried_header]
    exact ⟨h1, h2, h3, by omega⟩
  · intro cmd w outBuf d hw ho hwin
    obtain ⟨r, out, s1, subs, heq, -, hran, -, -⟩ :=
      fts_writeReadU8UX_spec K E hK hL cmd w (by have := hL.wbuf; omega) addr ha outBuf L d
        ho s hb
    refine ⟨r, out, s1, subs, heq, hran, fun mj mk hj hk => ?_⟩
    rw [List.getElem?_map, Option.map_eq_some'] at hj hk
    obtain ⟨cj, hcj, rfl⟩ := hj
    obtain ⟨ck, hck, rfl⟩ := hk
    obtain ⟨h1, h2, h3⟩ := chunk_order_block hw ha hwin hjk hcj hck
    rw [msgHeader_readMsg, msgHeader_readMsg, carried_header, carried_header]
    exact ⟨h1, h2, h3, by omega⟩
  · intro cmd1 w1 cmd2 w2 data hw hd hwin
    obtain ⟨r, s1, subs, heq, -, hran, -⟩ :=
      fts_writeU8UXthenWriteU8UX_spec K E hK hL cmd1 w1 cmd2 w2 (by have := hL.wbuf; omega)
        (by omega) addr ha data L hd s hb
    refine ⟨r, s1, subs, heq, hran, fun mj1 mj2 mk1 mk2 hj1 hj2 hk1 hk2 => ?_⟩
    have e : ∀ c : Chunk,
        carried2 (msgHeader (w1 + 1) ⟨[header1 cmd1 w1 w2 c.address], none⟩)
          (msgHeader (w2 + 1)
            ⟨[header2 cmd2 w1 w2 c.address ++ (data.drop c.off).take c.size], none⟩) =
        c.address % 256 ^ (w1 + w2) := by
      intro c
      rw [← carried2_headers cmd1 cmd2 w1 w2 c.address]
      simp [msgHeader, List.take_append_of_le_length, List.take_of_length_le, header1_length,
        header2_length]
    have hpj := flatMap_pair_getElem?
      (fun c : Chunk => (⟨[header1 cmd1 w1 w2 c.address], none⟩ : Msg))
      (fun c : Chunk =>
        (⟨[header2 cmd2 w1 w2 c.address ++ (data.drop c.off).take c.size], none⟩ : Msg))
      (chunks K.WRITE_CHUNK L addr)
    have hj1' := (hpj j).1.symm.trans hj1
    have hj2' := (hpj j).2.symm.trans hj2
    have hk1' := (hpj k).1.symm.trans hk1
    have hk2' := (hpj k).2.symm.trans hk2
    rw [Option.map_eq_some'] at hj1' hj2' hk1' hk2'
    obtain ⟨cj, hcj, rfl⟩ := hj1'
    obtain ⟨cj', hcj', rfl⟩ := hj2'
    obtain ⟨ck, hck, rfl⟩ := hk1'
    obtain ⟨ck', hck', rfl⟩ := hk2'
    obtain rfl : cj = cj' := Option.some.inj (hcj.symm.trans hcj')
    obtain rfl : ck = ck' := Option.some.inj (hck.symm.trans hck')
    obtain ⟨h1, h2, h3⟩ := chunk_order_block hw ha hwin hjk hcj hck
    rw [e, e]
    exact ⟨h1, h2, h3, by omega⟩
  · intro cmd1 w1 cmd2 w2 outBuf d hw ho hwin
    obtain ⟨r, out, s1, subs, heq, -, hran, -, -⟩ :=
      fts_writeU8UXthenWriteReadU8UX_spec K E hK hL cmd1 w1 cmd2 w2
        (by have := hL.wbuf; omega) (by have := hL.xbuf; omega) addr ha outBuf L d ho s hb
    refine ⟨r, out, s1, subs, heq, hran, fun mj1 mj2 mk1 mk2 hj1 hj2 hk1 hk2 => ?_⟩
    have e : ∀ c : Chunk,
        carried2 (msgHeader (w1 + 1) ⟨[header1 cmd1 w1 w2 c.address], none⟩)
          (msgHeader (w2 + 1) ⟨[header2 cmd2 w1 w2 c.address], some (c.size + dummyOf d)⟩) =
        c.address % 256 ^ (w1 + w2) := by
      intro c
      rw [← carried2_headers cmd1 cmd2 w1 w2 c.address]
      simp [msgHeader, List.take_of_length_le, header1_length, header2_length]
    have hpj := flatMap_pair_getElem?
      (fun c : Chunk => (⟨[header1 cmd1 w1 w2 c.address], none⟩ : Msg))
      (fun c : Chunk => (⟨[header2 cmd2 w1 w2 c.address], some (c.size + dummyOf d)⟩ : Msg))
      (chunks K.READ_CHUNK L addr)
    have hj1' := (hpj j).1.symm.trans hj1
    have hj2' := (hpj j).2.symm.trans hj2
    have hk1' := (hpj k).1.symm.trans hk1
    have hk2' := (hpj k).2.symm.trans hk2
    rw [Option.map_eq_some'] at hj1' hj2' hk1' hk2'
    obtain ⟨cj, hcj, rfl⟩ := hj1'
    obtain ⟨cj', hcj', rfl⟩ := hj2'
    obtain ⟨ck, hck, rfl⟩ := hk1'
    obtain ⟨ck', hck', rfl⟩ := hk2'
    obtain rfl : cj = cj' := Option.some.inj (hcj.symm.trans hcj')
    obtain rfl : ck = ck' := Option.some.inj (hck.symm.trans hck')
    obtain ⟨h1, h2, h3⟩ := chunk_order_block hw ha hwin hjk hcj hck
    rw [e, e]
    exact ⟨h1, h2, h3, by omega⟩

set_option maxRecDepth 100000 in
/-- C4 as stated fails.  Writing 1025 bytes at address `0xFFFF` with a two-byte address and
chunks of 1024 bytes sends two messages whose headers carry `0xFFFF` and then `0x03FF`;
writing them at address `2 ^ 64 - 1024` with an eight-byte address sends headers that carry
`2 ^ 64 - 1024` and then 0. -/
theorem C4_counterexample :
    (fts_writeU8UX sampleConsts okBus 0x10 2 0xFFFF (List.replicate 1025 7) 1025
      (boundState sampleConsts)).map (fun r => (r.1, r.2.trace.map (wireHeader 3))) =
      some (0, [[0x10, 0xFF, 0xFF], [0x10, 0x03, 0xFF]]) ∧
    ¬ carried [0x10, 0xFF, 0xFF] < carried [0x10, 0x03, 0xFF] ∧
    (fts_writeU8UX sampleConsts okBus 0x10 8 (2 ^ 64 - 1024) (List.replicate 1025 7) 1025
      (boundState sampleConsts)).map (fun r => (r.1, r.2.trace.map (wireHeader 9))) =
      some (0, [[0x10, 0xFF, 0xFF, 0xFF, 0xFF, 0xFF, 0xFF, 0xFC, 0x00],
        [0x10, 0, 0, 0, 0, 0, 0, 0, 0]]) ∧
    ¬ carried [0x10, 0xFF, 0xFF, 0xFF, 0xFF, 0xFF, 0xFF, 0xFC, 0x00] <
      carried [0x10, 0, 0, 0, 0, 0, 0, 0, 0] := by
  refine ⟨by decide, by decide, by decide, by decide⟩

theorem C4_addresses_increase_witness :
    ∃ r s1 subs, fts_writeU8UX smallConsts okBus 0x10 2 0x100 [1, 2, 3, 4, 5] 5
        (boundState smallConsts) = some (r, s1) ∧
      Ran smallConsts okBus
        ((chunks smallConsts.WRITE_CHUNK 5 0x100).map (writeMsg 0x10 2 [1, 2, 3, 4, 5])) subs
        (boundState smallConsts) s1 ∧
      ∀ mj mk,
        ((chunks smallConsts.WRITE_CHUNK 5 0x100).map
          (writeMsg 0x10 2 [1, 2, 3, 4, 5]))[0]? = some mj →
        ((chunks smallConsts.WRITE_CHUNK 5 0x100).map
          (writeMsg 0x10 2 [1, 2, 3, 4, 5]))[1]? = some mk →
        carried (msgHeader (2 + 1) mj) = 0x100 % 2 ^ (8 * 2) + 0 * smallConsts.WRITE_CHUNK ∧
        carried (msgHeader (2 + 1) mk) = 0x100 % 2 ^ (8 * 2) + 1 * smallConsts.WRITE_CHUNK ∧
        carried (msgHeader (2 + 1) mj) + smallConsts.WRITE_CHUNK ≤
          carried (msgHeader (2 + 1) mk) ∧
        carried (msgHeader (2 + 1) mj) < carried (msgHeader (2 + 1) mk) :=
  (C4_addresses_increase smallConsts okBus smallConsts_codes smallConsts_limits
    (boundState smallConsts) (boundState_bound smallConsts) 5 0x100 (by decide) 0 1
    (by decide)).1 0x10 2 [1, 2, 3, 4, 5] (by decide) (by decide)
    (by unfold OneBlock; decide)

/-! ## Payload of the chunked writes -/

/-- The payloads of the chunks from chunk `k` on, one after the other, are the bytes left
after `k` chunks. -/
theorem chunksFrom_payload {C : Nat} (hC : 0 < C) (L addr : Nat) (data : List Nat) :
    ∀ (n k : Nat), L - k * C ≤ n →
      (chunksFrom C L addr k).flatMap (fun c => (data.drop c.off).take c.size) =
        (data.drop (k * C)).take (L - k * C) := by
  intro n
  induction n with
  | zero =>
    intro k h
    rw [chunksFrom_nil hC addr (by omega)]
    have : L - k * C = 0 := by omega
    simp [this]
  | succ n ih =>
    intro k h
    by_cases hk : k * C < L
    · rw [chunksFrom_cons hC addr hk, List.flatMap_cons, ih (k + 1) (by rw [Nat.add_mul]; omega)]
      simp only [chunkAt]
      by_cases hfull : C ≤ L - k * C
      · have e1 : L - k * C = C + (L - (k + 1) * C) := by rw [Nat.add_mul]; omega
        have e2 : (k + 1) * C = k * C + C := by rw [Nat.add_mul]; omega
        rw [Nat.min_eq_left hfull, e2, ← List.drop_drop, ← List.take_add, ← e2, ← e1]
      · have e1 : L - (k + 1) * C = 0 := by rw [Nat.add_mul]; omega
        rw [Nat.min_eq_right (by omega), e1]
        simp
    · rw [chunksFrom_nil hC addr (by omega)]
      have : L - k * C = 0 := by omega
      simp [this]

theorem chunks_payload {C : Nat} (hC : 0 < C) (L addr : Nat) (data : List Nat) :
    (chunks C L addr).flatMap (fun c => (data.drop c.off).take c.size) = data.take L := by
  rw [chunks_eq_chunksFrom, chunksFrom_payload hC L addr data L 0 (by omega)]
  simp

theorem payloadAfter_writeMsg (cmd w : Nat) (data : List Nat) (c : Chunk) :
    payloadAfter (w + 1) (writeMsg cmd w data c) = (data.drop c.off).take c.size := by
  simp [payloadAfter, writeMsg, List.drop_append_of_le_length, header_length]

/-- C5: on a bound bus, for a data buffer of length `L`, when every sub-transfer
succeeds: `fts_writeU8UX` (width at most 8) sends one write a chunk, each the header
followed by the chunk's payload, and the payloads after the `w + 1` header bytes, in the
order of the writes, make up `data` exactly; `fts_writeU8UXthenWriteU8UX` (the two widths
together at most 8) sends two writes a chunk, the first without payload, and the payloads
after the `w2 + 1` bytes of the second headers make up `data` exactly. -/
theorem C5_payload_order (K : Consts) (E : Env) (hK : K.Codes) (hL : K.Limits) (s : State)
    (hb : Bound K s) (addr : Nat) (ha : addr < 2 ^ 64) (data : List Nat) (L : Nat)
    (hd : data.length = L) :
    (∀ cmd w, w ≤ 8 → AllSucceed K E s.xfers (chunks K.WRITE_CHUNK L addr).length →
      ∃ s1 subs, fts_writeU8UX K E cmd w addr data L s = some (K.OK, s1) ∧
        subs.length = (chunks K.WRITE_CHUNK L addr).length ∧
        s1.trace = s.trace ++
          runEvents K ((chunks K.WRITE_CHUNK L addr).map (writeMsg cmd w data)) subs ∧
        (∀ c, msgHeader (w + 1) (writeMsg cmd w data c) = header cmd w c.address) ∧
        ((chunks K.WRITE_CHUNK L addr).map (writeMsg cmd w data)).flatMap
          (payloadAfter (w + 1)) = data) ∧
    (∀ cmd1 w1 cmd2 w2, w1 + w2 ≤ 8 →
      AllSucceed K E s.xfers (2 * (chunks K.WRITE_CHUNK L addr).length) →
      ∃ s1 subs, fts_writeU8UXthenWriteU8UX K E cmd1 w1 cmd2 w2 addr data L s =
          some (K.OK, s1) ∧
        subs.length = 2 * (chunks K.WRITE_CHUNK L addr).length ∧
        s1.trace = s.trace ++ runEvents K
          ((chunks K.WRITE_CHUNK L addr).flatMap (dualWriteMsgs cmd1 w1 cmd2 w2 data)) subs ∧
        (∀ c, ∃ m1 m2, dualWriteMsgs cmd1 w1 cmd2 w2 data c = [m1, m2] ∧
          m1.segs = [header1 cmd1 w1 w2 c.address] ∧
          msgHeader (w2 + 1) m2 = header2 cmd2 w1 w2 c.address ∧
          payloadAfter (w2 + 1) m2 = (data.drop c.off).take c.size) ∧
        (chunks K.WRITE_CHUNK L addr).flatMap (fun c => (data.drop c.off).take c.size) =
          data) := by
  have hdata : data.take L = data := List.take_of_length_le (by omega)
  refine ⟨?_, ?_⟩
  · intro cmd w hw hall
    obtain ⟨r, s1, subs, hrun, -, hran, hres⟩ :=
      fts_writeU8UX_spec K E hK hL cmd w hw addr ha data L (by omega) s hb
    obtain ⟨hlen, htr⟩ := hran.complete (by simpa using hall)
    rw [List.length_map] at hlen
    rcases hres with ⟨rfl, -⟩ | ⟨-, hlt⟩
    · refine ⟨s1, subs, hrun, hlen, htr, msgHeader_writeMsg cmd w data, ?_⟩
      rw [List.flatMap_map]
      simp only [payloadAfter_writeMsg]
      rw [chunks_payload hL.wchunk, hdata]
    · omega
  · intro cmd1 w1 cmd2 w2 hw hall
    obtain ⟨r, s1, subs, hrun, -, hran, hres⟩ :=
      fts_writeU8UXthenWriteU8UX_spec K E hK hL cmd1 w1 cmd2 w2 (by have := hL.wbuf; omega)
        (by omega) addr ha data L (by omega) s hb
    obtain ⟨hlen, htr⟩ := hran.complete (by rw [dualWriteMsgs_length]; exact hall)
    rw [dualWriteMsgs_length] at hlen
    rcases hres with ⟨rfl, -⟩ | ⟨-, hlt⟩
    · refine ⟨s1, subs, hrun, hlen, htr, ?_, ?_⟩
      · intro c
        refine ⟨_, _, rfl, rfl, ?_, ?_⟩
        · simp [msgHeader, List.take_append_of_le_length, header2_length]
        · simp [payloadAfter, List.drop_append_of_le_length, header2_length]
      · rw [chunks_payload hL.wchunk, hdata]
    · omega

theorem C5_payload_order_witness :
    ∃ s1 subs, fts_writeU8UX smallConsts okBus 0x10 2 0x10203 [1, 2, 3, 4, 5] 5
        (boundState smallConsts) = some (smallConsts.OK, s1) ∧
      subs.length = (chunks smallConsts.WRITE_CHUNK 5 0x10203).length ∧
      s1.trace = (boundState smallConsts).trace ++ runEvents smallConsts
        ((chunks smallConsts.WRITE_CHUNK 5 0x10203).map (writeMsg 0x10 2 [1, 2, 3, 4, 5])) subs ∧
      (∀ c, msgHeader (2 + 1) (writeMsg 0x10 2 [1, 2, 3, 4, 5] c) = header 0x10 2 c.address) ∧
      ((chunks smallConsts.WRITE_CHUNK 5 0x10203).map (writeMsg 0x10 2 [1, 2, 3, 4, 5])).flatMap
        (payloadAfter (2 + 1)) = [1, 2, 3, 4, 5] :=
  (C5_payload_order smallConsts okBus smallConsts_codes smallConsts_limits
    (boundState smallConsts) (boundState_bound smallConsts) 0x10203 (by decide)
    [1, 2, 3, 4, 5] 5 rfl).1 0x10 2 (by decide)
    (AllSucceed.of_never_fail (by decide) (fun _ => le_refl _) _ _)

/-! ## Dummy byte of the chunked reads -/

theorem gather_length (d : Nat) :
    ∀ (cs : List Chunk) (subs : List Sub), subs.length = cs.length →
      (gather d cs subs).length = (cs.map (·.size)).sum := by
  intro cs
  induction cs with
  | nil => intro subs _; simp [gather]
  | cons c cs ih =>
    intro subs h
    cases subs with
    | nil => cases h
    | cons sub subs =>
      simp [gather, delivered_length, ih subs (by simpa using h)]

theorem gather2_length (d : Nat) :
    ∀ (cs : List Chunk) (subs : List Sub), subs.length = 2 * cs.length →
      (gather2 d cs subs).length = (cs.map (·.size)).sum := by
  intro cs
  induction cs with
  | nil => intro subs _; simp [gather2]
  | cons c cs ih =>
    intro subs h
    match subs, h with
    | [], h => simp at h
    | [_], h => simp at h; omega
    | _ :: sub :: subs, h =>
      simp [gather2, delivered_length, ih subs (by simp at h; omega)]

/-- C6: on a bound bus, for an address width of at most 8 bytes (the two widths together
for the dual operation), `fts_writeReadU8UX` and `fts_writeU8UXthenWriteReadU8UX` read the
chunks in order until a sub-transfer fails; the read of a chunk of size `n` requests `n + 1`
bytes when `hasDummyByte == 1` and `n` bytes for any other value; the destination receives,
for the chunks read so far and in chunk order, the bytes returned for each chunk without its
dummy byte (`gather`), and is unchanged after them.  When every sub-transfer succeeds the
result is `OK`, the first `L` bytes of the destination are these bytes and the rest is
unchanged.  A 4-byte read in dummy mode issues a 5-byte raw read and copies its bytes
1..4. -/
theorem C6_dummy_byte (K : Consts) (E : Env) (hK : K.Codes) (hL : K.Limits) (s : State)
    (hb : Bound K s) (addr : Nat) (ha : addr < 2 ^ 64) (outBuf : List Nat) (L : Nat)
    (ho : L ≤ outBuf.length) (hasDummyByte : Int) :
    (hasDummyByte = 1 → dummyOf hasDummyByte = 1) ∧
    (hasDummyByte ≠ 1 → dummyOf hasDummyByte = 0) ∧
    (∀ cmd w d c, (readMsg cmd w d c).rx = some (c.size + d)) ∧
    (∀ d c cs sub subs, gather d (c :: cs) (sub :: subs) =
      (delivered sub.o (c.size + d)).drop d ++ gather d cs subs) ∧
    (∀ cmd w, w ≤ 8 →
      ∃ r out s1 subs,
        fts_writeReadU8UX K E cmd w addr outBuf L hasDummyByte s = some (r, out, s1) ∧
        Ran K E ((chunks K.READ_CHUNK L addr).map (readMsg cmd w (dummyOf hasDummyByte)))
          subs s s1 ∧
        out = gather (dummyOf hasDummyByte) (chunks K.READ_CHUNK L addr) subs ++
          outBuf.drop (gather (dummyOf hasDummyByte) (chunks K.READ_CHUNK L addr) subs).length) ∧
    (∀ cmd w, w ≤ 8 →
      AllSucceed K E s.xfers (chunks K.READ_CHUNK L addr).length →
      ∃ out s1 subs,
        fts_writeReadU8UX K E cmd w addr outBuf L hasDummyByte s = some (K.OK, out, s1) ∧
        SubsFrom E K.I2C_RETRY s.xfers subs ∧
        subs.length = (chunks K.READ_CHUNK L addr).length ∧
        s1.trace = s.trace ++ runEvents K
          ((chunks K.READ_CHUNK L addr).map (readMsg cmd w (dummyOf hasDummyByte))) subs ∧
        out.take L = gather (dummyOf hasDummyByte) (chunks K.READ_CHUNK L addr) subs ∧
        out.drop L = outBuf.drop L) ∧
    (∀ cmd1 w1 cmd2 w2 d c, ∃ m1 m2, dualReadMsgs cmd1 w1 cmd2 w2 d c = [m1, m2] ∧
      m1.rx = none ∧ m2.rx = some (c.size + d)) ∧
    (∀ d c cs sub0 sub subs, gather2 d (c :: cs) (sub0 :: sub :: subs) =
      (delivered sub.o (c.size + d)).drop d ++ gather2 d cs subs) ∧
    (∀ cmd1 w1 cmd2 w2, w1 + w2 ≤ 8 →
      ∃ r out s1 subs,
        fts_writeU8UXthenWriteReadU8UX K E cmd1 w1 cmd2 w2 addr outBuf L hasDummyByte s =
          some (r, out, s1) ∧
        Ran K E ((chunks K.READ_CHUNK L addr).flatMap
          (dualReadMsgs cmd1 w1 cmd2 w2 (dummyOf hasDummyByte))) subs s s1 ∧
        out = gather2 (dummyOf hasDummyByte) (chunks K.READ_CHUNK L addr) subs ++
          outBuf.drop
            (gather2 (dummyOf hasDummyByte) (chunks K.READ_CHUNK L addr) subs).length) ∧
    (∀ cmd1 w1 cmd2 w2, w1 + w2 ≤ 8 →
      AllSucceed K E s.xfers (2 * (chunks K.READ_CHUNK L addr).length) →
      ∃ out s1 subs,
        fts_writeU8UXthenWriteReadU8UX K E cmd1 w1 cmd2 w2 addr outBuf L hasDummyByte s =
          some (K.OK, out, s1) ∧
        SubsFrom E K.I2C_RETRY s.xfers subs ∧
        subs.length = 2 * (chunks K.READ_CHUNK L addr).length ∧
        s1.trace = s.trace ++ runEvents K ((chunks K.READ_CHUNK L addr).flatMap
          (dualReadMsgs cmd1 w1 cmd2 w2 (dummyOf hasDummyByte))) subs ∧
        out.take L = gather2 (dummyOf hasDummyByte) (chunks K.READ_CHUNK L addr) subs ∧
        out.drop L = outBuf.drop L) ∧
    (fts_writeReadU8UX smallConsts okBus 0xA6 2 0x0040 [9, 9, 9, 9, 9, 9] 4 1
      (boundState smallConsts)).map (fun r => (r.1, r.2.1, r.2.2.trace)) =
      some (0, [1, 2, 3, 4, 9, 9], [Event.xfer [[0xA6, 0x00, 0x40]] (some 5)]) := by
  refine ⟨fun h => by simp [dummyOf, h], fun h => by simp [dummyOf, h], fun _ _ _ _ => rfl,
    fun _ _ _ _ _ => rfl, ?_, ?_, fun _ _ _ _ _ _ => ⟨_, _, rfl, rfl, rfl⟩,
    fun _ _ _ _ _ _ => rfl, ?_, ?_, by decide⟩
  · intro cmd w hw
    obtain ⟨r, out, s1, subs, hrun, -, hran, hout, -⟩ :=
      fts_writeReadU8UX_spec K E hK hL cmd w (by have := hL.wbuf; omega) addr ha outBuf L
        hasDummyByte ho s hb
    exact ⟨r, out, s1, subs, hrun, hran, hout⟩
  · intro cmd w hw hall
    obtain ⟨r, out, s1, subs, hrun, -, hran, hout, hres⟩ :=
      fts_writeReadU8UX_spec K E hK hL cmd w (by have := hL.wbuf; omega) addr ha outBuf L
        hasDummyByte ho s hb
    obtain ⟨hlen, htr⟩ := hran.complete (by simpa using hall)
    rw [List.length_map] at hlen
    have hg := gather_length (dummyOf hasDummyByte) _ subs hlen
    rw [chunks_sum hL.rchunk] at hg
    rcases hres with ⟨rfl, -⟩ | ⟨-, hlt⟩
    · refine ⟨out, s1, subs, hrun, hran.1, hlen, htr, ?_, ?_⟩
      · rw [hout, hg, List.take_append_of_le_length (by rw [hg]),
          List.take_of_length_le (by rw [hg])]
      · rw [hout, hg, List.drop_append_of_le_length (by rw [hg]),
          List.drop_of_length_le (by rw [hg]), List.nil_append]
    · omega
  · intro cmd1 w1 cmd2 w2 hw
    obtain ⟨r, out, s1, subs, hrun, -, hran, hout, -⟩ :=
      fts_writeU8UXthenWriteReadU8UX_spec K E hK hL cmd1 w1 cmd2 w2
        (by have := hL.wbuf; omega) (by have := hL.xbuf; omega) addr ha outBuf L
        hasDummyByte ho s hb
    exact ⟨r, out, s1, subs, hrun, hran, hout⟩
  · intro cmd1 w1 cmd2 w2 hw hall
    obtain ⟨r, out, s1, subs, hrun, -, hran, hout, hres⟩ :=
      fts_writeU8UXthenWriteReadU8UX_spec K E hK hL cmd1 w1 cmd2 w2
        (by have := hL.wbuf; omega) (by have := hL.xbuf; omega) addr ha outBuf L
        hasDummyByte ho s hb
    obtain ⟨hlen, htr⟩ := hran.complete (by rw [dualReadMsgs_length]; exact hall)
    rw [dualReadMsgs_length] at hlen
    have hg := gather2_length (dummyOf hasDummyByte) _ subs hlen
    rw [chunks_sum hL.rchunk] at hg
    rcases hres with ⟨rfl, -⟩ | ⟨-, hlt, -⟩ | ⟨-, hlt, -⟩
    · refine ⟨out, s1, subs, hrun, hran.1, hlen, htr, ?_, ?_⟩
      · rw [hout, hg, List.take_append_of_le_length (by rw [hg]),
          List.take_of_length_le (by rw [hg])]
      · rw [hout, hg, List.drop_append_of_le_length (by rw [hg]),
          List.drop_of_length_le (by rw [hg]), List.nil_append]
    · omega
    · omega

theorem C6_dummy_byte_witness :
    ∃ out s1 subs,
      fts_writeReadU8UX smallConsts okBus 0xA6 2 0x0040 [9, 9, 9, 9, 9, 9] 6 1
        (boundState smallConsts) = some (smallConsts.OK, out, s1) ∧
      SubsFrom okBus smallConsts.I2C_RETRY (boundState smallConsts).xfers subs ∧
      subs.length = (chunks smallConsts.READ_CHUNK 6 0x0040).length ∧
      s1.trace = (boundState smallConsts).trace ++ runEvents smallConsts
        ((chunks smallConsts.READ_CHUNK 6 0x0040).map (readMsg 0xA6 2 (dummyOf 1))) subs ∧
      out.take 6 = gather (dummyOf 1) (chunks smallConsts.READ_CHUNK 6 0x0040) subs ∧
      out.drop 6 = [9, 9, 9, 9, 9, 9].drop 6 :=
  (C6_dummy_byte smallConsts okBus smallConsts_codes smallConsts_limits
    (boundState smallConsts) (boundState_bound smallConsts) 0x0040 (by decide)
    [9, 9, 9, 9, 9, 9] 6 (by decide) 1).2.2.2.2.2.1 0xA6 2 (by decide)
    (AllSucceed.of_never_fail (by decide) (fun _ => le_refl _) _ _)

/-! ## One chunk against one raw call -/

theorem FirstOk.same_index {E : Env} {base j j' : Nat} (h : FirstOk E base j)
    (h' : FirstOk E base j') : j = j' := by
  rcases Nat.lt_trichotomy j j' with hlt | heq | hgt
  · have := h'.1 j hlt
    have := h.2
    omega
  · exact heq
  · have := h.1 j' hgt
    have := h'.2
    omega

theorem AllFail.not_firstOk {E : Env} {base n j : Nat} (h : AllFail E base n) (hj : j < n)
    (h' : FirstOk E base j) : False := by
  have := h j hj
  have := h'.2
  omega

/-- The result and the events of a retried message are determined by the bus. -/
theorem Retried.determined {K : Consts} {E : Env} {segs : List (List Nat)} {rx : Option Nat}
    {err : Int} {s s' s1 s1' : State} {r r' : Int} (h : Retried K E segs rx err s r s1)
    (h' : Retried K E segs rx err s' r' s1') (hx : s.xfers = s'.xfers)
    (ht : s.trace = s'.trace) : r = r' ∧ s1.trace = s1'.trace ∧ s1.xfers = s1'.xfers := by
  rcases h with ⟨j, hj, hok, rfl, h1, h2⟩ | ⟨hall, rfl, h1, h2⟩ <;>
    rcases h' with ⟨j', hj', hok', rfl, h1', h2'⟩ | ⟨hall', rfl, h1', h2'⟩
  · rw [← hx] at hok'
    obtain rfl := hok.same_index hok'
    exact ⟨rfl, by rw [h2, h2', ht], by rw [h1, h1', hx]⟩
  · rw [← hx] at hall'
    exact (hall'.not_firstOk hj hok).elim
  · rw [← hx] at hok'
    exact (hall.not_firstOk hj' hok').elim
  · exact ⟨rfl, by rw [h2, h2', ht], by rw [h1, h1', hx]⟩

theorem RetriedRead.retried {K : Consts} {E : Env} {segs : List (List Nat)} {n : Nat}
    {err : Int} {dma_safe : Bool} {outBuf out : List Nat} {s s1 : State} {r : Int}
    (h : RetriedRead K E segs n err dma_safe outBuf s r out s1) :
    Retried K E segs (some n) err s r s1 := by
  rcases h with ⟨j, hj, hok, hr, -, h1, h2⟩ | ⟨hall, hr, -, -, h1, h2⟩
  · exact Or.inl ⟨j, hj, hok, hr, h1, h2⟩
  · exact Or.inr ⟨hall, hr, h1, h2⟩

/-- A run of a single message is one retried message. -/
theorem Ran.single {K : Consts} {E : Env} {m : Msg} {subs : List Sub} {s s1 : State} {r : Int}
    (err : Int) (h : Ran K E [m] subs s s1)
    (hr : r = K.OK ∧ subs.length = 1 ∨ r = err ∧ subs.length < 1) :
    Retried K E m.segs m.rx err s r s1 := by
  obtain ⟨h1, h2, h3, h4, h5, -⟩ := h
  rcases hr with ⟨rfl, hl⟩ | ⟨rfl, hl⟩
  · match subs, hl with
    | [sub], _ =>
      obtain ⟨hj, hok, -, -⟩ := h1
      refine Or.inl ⟨sub.fails, hj, hok, rfl, ?_, ?_⟩
      · simpa [spent] using h4
      · simpa [runEvents, failEvents] using h5
  · have : subs = [] := List.length_eq_zero.mp (by omega)
    subst this
    refine Or.inr ⟨by simpa [spent] using h3 (by simp), rfl, ?_, ?_⟩
    · simpa [spent] using h4
    · simpa [runEvents, failEvents] using h5

theorem chunks_single {C L : Nat} (addr : Nat) (hpos : 0 < L) (hle : L ≤ C)
    (ha : addr < 2 ^ 64) : chunks C L addr = [⟨L, addr, 0⟩] := by
  have hn : nChunks C L = 1 := by
    unfold nChunks
    have hC : 0 < C := by omega
    apply Nat.div_eq_of_lt_le <;> omega
  rw [chunks, hn]
  simp [List.range_succ, chunkAt, Nat.min_eq_right hle]
  exact ha

/-- C7 (as amended): on a bound bus, for `0 < L ≤ C` (also `L = C`) and an address width of
at most 8 bytes (the two widths together for the dual operations) a chunked operation has
exactly one chunk, of size `L` at the start address.  `fts_writeU8UX` then behaves as the
single call `fts_write_heap(header ++ data[0..L), 1 + w + L)`: the same result, the same
transfer attempts and events, for every behaviour of the bus.  `fts_writeReadU8UX` behaves as
the single call `fts_writeRead_heap(header, 1 + w, buff, L + d)` with `d = 1` in dummy mode
and 0 otherwise: the same result, attempts and events, and on success the destination
receives the bytes `d .. d + L` of what that call read.  The dual operations send the two
transfers of that one chunk and nothing else: the write of `header1`, then the write of
`header2` and the `L` data bytes, or the write of `header2` with the read of `L + d` bytes. -/
theorem C7_single_chunk (K : Consts) (E : Env) (hK : K.Codes) (hL : K.Limits) (s : State)
    (hb : Bound K s) (addr : Nat) (ha : addr < 2 ^ 64) (L : Nat) (hpos : 0 < L) :
    (∀ C, L ≤ C → chunks C L addr = [⟨L, addr, 0⟩]) ∧
    (∀ cmd w data, w ≤ 8 → L ≤ K.WRITE_CHUNK → L ≤ data.length →
      ∃ r s1 s2,
        fts_write_heap K E (header cmd w addr ++ data.take L) (1 + w + L) s = some (r, s1) ∧
        fts_writeU8UX K E cmd w addr data L s = some (r, s2) ∧
        s2.trace = s1.trace ∧ s2.xfers = s1.xfers ∧
        Retried K E [header cmd w addr ++ data.take L] none K.ERROR_BUS_W s r s1) ∧
    (∀ cmd w outBuf hasDummyByte buff, w ≤ 8 → L ≤ K.READ_CHUNK →
      L ≤ outBuf.length → L + dummyOf hasDummyByte ≤ buff.length →
      ∃ r b out s1 s2,
        fts_writeRead_heap K E (header cmd w addr) (1 + w) buff (L + dummyOf hasDummyByte) s =
          some (r, b, s1) ∧
        fts_writeReadU8UX K E cmd w addr outBuf L hasDummyByte s = some (r, out, s2) ∧
        s2.trace = s1.trace ∧ s2.xfers = s1.xfers ∧
        Retried K E [header cmd w addr] (some (L + dummyOf hasDummyByte)) K.ERROR_BUS_WR s r s1 ∧
        (r = K.OK → out = (b.drop (dummyOf hasDummyByte)).take L ++ outBuf.drop L) ∧
        (r ≠ K.OK → out = outBuf)) ∧
    (∀ cmd1 w1 cmd2 w2 data, w1 + w2 ≤ 8 → L ≤ K.WRITE_CHUNK → L ≤ data.length →
      ∃ r s1 subs,
        fts_writeU8UXthenWriteU8UX K E cmd1 w1 cmd2 w2 addr data L s = some (r, s1) ∧
        Ran K E [⟨[header1 cmd1 w1 w2 addr], none⟩,
          ⟨[header2 cmd2 w1 w2 addr ++ data.take L], none⟩] subs s s1) ∧
    (∀ cmd1 w1 cmd2 w2 outBuf hasDummyByte, w1 + w2 ≤ 8 → L ≤ K.READ_CHUNK →
      L ≤ outBuf.length →
      ∃ r out s1 subs,
        fts_writeU8UXthenWriteReadU8UX K E cmd1 w1 cmd2 w2 addr outBuf L hasDummyByte s =
          some (r, out, s1) ∧
        Ran K E [⟨[header1 cmd1 w1 w2 addr], none⟩,
          ⟨[header2 cmd2 w1 w2 addr], some (L + dummyOf hasDummyByte)⟩] subs s s1) := by
  refine ⟨fun C hC => chunks_single addr hpos hC ha, ?_, ?_, ?_, ?_⟩
  · intro cmd w data hw hle hd
    obtain ⟨r2, s2, subs, hrun, -, hran, hres⟩ :=
      fts_writeU8UX_spec K E hK hL cmd w hw addr ha data L hd s hb
    rw [chunks_single addr hpos hle ha] at hran hres
    have hret2 := hran.single K.ERROR_BUS_W (by simpa using hres)
    have hlen : 1 + w + L ≤ (header cmd w addr ++ data.take L).length := by
      simp [header_length, hd]; omega
    have htake : (header cmd w addr ++ data.take L).take (1 + w + L) =
        header cmd w addr ++ data.take L :=
      List.take_of_length_le (by simp [header_length, hd]; omega)
    obtain ⟨r1, s1, hrun1, hret1, -, -⟩ := fts_write_internal_spec K E hK.ok true hb
      (by simp) hlen
    rw [htake] at hret1
    have hret2' : Retried K E [header cmd w addr ++ data.take L] none K.ERROR_BUS_W s r2 s2 := by
      simpa [writeMsg] using hret2
    obtain ⟨e1, e2, e3⟩ := hret2'.determined hret1 rfl rfl
    subst e1
    exact ⟨r2, s1, s2, hrun1, hrun, e2, e3, hret1⟩
  · intro cmd w outBuf hasDummyByte buff hw hle ho hbuff
    obtain ⟨r2, out, s2, subs, hrun, -, hran, hout, hres⟩ :=
      fts_writeReadU8UX_spec K E hK hL cmd w (by have := hL.wbuf; omega) addr ha outBuf L
        hasDummyByte ho s hb
    rw [chunks_single addr hpos hle ha] at hran hres hout
    have hret2 := hran.single K.ERROR_BUS_WR (by simpa using hres)
    have hlen : 1 + w ≤ (header cmd w addr).length := by rw [header_length]; omega
    have htake : (header cmd w addr).take (1 + w) = header cmd w addr :=
      List.take_of_length_le (by rw [header_length]; omega)
    obtain ⟨r1, b, s1, hrun1, hrr1, -, -⟩ := fts_writeRead_internal_spec K E hK.ok true hb
      (by simp) hlen hbuff
    rw [htake] at hrr1
    have hret2' : Retried K E [header cmd w addr] (some (L + dummyOf hasDummyByte))
        K.ERROR_BUS_WR s r2 s2 := by
      simpa [readMsg] using hret2
    obtain ⟨e1, e2, e3⟩ := hret2'.determined hrr1.retried rfl rfl
    subst e1
    refine ⟨r2, b, out, s1, s2, hrun1, hrun, e2, e3, hrr1.retried, ?_, ?_⟩
    · intro hok
      rcases hrr1 with ⟨j, hj, hfo, -, hb1, -, -⟩ | ⟨-, herr, -⟩
      · obtain ⟨h1, -, -, -, -, -⟩ := hran
        rcases hres with ⟨-, hl⟩ | ⟨herr, -⟩
        · match subs, hl, h1 with
          | [sub], _, ⟨_, hfo', ho', _⟩ =>
            obtain rfl := hfo.same_index hfo'
            rw [hout, hb1]
            simp only [gather, ho', List.append_nil]
            have hdl : ((delivered (E.bus (s.xfers + sub.fails))
                (L + dummyOf hasDummyByte)).drop (dummyOf hasDummyByte)).length = L := by
              simp [delivered_length]
            rw [hdl, List.drop_append_of_le_length (by rw [delivered_length]; omega),
              List.take_append_of_le_length (by rw [hdl]), List.take_of_length_le (by rw [hdl])]
        · have := hK.bus_wr
          have := hK.ok
          omega
      · have := hK.bus_wr
        have := hK.ok
        omega
    · intro hne
      rcases hres with ⟨h, -⟩ | ⟨-, hl⟩
      · exact (hne h).elim
      · have : subs = [] := List.length_eq_zero.mp (by simpa using hl)
        subst this
        rw [hout]
        simp [gather]
  · intro cmd1 w1 cmd2 w2 data hw hle hd
    obtain ⟨r, s1, subs, hrun, -, hran, -⟩ :=
      fts_writeU8UXthenWriteU8UX_spec K E hK hL cmd1 w1 cmd2 w2 (by have := hL.wbuf; omega)
        (by omega) addr ha data L hd s hb
    rw [chunks_single addr hpos hle ha] at hran
    exact ⟨r, s1, subs, hrun, by simpa [dualWriteMsgs] using hran⟩
  · intro cmd1 w1 cmd2 w2 outBuf hasDummyByte hw hle ho
    obtain ⟨r, out, s1, subs, hrun, -, hran, -, -⟩ :=
      fts_writeU8UXthenWriteReadU8UX_spec K E hK hL cmd1 w1 cmd2 w2
        (by have := hL.wbuf; omega) (by have := hL.xbuf; omega) addr ha outBuf L
        hasDummyByte ho s hb
    rw [chunks_single addr hpos hle ha] at hran
    exact ⟨r, out, s1, subs, hrun, by simpa [dualReadMsgs] using hran⟩

set_option maxRecDepth 100000 in
/-- C7 as stated fails.  With an address width of 9, `fts_writeU8UX` returns `OK` without
any transfer, while a single raw write of the 13 bytes makes one.  With no client bound,
`fts_writeU8UX` stores into the scratch array of the `NULL` driver data and has no defined
result, while the single raw write returns `ERROR_BUS_O`. -/
theorem C7_counterexample :
    fts_writeU8UX sampleConsts okBus 0x10 9 0x10203 [1, 2, 3] 3 (boundState sampleConsts) =
      some (0, boundState sampleConsts) ∧
    (fts_write_heap sampleConsts okBus [0x10, 0, 0, 0, 0, 0, 0, 1, 2, 3, 1, 2, 3] (1 + 9 + 3)
      (boundState sampleConsts)).map (fun r => (r.1, r.2.trace)) =
      some (0, [Event.xfer [[0x10, 0, 0, 0, 0, 0, 0, 1, 2, 3, 1, 2, 3]] none]) ∧
    fts_writeU8UX sampleConsts okBus 0x10 2 0x10203 [1, 2, 3] 3 unboundState = none ∧
    fts_write_heap sampleConsts okBus (header 0x10 2 0x10203 ++ [1, 2, 3]) (1 + 2 + 3)
      unboundState = some (sampleConsts.ERROR_BUS_O, unboundState) := by
  refine ⟨by decide, by decide, by decide, by decide⟩

theorem C7_single_chunk_witness :
    ∃ r s1 s2,
      fts_write_heap sampleConsts deadBus (header 0x10 2 0x10203 ++ [1, 2, 3].take 3)
        (1 + 2 + 3) (boundState sampleConsts) = some (r, s1) ∧
      fts_writeU8UX sampleConsts deadBus 0x10 2 0x10203 [1, 2, 3] 3 (boundState sampleConsts) =
        some (r, s2) ∧
      s2.trace = s1.trace ∧ s2.xfers = s1.xfers ∧
      Retried sampleConsts deadBus [header 0x10 2 0x10203 ++ [1, 2, 3].take 3] none
        sampleConsts.ERROR_BUS_W (boundState sampleConsts) r s1 :=
  (C7_single_chunk sampleConsts deadBus sampleConsts_codes sampleConsts_limits
    (boundState sampleConsts) (boundState_bound sampleConsts) 0x10203 (by decide) 3
    (by decide)).2.1 0x10 2 [1, 2, 3] (by decide) (by decide) (by decide)

/-! ## Retry budget and error kinds of the raw operations -/

theorem Retried.ok_iff {K : Consts} {E : Env} {segs : List (List Nat)} {rx : Option Nat}
    {err : Int} {s s1 : State} {r : Int} (h : Retried K E segs rx err s r s1)
    (hK : K.OK = 0) (herr : err < 0) :
    (r = K.OK ↔ ∃ i, i < K.I2C_RETRY ∧ 0 ≤ (E.bus (s.xfers + i)).ret) := by
  rcases h with ⟨j, hj, hok, rfl, -, -⟩ | ⟨hall, rfl, -, -⟩
  · exact ⟨fun _ => ⟨j, hj, hok.2⟩, fun _ => rfl⟩
  · constructor
    · intro h; omega
    · rintro ⟨i, hi, hok⟩
      have := hall i hi
      omega

theorem Retried.err_of_allFail {K : Consts} {E : Env} {segs : List (List Nat)}
    {rx : Option Nat} {err : Int} {s s1 : State} {r : Int}
    (h : Retried K E segs rx err s r s1) (hall : AllFail E s.xfers K.I2C_RETRY) : r = err := by
  rcases h with ⟨j, hj, hok, -, -, -⟩ | ⟨-, hr, -, -⟩
  · exact (hall.not_firstOk hj hok).elim
  · exact hr

/-- C8: on a bound bus, for arguments that pass the size check and stay inside the
caller's buffers, and for every sequence of transport outcomes, each raw operation returns
and its run is `Retried` / `RetriedRead`: either the first success is attempt `j` of the
first `I2C_RETRY`, the result is `OK`, `j + 1` transfers were attempted and the events are
`j` times a transfer followed by one delay, then one transfer and nothing after it; or all
`I2C_RETRY` attempts fail, the result is the error of the operation, and the events are
`I2C_RETRY` times a transfer followed by one delay.  Hence the result is `OK` exactly when
one of the first `I2C_RETRY` attempts succeeds. -/
theorem C8_retry_budget (K : Consts) (E : Env) (hK : K.Codes) (s : State) (hb : Bound K s) :
    (∀ outBuf n, n ≤ K.sizeof_io_read_buf → n ≤ outBuf.length →
      ∃ r out s1, fts_read K E outBuf n s = some (r, out, s1) ∧
        RetriedRead K E [] n K.ERROR_BUS_R false outBuf s r out s1 ∧
        (r = K.OK ↔ ∃ i, i < K.I2C_RETRY ∧ 0 ≤ (E.bus (s.xfers + i)).ret)) ∧
    (∀ outBuf n, n ≤ outBuf.length →
      ∃ r out s1, fts_read_heap K E outBuf n s = some (r, out, s1) ∧
        RetriedRead K E [] n K.ERROR_BUS_R true outBuf s r out s1 ∧
        (r = K.OK ↔ ∃ i, i < K.I2C_RETRY ∧ 0 ≤ (E.bus (s.xfers + i)).ret)) ∧
    (∀ cmd n, n ≤ K.sizeof_io_write_buf → n ≤ cmd.length →
      ∃ r s1, fts_write K E cmd n s = some (r, s1) ∧
        Retried K E [cmd.take n] none K.ERROR_BUS_W s r s1 ∧
        (r = K.OK ↔ ∃ i, i < K.I2C_RETRY ∧ 0 ≤ (E.bus (s.xfers + i)).ret)) ∧
    (∀ cmd n, n ≤ cmd.length →
      ∃ r s1, fts_write_heap K E cmd n s = some (r, s1) ∧
        Retried K E [cmd.take n] none K.ERROR_BUS_W s r s1 ∧
        (r = K.OK ↔ ∃ i, i < K.I2C_RETRY ∧ 0 ≤ (E.bus (s.xfers + i)).ret)) ∧
    (∀ cmd n outBuf m, n ≤ K.sizeof_io_write_buf → m ≤ K.sizeof_io_read_buf →
      n ≤ cmd.length → m ≤ outBuf.length →
      ∃ r out s1, fts_writeRead K E cmd n outBuf m s = some (r, out, s1) ∧
        RetriedRead K E [cmd.take n] m K.ERROR_BUS_WR false outBuf s r out s1 ∧
        (r = K.OK ↔ ∃ i, i < K.I2C_RETRY ∧ 0 ≤ (E.bus (s.xfers + i)).ret)) ∧
    (∀ cmd n outBuf m, n ≤ cmd.length → m ≤ outBuf.length →
      ∃ r out s1, fts_writeRead_heap K E cmd n outBuf m s = some (r, out, s1) ∧
        RetriedRead K E [cmd.take n] m K.ERROR_BUS_WR true outBuf s r out s1 ∧
        (r = K.OK ↔ ∃ i, i < K.I2C_RETRY ∧ 0 ≤ (E.bus (s.xfers + i)).ret)) ∧
    (∀ w n c k outBuf m, n ≤ K.sizeof_io_write_buf → k ≤ K.sizeof_io_extra_write_buf →
      m ≤ K.sizeof_io_read_buf → n ≤ w.length → k ≤ c.length → m ≤ outBuf.length →
      ∃ r out s1, fts_writeThenWriteRead K E w n c k outBuf m s = some (r, out, s1) ∧
        RetriedRead K E [w.take n, c.take k] m K.ERROR_BUS_WR false outBuf s r out s1 ∧
        (r = K.OK ↔ ∃ i, i < K.I2C_RETRY ∧ 0 ≤ (E.bus (s.xfers + i)).ret)) ∧
    (∀ w n c k outBuf m, n ≤ w.length → k ≤ c.length → m ≤ outBuf.length →
      ∃ r out s1, fts_writeThenWriteRead_heap K E w n c k outBuf m s = some (r, out, s1) ∧
        RetriedRead K E [w.take n, c.take k] m K.ERROR_BUS_WR true outBuf s r out s1 ∧
        (r = K.OK ↔ ∃ i, i < K.I2C_RETRY ∧ 0 ≤ (E.bus (s.xfers + i)).ret)) := by
  refine ⟨?_, ?_, ?_, ?_, ?_, ?_, ?_, ?_⟩
  · intro outBuf n hn ho
    obtain ⟨r, out, s1, h1, h2, -, -⟩ :=
      fts_read_internal_spec K E hK.ok false hb (fun _ => hn) ho
    exact ⟨r, out, s1, h1, h2, h2.retried.ok_iff hK.ok hK.bus_r⟩
  · intro outBuf n ho
    obtain ⟨r, out, s1, h1, h2, -, -⟩ :=
      fts_read_internal_spec K E hK.ok true hb (by simp) ho
    exact ⟨r, out, s1, h1, h2, h2.retried.ok_iff hK.ok hK.bus_r⟩
  · intro cmd n hn hc
    obtain ⟨r, s1, h1, h2, -, -⟩ := fts_write_internal_spec K E hK.ok false hb (fun _ => hn) hc
    exact ⟨r, s1, h1, h2, h2.ok_iff hK.ok hK.bus_w⟩
  · intro cmd n hc
    obtain ⟨r, s1, h1, h2, -, -⟩ := fts_write_internal_spec K E hK.ok true hb (by simp) hc
    exact ⟨r, s1, h1, h2, h2.ok_iff hK.ok hK.bus_w⟩
  · intro cmd n outBuf m hn hm hc ho
    obtain ⟨r, out, s1, h1, h2, -, -⟩ :=
      fts_writeRead_internal_spec K E hK.ok false hb (fun _ => ⟨hn, hm⟩) hc ho
    exact ⟨r, out, s1, h1, h2, h2.retried.ok_iff hK.ok hK.bus_wr⟩
  · intro cmd n outBuf m hc ho
    obtain ⟨r, out, s1, h1, h2, -, -⟩ :=
      fts_writeRead_internal_spec K E hK.ok true hb (by simp) hc ho
    exact ⟨r, out, s1, h1, h2, h2.retried.ok_iff hK.ok hK.bus_wr⟩
  · intro w n c k outBuf m hn hk hm hw hc ho
    obtain ⟨r, out, s1, h1, h2, -, -⟩ :=
      fts_writeThenWriteRead_internal_spec K E hK.ok false hb (fun _ => ⟨hn, hk, hm⟩) hw hc ho
    exact ⟨r, out, s1, h1, h2, h2.retried.ok_iff hK.ok hK.bus_wr⟩
  · intro w n c k outBuf m hw hc ho
    obtain ⟨r, out, s1, h1, h2, -, -⟩ :=
      fts_writeThenWriteRead_internal_spec K E hK.ok true hb (by simp) hw hc ho
    exact ⟨r, out, s1, h1, h2, h2.retried.ok_iff hK.ok hK.bus_wr⟩

theorem C8_retry_budget_witness :
    ∃ r s1, fts_write sampleConsts deadBus [0xA0, 0x01] 2 (boundState sampleConsts) =
        some (r, s1) ∧
      Retried sampleConsts deadBus [[0xA0, 0x01].take 2] none sampleConsts.ERROR_BUS_W
        (boundState sampleConsts) r s1 ∧
      (r = sampleConsts.OK ↔ ∃ i, i < sampleConsts.I2C_RETRY ∧
        0 ≤ (deadBus.bus ((boundState sampleConsts).xfers + i)).ret) :=
  (C8_retry_budget sampleConsts deadBus sampleConsts_codes (boundState sampleConsts)
    (boundState_bound sampleConsts)).2.2.1 [0xA0, 0x01] 2 (by decide) (by decide)

/-- C9: on a bound bus, when all `I2C_RETRY` attempts of a raw operation fail, whatever
negative values the transport returns, `fts_read` and `fts_read_heap` return `ERROR_BUS_R`,
`fts_write` and `fts_write_heap` return `ERROR_BUS_W`, and `fts_writeRead`,
`fts_writeRead_heap`, `fts_writeThenWriteRead` and `fts_writeThenWriteRead_heap` return
`ERROR_BUS_WR`. -/
theorem C9_error_kinds (K : Consts) (E : Env) (hK : K.Codes) (s : State) (hb : Bound K s)
    (hall : AllFail E s.xfers K.I2C_RETRY) :
    (∀ outBuf n, n ≤ K.sizeof_io_read_buf → n ≤ outBuf.length →
      (fts_read K E outBuf n s).map (·.1) = some K.ERROR_BUS_R) ∧
    (∀ outBuf n, n ≤ outBuf.length →
      (fts_read_heap K E outBuf n s).map (·.1) = some K.ERROR_BUS_R) ∧
    (∀ cmd n, n ≤ K.sizeof_io_write_buf → n ≤ cmd.length →
      (fts_write K E cmd n s).map (·.1) = some K.ERROR_BUS_W) ∧
    (∀ cmd n, n ≤ cmd.length →
      (fts_write_heap K E cmd n s).map (·.1) = some K.ERROR_BUS_W) ∧
    (∀ cmd n outBuf m, n ≤ K.sizeof_io_write_buf → m ≤ K.sizeof_io_read_buf →
      n ≤ cmd.length → m ≤ outBuf.length →
      (fts_writeRead K E cmd n outBuf m s).map (·.1) = some K.ERROR_BUS_WR) ∧
    (∀ cmd n outBuf m, n ≤ cmd.length → m ≤ outBuf.length →
      (fts_writeRead_heap K E cmd n outBuf m s).map (·.1) = some K.ERROR_BUS_WR) ∧
    (∀ w n c k outBuf m, n ≤ K.sizeof_io_write_buf → k ≤ K.sizeof_io_extra_write_buf →
      m ≤ K.sizeof_io_read_buf → n ≤ w.length → k ≤ c.length → m ≤ outBuf.length →
      (fts_writeThenWriteRead K E w n c k outBuf m s).map (·.1) = some K.ERROR_BUS_WR) ∧
    (∀ w n c k outBuf m, n ≤ w.length → k ≤ c.length → m ≤ outBuf.length →
      (fts_writeThenWriteRead_heap K E w n c k outBuf m s).map (·.1) =
        some K.ERROR_BUS_WR) := by
  refine ⟨?_, ?_, ?_, ?_, ?_, ?_, ?_, ?_⟩
  · intro outBuf n hn ho
    obtain ⟨r, out, s1, h1, h2, -, -⟩ :=
      fts_read_internal_spec K E hK.ok false hb (fun _ => hn) ho
    rw [fts_read, h1, h2.retried.err_of_allFail hall]; rfl
  · intro outBuf n ho
    obtain ⟨r, out, s1, h1, h2, -, -⟩ :=
      fts_read_internal_spec K E hK.ok true hb (by simp) ho
    rw [fts_read_heap, h1, h2.retried.err_of_allFail hall]; rfl
  · intro cmd n hn hc
    obtain ⟨r, s1, h1, h2, -, -⟩ := fts_write_internal_spec K E hK.ok false hb (fun _ => hn) hc
    rw [fts_write, h1, h2.err_of_allFail hall]; rfl
  · intro cmd n hc
    obtain ⟨r, s1, h1, h2, -, -⟩ := fts_write_internal_spec K E hK.ok true hb (by simp) hc
    rw [fts_write_heap, h1, h2.err_of_allFail hall]; rfl
  · intro cmd n outBuf m hn hm hc ho
    obtain ⟨r, out, s1, h1, h2, -, -⟩ :=
      fts_writeRead_internal_spec K E hK.ok false hb (fun _ => ⟨hn, hm⟩) hc ho
    rw [fts_writeRead, h1, h2.retried.err_of_allFail hall]; rfl
  · intro cmd n outBuf m hc ho
    obtain ⟨r, out, s1, h1, h2, -, -⟩ :=
      fts_writeRead_internal_spec K E hK.ok true hb (by simp) hc ho
    rw [fts_writeRead_heap, h1, h2.retried.err_of_allFail hall]; rfl
  · intro w n c k outBuf m hn hk hm hw hc ho
    obtain ⟨r, out, s1, h1, h2, -, -⟩ :=
      fts_writeThenWriteRead_internal_spec K E hK.ok false hb (fun _ => ⟨hn, hk, hm⟩) hw hc ho
    rw [fts_writeThenWriteRead, h1, h2.retried.err_of_allFail hall]; rfl
  · intro w n c k outBuf m hw hc ho
    obtain ⟨r, out, s1, h1, h2, -, -⟩ :=
      fts_writeThenWriteRead_internal_spec K E hK.ok true hb (by simp) hw hc ho
    rw [fts_writeThenWriteRead_heap, h1, h2.retried.err_of_allFail hall]; rfl

theorem C9_error_kinds_witness :
    (fts_read sampleConsts deadBus [0, 0, 0, 0] 4 (boundState sampleConsts)).map (·.1) =
      some sampleConsts.ERROR_BUS_R :=
  (C9_error_kinds sampleConsts deadBus sampleConsts_codes (boundState sampleConsts)
    (boundState_bound sampleConsts) (fun _ _ => (by decide : (-5 : Int) < 0))).1 [0, 0, 0, 0] 4 (by decide)
    (by decide)

/-! ## Calls without a bound client -/

/-- Without a bound client the driver data is `NULL`: the copy of a command into a scratch
array, which the non-heap writing functions make before they test `client`, has no defined
result. -/
theorem stageWrite_unbound (cmd : List Nat) (n : Nat) {s : State} (hs : s.client = none) :
    stageWrite cmd n s = none := by
  simp [stageWrite, getDrvInfo, hs]

theorem fts_write_unbound_within (K : Consts) (E : Env) (cmd : List Nat) (n : Nat) {s : State}
    (hs : s.client = none) (hn : n ≤ K.sizeof_io_write_buf) :
    fts_write K E cmd n s = none ∧ fts_writeFwCmd K E cmd n s = none := by
  have h : ¬ n > K.sizeof_io_write_buf := by omega
  simp [fts_write, fts_write_internal, fts_writeFwCmd, fts_writeFwCmd_internal, h,
    stageWrite_unbound cmd n hs]

/-- C10 (as amended): while no bus client is bound, every heap raw entry point, for all
arguments, and `fts_read` for a length within `io_read_buf`, returns `ERROR_BUS_O` and
leaves the state as it was: no transfer attempt, no delay, no echo check and no reset of the
error list.  A non-heap entry point called with a length beyond its scratch array returns
`ERROR_ALLOC` instead, the size check coming first, and leaves the state as it was too. -/
theorem C10_unbound (K : Consts) (E : Env) (s : State) (hs : s.client = none) :
    (∀ outBuf n, fts_read_heap K E outBuf n s = some (K.ERROR_BUS_O, outBuf, s)) ∧
    (∀ cmd n, fts_write_heap K E cmd n s = some (K.ERROR_BUS_O, s)) ∧
    (∀ cmd n outBuf m,
      fts_writeRead_heap K E cmd n outBuf m s = some (K.ERROR_BUS_O, outBuf, s)) ∧
    (∀ cmd n, fts_writeFwCmd_heap K E cmd n s = some (K.ERROR_BUS_O, s)) ∧
    (∀ w n c k outBuf m,
      fts_writeThenWriteRead_heap K E w n c k outBuf m s = some (K.ERROR_BUS_O, outBuf, s)) ∧
    (∀ outBuf n, n ≤ K.sizeof_io_read_buf →
      fts_read K E outBuf n s = some (K.ERROR_BUS_O, outBuf, s)) ∧
    (∀ outBuf n, K.sizeof_io_read_buf < n →
      fts_read K E outBuf n s = some (K.ERROR_ALLOC, outBuf, s)) ∧
    (∀ cmd n, K.sizeof_io_write_buf < n →
      fts_write K E cmd n s = some (K.ERROR_ALLOC, s)) ∧
    (∀ cmd n outBuf m, K.sizeof_io_write_buf < n ∨ K.sizeof_io_read_buf < m →
      fts_writeRead K E cmd n outBuf m s = some (K.ERROR_ALLOC, outBuf, s)) ∧
    (∀ cmd n, K.sizeof_io_write_buf < n →
      fts_writeFwCmd K E cmd n s = some (K.ERROR_ALLOC, s)) ∧
    (∀ w n c k outBuf m, K.sizeof_io_write_buf < n ∨ K.sizeof_io_extra_write_buf < k ∨
        K.sizeof_io_read_buf < m →
      fts_writeThenWriteRead K E w n c k outBuf m s = some (K.ERROR_ALLOC, outBuf, s)) := by
  refine ⟨?_, ?_, ?_, ?_, ?_, ?_, ?_, ?_, ?_, ?_, ?_⟩
  · intro outBuf n
    simp [fts_read_heap, fts_read_internal, hs]
  · intro cmd n
    simp [fts_write_heap, fts_write_internal, hs]
  · intro cmd n outBuf m
    simp [fts_writeRead_heap, fts_writeRead_internal, hs]
  · intro cmd n
    simp [fts_writeFwCmd_heap, fts_writeFwCmd_internal, hs]
  · intro w n c k outBuf m
    simp [fts_writeThenWriteRead_heap, fts_writeThenWriteRead_internal, hs]
  · intro outBuf n hn
    have h : ¬ n > K.sizeof_io_read_buf := by omega
    simp [fts_read, fts_read_internal, hs, h]
  · intro outBuf n hn
    simp [fts_read, fts_read_internal, hn]
  · intro cmd n hn
    simp [fts_write, fts_write_internal, hn]
  · intro cmd n outBuf m hn
    simp [fts_writeRead, fts_writeRead_internal, hn]
  · intro cmd n hn
    simp [fts_writeFwCmd, fts_writeFwCmd_internal, hn]
  · intro w n c k outBuf m hn
    simp [fts_writeThenWriteRead, fts_writeThenWriteRead_internal, hn]

/-- C10 as stated fails: with no client bound, `fts_read` for 2000 bytes, more than the
1025 bytes of `io_read_buf`, returns `ERROR_ALLOC`, which is not `ERROR_BUS_O`. -/
theorem C10_counterexample :
    fts_read sampleConsts okBus [] 2000 unboundState =
      some (sampleConsts.ERROR_ALLOC, [], unboundState) ∧
    sampleConsts.ERROR_ALLOC ≠ sampleConsts.ERROR_BUS_O := by
  refine ⟨by decide, by decide⟩

theorem C10_unbound_witness :
    fts_writeFwCmd_heap sampleConsts okBus [0xA0, 0x01] 2 unboundState =
      some (sampleConsts.ERROR_BUS_O, unboundState) :=
  (C10_unbound sampleConsts okBus unboundState rfl).2.2.2.1 [0xA0, 0x01] 2

/-! ## The loop of `fts_writeFwCmd_internal` -/

theorem writesOk_shift (E : Env) (base : Nat) :
    ∀ i, writesOk E base (i + 1) =
      (if 0 ≤ (E.bus base).ret then 1 else 0) + writesOk E (base + 1) i := by
  intro i
  induction i with
  | zero => simp [writesOk]
  | succ i ih =>
    rw [writesOk, ih, writesOk, Nat.add_assoc, Nat.add_assoc base 1 i, Nat.add_comm 1 i]

theorem echoAt_shift (E : Env) (base ebase i : Nat) :
    echoAt E (base + 1) (ebase + if 0 ≤ (E.bus base).ret then 1 else 0) i =
      echoAt E base ebase (i + 1) := by
  simp only [echoAt, writesOk_shift, Nat.add_assoc]

theorem goodAttempt_shift (E : Env) (base ebase i : Nat) :
    GoodAttempt E (base + 1) (ebase + if 0 ≤ (E.bus base).ret then 1 else 0) i ↔
      GoodAttempt E base ebase (i + 1) := by
  simp only [GoodAttempt, echoAt_shift, Nat.add_assoc, Nat.add_comm 1 i]

theorem fwAttempt_shift (K : Consts) (E : Env) (cmd : List Nat) (base ebase i : Nat) :
    fwAttempt K E cmd (base + 1) (ebase + if 0 ≤ (E.bus base).ret then 1 else 0) i =
      fwAttempt K E cmd base ebase (i + 1) := by
  simp only [fwAttempt, echoAt_shift, Nat.add_assoc, Nat.add_comm 1 i]

theorem fwEvents_shift (K : Consts) (E : Env) (cmd : List Nat) (base ebase n : Nat) :
    fwEvents K E cmd base ebase (n + 1) =
      fwAttempt K E cmd base ebase 0 ++
        fwEvents K E cmd (base + 1) (ebase + if 0 ≤ (E.bus base).ret then 1 else 0) n := by
  simp only [fwEvents, List.range_succ_eq_map, List.flatMap_cons, List.flatMap_map]
  congr 2
  funext a
  exact (fwAttempt_shift K E cmd base ebase a).symm

theorem writesOk_one (E : Env) (base : Nat) :
    writesOk E base 1 = if 0 ≤ (E.bus base).ret then 1 else 0 := by
  simp [writesOk]

theorem fwEvents_one (K : Consts) (E : Env) (cmd : List Nat) (base ebase : Nat) :
    fwEvents K E cmd base ebase 1 = fwAttempt K E cmd base ebase 0 := by
  simp [fwEvents, List.range_succ]

theorem State.afterFw_zero (s : State) (K : Consts) (E : Env) (cmd : List Nat) :
    s.afterFw K E cmd 0 = s := by
  cases s
  simp [State.afterFw, writesOk, fwEvents]

theorem State.afterFw_succ (s : State) (K : Consts) (E : Env) (cmd : List Nat) (n : Nat) :
    (s.afterFw K E cmd 1).afterFw K E cmd n = s.afterFw K E cmd (n + 1) := by
  simp only [State.afterFw, writesOk_one, writesOk_shift, fwEvents_shift K E cmd s.xfers s.echos n,
    fwEvents_shift K E cmd s.xfers s.echos 0, Nat.add_assoc, List.append_assoc]
  simp [fwEvents, writesOk, Nat.add_comm 1 n]

theorem fwCmdLoop_done (K : Consts) (E : Env) (cmd : List Nat) (L n : Nat) {ret ret2 : Int}
    (s : State) (h : ¬ (ret < K.OK ∨ ret2 < K.OK)) :
    fwCmdLoop K E cmd L n ret ret2 s = some (ret, ret2, s) := by
  cases n <;> simp [fwCmdLoop, h]

/-- One attempt of the loop of a firmware command. -/
theorem fwCmdLoop_step (K : Consts) (E : Env) (hK : K.OK = 0) {cmd : List Nat} {L : Nat}
    (hl : loadAll [(cmd, L)] = some [cmd.take L]) (n : Nat) {ret ret2 : Int} (s : State)
    (h : ret < 0 ∨ ret2 < 0) :
    fwCmdLoop K E cmd L (n + 1) ret ret2 s =
      fwCmdLoop K E cmd L n (E.bus s.xfers).ret
        (if 0 ≤ (E.bus s.xfers).ret then E.echo s.echos else ret2)
        (s.afterFw K E (cmd.take L) 1) := by
  have hf : RxFits none ([] : List Nat) := fun n h => by cases h
  rw [fwCmdLoop, hK, if_pos h, spi_sync_eq E s hl hf]
  simp only [ge_iff_le]
  by_cases hw : 0 ≤ (E.bus s.xfers).ret
  · by_cases he : 0 ≤ E.echo s.echos
    · have h1 : ¬ ((E.bus s.xfers).ret < 0 ∨ E.echo s.echos < 0) := by omega
      simp [hw, he, h1, checkEcho, State.after, State.afterFw, writesOk, fwEvents_one, fwAttempt,
        echoAt]
    · have h1 : (E.bus s.xfers).ret < 0 ∨ E.echo s.echos < 0 := by omega
      simp [hw, he, h1, checkEcho, State.after, State.afterFw, writesOk, fwEvents_one, fwAttempt,
        echoAt, Fts.mdelay]
  · have h1 : (E.bus s.xfers).ret < 0 := by omega
    simp [hw, h1, State.after, State.afterFw, writesOk, fwEvents_one, fwAttempt, Fts.mdelay]

/-- The loop of a firmware command whose attempt `j` is the first in which the raw write and
the echo check both succeed: it makes `j + 1` attempts. -/
theorem fwCmdLoop_good (K : Consts) (E : Env) (hK : K.OK = 0) {cmd : List Nat} {L : Nat}
    (hl : loadAll [(cmd, L)] = some [cmd.take L]) :
    ∀ (j n : Nat) (ret ret2 : Int) (s : State), j < n → ret < 0 ∨ ret2 < 0 →
      (∀ i, i < j → ¬ GoodAttempt E s.xfers s.echos i) → GoodAttempt E s.xfers s.echos j →
      fwCmdLoop K E cmd L n ret ret2 s =
        some ((E.bus (s.xfers + j)).ret, echoAt E s.xfers s.echos j,
          s.afterFw K E (cmd.take L) (j + 1)) := by
  intro j
  induction j with
  | zero =>
    intro n ret ret2 s hj h _ hg
    obtain ⟨m, rfl⟩ : ∃ m, n = m + 1 := ⟨n - 1, by omega⟩
    have hw : 0 ≤ (E.bus s.xfers).ret := by simpa using hg.1
    have he : 0 ≤ E.echo s.echos := by simpa [echoAt, writesOk] using hg.2
    rw [fwCmdLoop_step K E hK hl m s h, if_pos hw, fwCmdLoop_done]
    · simp [echoAt, writesOk]
    · rw [hK]; omega
  | succ j ih =>
    intro n ret ret2 s hj h hbad hg
    obtain ⟨m, rfl⟩ : ∃ m, n = m + 1 := ⟨n - 1, by omega⟩
    have h0 : ¬ GoodAttempt E s.xfers s.echos 0 := hbad 0 (by omega)
    have hc : (E.bus s.xfers).ret < 0 ∨
        (if 0 ≤ (E.bus s.xfers).ret then E.echo s.echos else ret2) < 0 := by
      by_cases hw : 0 ≤ (E.bus s.xfers).ret
      · right
        rw [if_pos hw]
        have : ¬ 0 ≤ E.echo s.echos := fun he =>
          h0 ⟨by simpa using hw, by simpa [echoAt, writesOk] using he⟩
        omega
      · left; omega
    rw [fwCmdLoop_step K E hK hl m s h]
    have hx : (s.afterFw K E (cmd.take L) 1).xfers = s.xfers + 1 := rfl
    have he : (s.afterFw K E (cmd.take L) 1).echos =
        s.echos + if 0 ≤ (E.bus s.xfers).ret then 1 else 0 := by
      simp [State.afterFw, writesOk]
    rw [ih m _ _ (s.afterFw K E (cmd.take L) 1) (by omega) hc, State.afterFw_succ, hx, he,
      echoAt_shift, Nat.add_assoc, Nat.add_comm 1 j]
    · intro i hi
      rw [hx, he, goodAttempt_shift]
      exact hbad (i + 1) (by omega)
    · rw [hx, he, goodAttempt_shift]
      exact hg

/-- The loop of a firmware command none of whose `n` attempts has both the raw write and the
echo check succeed: it makes the `n` attempts, and ends with the result of the last raw write
and, when that write succeeded, of the echo check of the last attempt. -/
theorem fwCmdLoop_bad (K : Consts) (E : Env) (hK : K.OK = 0) {cmd : List Nat} {L : Nat}
    (hl : loadAll [(cmd, L)] = some [cmd.take L]) :
    ∀ (n : Nat) (ret ret2 : Int) (s : State), ret < 0 ∨ ret2 < 0 →
      (∀ i, i < n → ¬ GoodAttempt E s.xfers s.echos i) →
      ∃ rF r2F,
        fwCmdLoop K E cmd L n ret ret2 s = some (rF, r2F, s.afterFw K E (cmd.take L) n) ∧
        (rF < 0 ∨ r2F < 0) ∧ (n = 0 → rF = ret) ∧
        (∀ m, n = m + 1 → rF = (E.bus (s.xfers + m)).ret ∧
          (0 ≤ rF → r2F = echoAt E s.xfers s.echos m)) := by
  intro n
  induction n with
  | zero =>
    intro ret ret2 s h _
    exact ⟨ret, ret2, by rw [State.afterFw_zero]; rfl, h, fun _ => rfl, fun m hm => by omega⟩
  | succ n ih =>
    intro ret ret2 s h hbad
    have h0 : ¬ GoodAttempt E s.xfers s.echos 0 := hbad 0 (by omega)
    have hc : (E.bus s.xfers).ret < 0 ∨
        (if 0 ≤ (E.bus s.xfers).ret then E.echo s.echos else ret2) < 0 := by
      by_cases hw : 0 ≤ (E.bus s.xfers).ret
      · right
        rw [if_pos hw]
        have : ¬ 0 ≤ E.echo s.echos := fun he =>
          h0 ⟨by simpa using hw, by simpa [echoAt, writesOk] using he⟩
        omega
      · left; omega
    have hx : (s.afterFw K E (cmd.take L) 1).xfers = s.xfers + 1 := rfl
    have he : (s.afterFw K E (cmd.take L) 1).echos =
        s.echos + if 0 ≤ (E.bus s.xfers).ret then 1 else 0 := by
      simp [State.afterFw, writesOk]
    obtain ⟨rF, r2F, heq, hneg, hz, hlast⟩ := ih _ _ (s.afterFw K E (cmd.take L) 1) hc (by
      intro i hi
      rw [hx, he, goodAttempt_shift]
      exact hbad (i + 1) (by omega))
    refine ⟨rF, r2F, ?_, hneg, fun h => by omega, ?_⟩
    · rw [fwCmdLoop_step K E hK hl n s h, heq, State.afterFw_succ]
    · intro m hm
      have hm : n = m := by omega
      subst hm
      cases n with
      | zero =>
        have hr := hz rfl
        refine ⟨by simpa using hr, fun hpos => ?_⟩
        simp only [fwCmdLoop, Option.some.injEq, Prod.mk.injEq] at heq
        rw [← heq.2.1, if_pos (by rw [← hr]; simpa using hpos)]
        simp [echoAt, writesOk]
      | succ k =>
        obtain ⟨h1, h2⟩ := hlast k rfl
        rw [hx, he, echoAt_shift] at h2
        refine ⟨by rw [h1, hx, Nat.add_assoc, Nat.add_comm 1 k], h2⟩

/-- `fts_writeFwCmd_internal` on a bound bus, for a length that passes the size check: the
loop stops after the first attempt in which the raw write and the echo check both succeed, and
the result is `OK`; without such an attempt within the budget all attempts are made, and the
result is `ERROR_BUS_W` when the last raw write failed (or the budget is empty), and the code
of the echo check of the last attempt otherwise. -/
theorem fts_writeFwCmd_internal_spec (K : Consts) (E : Env) (hK : K.Codes) (dma_safe : Bool)
    {cmd : List Nat} {L : Nat} {s : State} (hb : Bound K s)
    (hsz : dma_safe = false → L ≤ K.sizeof_io_write_buf) (hn : L ≤ cmd.length) :
    ∃ r s1 m, fts_writeFwCmd_internal K E cmd L dma_safe s = some (r, s1) ∧ Bound K s1 ∧
      FwRan K E (cmd.take L) m s s1 ∧
      ((∃ j, j < K.I2C_RETRY ∧ m = j + 1 ∧
          (∀ i, i < j → ¬ GoodAttempt E s.xfers s.echos i) ∧
          GoodAttempt E s.xfers s.echos j ∧ r = K.OK) ∨
        ((∀ i, i < K.I2C_RETRY → ¬ GoodAttempt E s.xfers s.echos i) ∧ m = K.I2C_RETRY ∧
          ((∀ k, K.I2C_RETRY = k + 1 → (E.bus (s.xfers + k)).ret < 0) ∧ r = K.ERROR_BUS_W ∨
            ∃ k, K.I2C_RETRY = k + 1 ∧ 0 ≤ (E.bus (s.xfers + k)).ret ∧
              r = echoAt E s.xfers s.echos k ∧ r < 0))) := by
  obtain ⟨info, hc, h1, h2, h3⟩ := id hb
  -- the state in which the loop starts, and the bytes it sends
  obtain ⟨c, s0, hstage, hb0, hl', hct, hx, he, ht⟩ : ∃ c s0,
      (if dma_safe = false then stageWrite cmd L s else some (cmd, s)) = some (c, s0) ∧
      Bound K s0 ∧ loadAll [(c, L)] = some [c.take L] ∧ c.take L = cmd.take L ∧
      s0.xfers = s.xfers ∧ s0.echos = s.echos ∧ s0.trace = s.trace := by
    cases dma_safe with
    | true => exact ⟨cmd, s, by simp, hb, loadAll_one hn, rfl, rfl, rfl, rfl⟩
    | false =>
      have hcap : L ≤ info.io_write_buf.length := by rw [h1]; exact hsz rfl
      exact ⟨cmd.take L ++ info.io_write_buf.drop L,
        setWriteBuf s (cmd.take L ++ info.io_write_buf.drop L),
        by simp [stageWrite_eq hc hn hcap],
        hb.setWriteBuf (by rw [staged_length hn hcap, h1]),
        loadAll_one (by rw [staged_length hn hcap]; exact hcap), staged_take hn, rfl, rfl, rfl⟩
  have hsz' : ¬ (dma_safe = false ∧ L > K.sizeof_io_write_buf) := by
    rintro ⟨hd, hgt⟩
    have := hsz hd
    omega
  obtain ⟨info0, hc0, -⟩ := id hb0
  have hunf : fts_writeFwCmd_internal K E cmd L dma_safe s =
      match fwCmdLoop K E c L K.I2C_RETRY (-1) (-1) (resetErrorList s0) with
      | none => none
      | some (ret, ret2, s2) =>
        if ret < 0 then some (K.ERROR_BUS_W, s2)
        else if ret2 < K.OK then some (ret2, s2)
        else some (K.OK, s2) := by
    simp only [fts_writeFwCmd_internal, if_neg hsz', hstage, hc0]
  have hx0 : (resetErrorList s0).xfers = s.xfers := hx
  have he0 : (resetErrorList s0).echos = s.echos := he
  have hbR : ∀ m, Bound K ((resetErrorList s0).afterFw K E (c.take L) m) := fun m => hb0
  have hran : ∀ m, FwRan K E (cmd.take L) m s ((resetErrorList s0).afterFw K E (c.take L) m) := by
    intro m
    refine ⟨?_, ?_, ?_⟩
    · show s0.xfers + m = _
      rw [hx]
    · show s0.echos + writesOk E s0.xfers m = _
      rw [hx, he]
    · show (s0.trace ++ [Event.resetErrorList]) ++ fwEvents K E (c.take L) s0.xfers s0.echos m = _
      rw [hx, he, ht, hct]
      simp
  haveI : DecidablePred (fun i => GoodAttempt E s.xfers s.echos i) :=
    fun _ => Classical.propDecidable _
  rcases first_success_or_all_fail (fun i => GoodAttempt E s.xfers s.echos i) K.I2C_RETRY with
    ⟨j, hj, hbad, hg⟩ | hbad
  · have heq := fwCmdLoop_good K E hK.ok hl' j K.I2C_RETRY (-1) (-1) (resetErrorList s0) hj
      (Or.inl (by decide)) (by rw [hx0, he0]; exact hbad) (by rw [hx0, he0]; exact hg)
    refine ⟨K.OK, _, j + 1, ?_, hbR (j + 1), hran (j + 1),
      Or.inl ⟨j, hj, rfl, hbad, hg, rfl⟩⟩
    rw [hunf, heq]
    have hw : ¬ (E.bus ((resetErrorList s0).xfers + j)).ret < 0 := by
      rw [hx0]; have := hg.1; omega
    have he1 : ¬ echoAt E (resetErrorList s0).xfers (resetErrorList s0).echos j < K.OK := by
      rw [hx0, he0, hK.ok]; have := hg.2; omega
    simp only [if_neg hw, if_neg he1]
  · obtain ⟨rF, r2F, heq, hneg, hz, hlast⟩ :=
      fwCmdLoop_bad K E hK.ok hl' K.I2C_RETRY (-1) (-1) (resetErrorList s0)
        (Or.inl (by decide)) (by rw [hx0, he0]; exact hbad)
    rw [hx0, he0] at hlast
    by_cases hr : rF < 0
    · refine ⟨K.ERROR_BUS_W, _, K.I2C_RETRY, ?_, hbR _, hran _,
        Or.inr ⟨hbad, rfl, Or.inl ⟨fun k hk => ?_, rfl⟩⟩⟩
      · rw [hunf, heq]
        simp only [if_pos hr]
      · rw [← (hlast k hk).1]; exact hr
    · have hr2 : r2F < 0 := by omega
      obtain ⟨k, hk⟩ : ∃ k, K.I2C_RETRY = k + 1 := by
        cases hR : K.I2C_RETRY with
        | zero => exact absurd (by rw [hz hR]; decide) hr
        | succ k => exact ⟨k, rfl⟩
      obtain ⟨h1, h2⟩ := hlast k hk
      refine ⟨r2F, _, K.I2C_RETRY, ?_, hbR _, hran _,
        Or.inr ⟨hbad, rfl, Or.inr ⟨k, hk, by rw [← h1]; omega, h2 (by omega), hr2⟩⟩⟩
      rw [hunf, heq]
      have : r2F < K.OK := by rw [hK.ok]; exact hr2
      simp only [if_neg hr, if_pos this]

/-! ## The result codes of the chunked operations, and the chunked operations without a client -/

theorem writeU8UX_loop_codes (K : Consts) (E : Env) (cmd w : Nat) :
    ∀ (fuel rem addr : Nat) (data : List Nat) (s : State) (r : Int) (s1 : State),
      writeU8UX_loop K E cmd w fuel rem addr data s = some (r, s1) →
      r = K.OK ∨ r = K.ERROR_BUS_W := by
  intro fuel
  induction fuel with
  | zero =>
    intro rem addr data s r s1 h
    simp only [writeU8UX_loop] at h
    split at h
    · cases h
    · simp only [Option.some.injEq, Prod.mk.injEq] at h
      exact Or.inl h.1.symm
  | succ f ih =>
    intro rem addr data s r s1 h
    simp only [writeU8UX_loop] at h
    repeat' split at h
    all_goals first
      | exact ih _ _ _ _ _ _ h
      | (cases h <;> first | exact Or.inl rfl | exact Or.inr rfl)

theorem writeReadU8UX_loop_codes (K : Consts) (E : Env) (cmd w : Nat) (d : Int) :
    ∀ (fuel rem addr : Nat) (outBuf : List Nat) (off : Nat) (s : State) (r : Int)
      (out : List Nat) (s1 : State),
      writeReadU8UX_loop K E cmd w d fuel rem addr outBuf off s = some (r, out, s1) →
      r = K.OK ∨ r = K.ERROR_BUS_WR := by
  intro fuel
  induction fuel with
  | zero =>
    intro rem addr outBuf off s r out s1 h
    simp only [writeReadU8UX_loop] at h
    split at h
    · cases h
    · simp only [Option.some.injEq, Prod.mk.injEq] at h
      exact Or.inl h.1.symm
  | succ f ih =>
    intro rem addr outBuf off s r out s1 h
    simp only [writeReadU8UX_loop] at h
    repeat' split at h
    all_goals first
      | exact ih _ _ _ _ _ _ _ _ h
      | (cases h <;> first | exact Or.inl rfl | exact Or.inr rfl)

theorem writeU8UXthenWriteU8UX_loop_codes (K : Consts) (E : Env) (cmd1 w1 cmd2 w2 : Nat) :
    ∀ (fuel rem addr : Nat) (data : List Nat) (s : State) (r : Int) (s1 : State),
      writeU8UXthenWriteU8UX_loop K E cmd1 w1 cmd2 w2 fuel rem addr data s = some (r, s1) →
      r = K.OK ∨ r = K.ERROR_BUS_W := by
  intro fuel
  induction fuel with
  | zero =>
    intro rem addr data s r s1 h
    simp only [writeU8UXthenWriteU8UX_loop] at h
    split at h
    · cases h
    · simp only [Option.some.injEq, Prod.mk.injEq] at h
      exact Or.inl h.1.symm
  | succ f ih =>
    intro rem addr data s r s1 h
    simp only [writeU8UXthenWriteU8UX_loop] at h
    repeat' split at h
    all_goals first
      | exact ih _ _ _ _ _ _ h
      | (cases h <;> first | exact Or.inl rfl | exact Or.inr rfl)

theorem writeU8UXthenWriteReadU8UX_loop_codes (K : Consts) (E : Env) (cmd1 w1 cmd2 w2 : Nat)
    (d : Int) :
    ∀ (fuel rem addr : Nat) (outBuf : List Nat) (off : Nat) (s : State) (r : Int)
      (out : List Nat) (s1 : State),
      writeU8UXthenWriteReadU8UX_loop K E cmd1 w1 cmd2 w2 d fuel rem addr outBuf off s =
        some (r, out, s1) →
      r = K.OK ∨ r = K.ERROR_BUS_W ∨ r = K.ERROR_BUS_WR := by
  intro fuel
  induction fuel with
  | zero =>
    intro rem addr outBuf off s r out s1 h
    simp only [writeU8UXthenWriteReadU8UX_loop] at h
    split at h
    · cases h
    · simp only [Option.some.injEq, Prod.mk.injEq] at h
      exact Or.inl h.1.symm
  | succ f ih =>
    intro rem addr outBuf off s r out s1 h
    simp only [writeU8UXthenWriteReadU8UX_loop] at h
    repeat' split at h
    all_goals first
      | exact ih _ _ _ _ _ _ _ _ h
      | (cases h <;> first
          | exact Or.inl rfl
          | exact Or.inr (Or.inl rfl)
          | exact Or.inr (Or.inr rfl))

/-- Without a client the loop of a chunked operation has nothing to return unless no byte
remains: its first statement stores the op code through the driver data. -/
theorem writeU8UX_loop_unbound (K : Consts) (E : Env) (cmd w fuel rem addr : Nat)
    (data : List Nat) {s : State} (hs : s.client = none) :
    writeU8UX_loop K E cmd w fuel rem addr data s =
      if rem > 0 then none else some (K.OK, s) := by
  cases fuel <;> simp [writeU8UX_loop, getDrvInfo, hs]

theorem writeReadU8UX_loop_unbound (K : Consts) (E : Env) (cmd w : Nat) (d : Int)
    (fuel rem addr : Nat) (outBuf : List Nat) (off : Nat) {s : State} (hs : s.client = none) :
    writeReadU8UX_loop K E cmd w d fuel rem addr outBuf off s =
      if rem > 0 then none else some (K.OK, outBuf, s) := by
  cases fuel <;> simp [writeReadU8UX_loop, getDrvInfo, hs]

theorem writeU8UXthenWriteU8UX_loop_unbound (K : Consts) (E : Env) (cmd1 w1 cmd2 w2 : Nat)
    (fuel rem addr : Nat) (data : List Nat) {s : State} (hs : s.client = none) :
    writeU8UXthenWriteU8UX_loop K E cmd1 w1 cmd2 w2 fuel rem addr data s =
      if rem > 0 then none else some (K.OK, s) := by
  cases fuel <;> simp [writeU8UXthenWriteU8UX_loop, getDrvInfo, hs]

theorem writeU8UXthenWriteReadU8UX_loop_unbound (K : Consts) (E : Env) (cmd1 w1 cmd2 w2 : Nat)
    (d : Int) (fuel rem addr : Nat) (outBuf : List Nat) (off : Nat) {s : State}
    (hs : s.client = none) :
    writeU8UXthenWriteReadU8UX_loop K E cmd1 w1 cmd2 w2 d fuel rem addr outBuf off s =
      if rem > 0 then none else some (K.OK, outBuf, s) := by
  cases fuel <;> simp [writeU8UXthenWriteReadU8UX_loop, getDrvInfo, hs]

/-- C11 fails on the code: with no client bound and one byte to move, no chunked entry point
called with an address width it accepts returns `ERROR_BUS_O`.  Each has no result: its loop
stores the op code through the missing driver data before the first sub-transfer.  The raw
operation the loop would call next does return `ERROR_BUS_O` in that state, without a
transfer. -/
theorem C11_unbound_fault :
    fts_writeU8UX smallConsts okBus 0x10 2 0 [1] 1 unboundState = none ∧
    fts_writeReadU8UX smallConsts okBus 0x10 2 0 [0] 1 0 unboundState = none ∧
    fts_writeU8UXthenWriteU8UX smallConsts okBus 0x10 1 0x11 1 0 [1] 1 unboundState = none ∧
    fts_writeU8UXthenWriteReadU8UX smallConsts okBus 0x10 1 0x11 1 0 [0] 1 0 unboundState =
      none ∧
    fts_write_heap smallConsts okBus [0x10, 0, 0, 1] 4 unboundState =
      some (smallConsts.ERROR_BUS_O, unboundState) ∧
    fts_writeRead_heap smallConsts okBus [0x10, 0, 0] 3 [0] 1 unboundState =
      some (smallConsts.ERROR_BUS_O, [0], unboundState) := by
  refine ⟨by decide, by decide, by decide, by decide, by decide, by decide⟩

/-! ## The size check of the raw operations -/

theorem Retried.code {K : Consts} {E : Env} {segs : List (List Nat)} {rx : Option Nat}
    {err : Int} {s s1 : State} {r : Int} (h : Retried K E segs rx err s r s1) :
    r = K.OK ∨ r = err := by
  rcases h with ⟨_, _, _, h, _⟩ | ⟨_, h, _⟩
  · exact Or.inl h
  · exact Or.inr h

theorem Consts.Codes.alloc_ne_ok {K : Consts} (hK : K.Codes) : K.ERROR_ALLOC ≠ K.OK := by
  have h1 := hK.ok
  have h2 := hK.alloc
  omega

/-- C12: a non-heap raw entry point called with a length beyond the scratch array it would
be staged in returns `ERROR_ALLOC` and leaves the state as it was: no transfer attempt, and
nothing copied into a scratch array.  The heap variant called with the same lengths, on a
state that has a client with its scratch arrays or has no client, returns a result that is not
`ERROR_ALLOC`; the error codes are taken to be distinct, and the echo check not to answer
`ERROR_ALLOC`. -/
theorem C12_size_check (K : Consts) (E : Env) (hK : K.Codes) (hA : K.AllocApart)
    (hE : ∀ k, E.echo k ≠ K.ERROR_ALLOC) (s : State) (hs : Bound K s ∨ s.client = none)
    (cmd cmd2 outBuf : List Nat) (n k m : Nat) (hn : n ≤ cmd.length) (hk : k ≤ cmd2.length)
    (hm : m ≤ outBuf.length) :
    (K.sizeof_io_read_buf < m →
      fts_read K E outBuf m s = some (K.ERROR_ALLOC, outBuf, s) ∧
      ∃ r out s1, fts_read_heap K E outBuf m s = some (r, out, s1) ∧ r ≠ K.ERROR_ALLOC) ∧
    (K.sizeof_io_write_buf < n →
      fts_write K E cmd n s = some (K.ERROR_ALLOC, s) ∧
      ∃ r s1, fts_write_heap K E cmd n s = some (r, s1) ∧ r ≠ K.ERROR_ALLOC) ∧
    (K.sizeof_io_write_buf < n ∨ K.sizeof_io_read_buf < m →
      fts_writeRead K E cmd n outBuf m s = some (K.ERROR_ALLOC, outBuf, s) ∧
      ∃ r out s1, fts_writeRead_heap K E cmd n outBuf m s = some (r, out, s1) ∧
        r ≠ K.ERROR_ALLOC) ∧
    (K.sizeof_io_write_buf < n →
      fts_writeFwCmd K E cmd n s = some (K.ERROR_ALLOC, s) ∧
      ∃ r s1, fts_writeFwCmd_heap K E cmd n s = some (r, s1) ∧ r ≠ K.ERROR_ALLOC) ∧
    (K.sizeof_io_write_buf < n ∨ K.sizeof_io_extra_write_buf < k ∨ K.sizeof_io_read_buf < m →
      fts_writeThenWriteRead K E cmd n cmd2 k outBuf m s = some (K.ERROR_ALLOC, outBuf, s) ∧
      ∃ r out s1, fts_writeThenWriteRead_heap K E cmd n cmd2 k outBuf m s = some (r, out, s1) ∧
        r ≠ K.ERROR_ALLOC) := by
  obtain ⟨hA1, hA2, hA3, hA4⟩ := hA
  have hok := hK.alloc_ne_ok
  have hne : ∀ {r err : Int}, (r = K.OK ∨ r = err) → K.ERROR_ALLOC ≠ err →
      r ≠ K.ERROR_ALLOC := by
    intro r err h he
    rcases h with rfl | rfl
    · exact fun h => hok h.symm
    · exact fun h => he h.symm
  have hfalse : (true = false → False) := fun h => by cases h
  refine ⟨fun h => ⟨?_, ?_⟩, fun h => ⟨?_, ?_⟩, fun h => ⟨?_, ?_⟩, fun h => ⟨?_, ?_⟩,
    fun h => ⟨?_, ?_⟩⟩
  · simp [fts_read, fts_read_internal, h]
  · rcases hs with hb | hs
    · obtain ⟨r, out, s1, heq, hr, -⟩ := fts_read_internal_spec K E hK.ok true hb
        (fun h => (hfalse h).elim) hm
      exact ⟨r, out, s1, heq, hne hr.retried.code hA1⟩
    · exact ⟨K.ERROR_BUS_O, outBuf, s, by simp [fts_read_heap, fts_read_internal, hs],
        fun h => hA4 h.symm⟩
  · simp [fts_write, fts_write_internal, h]
  · rcases hs with hb | hs
    · obtain ⟨r, s1, heq, hr, -⟩ := fts_write_internal_spec K E hK.ok true hb
        (fun h => (hfalse h).elim) hn
      exact ⟨r, s1, heq, hne hr.code hA2⟩
    · exact ⟨K.ERROR_BUS_O, s, by simp [fts_write_heap, fts_write_internal, hs],
        fun h => hA4 h.symm⟩
  · simp [fts_writeRead, fts_writeRead_internal, h]
  · rcases hs with hb | hs
    · obtain ⟨r, out, s1, heq, hr, -⟩ := fts_writeRead_internal_spec K E hK.ok true hb
        (fun h => (hfalse h).elim) hn hm
      exact ⟨r, out, s1, heq, hne hr.retried.code hA3⟩
    · exact ⟨K.ERROR_BUS_O, outBuf, s, by simp [fts_writeRead_heap, fts_writeRead_internal, hs],
        fun h => hA4 h.symm⟩
  · simp [fts_writeFwCmd, fts_writeFwCmd_internal, h]
  · rcases hs with hb | hs
    · obtain ⟨r, s1, m, heq, -, -, hr⟩ := fts_writeFwCmd_internal_spec K E hK true hb
        (fun h => (hfalse h).elim) hn
      refine ⟨r, s1, heq, ?_⟩
      rcases hr with ⟨_, _, _, _, _, rfl⟩ | ⟨_, _, ⟨_, rfl⟩ | ⟨_, _, _, rfl, _⟩⟩
      · exact fun h => hok h.symm
      · exact fun h => hA2 h.symm
      · exact hE _
    · exact ⟨K.ERROR_BUS_O, s, by simp [fts_writeFwCmd_heap, fts_writeFwCmd_internal, hs],
        fun h => hA4 h.symm⟩
  · simp [fts_writeThenWriteRead, fts_writeThenWriteRead_internal, h]
  · rcases hs with hb | hs
    · obtain ⟨r, out, s1, heq, hr, -⟩ := fts_writeThenWriteRead_internal_spec K E hK.ok true hb
        (fun h => (hfalse h).elim) hn hk hm
      exact ⟨r, out, s1, heq, hne hr.retried.code hA3⟩
    · exact ⟨K.ERROR_BUS_O, outBuf, s,
        by simp [fts_writeThenWriteRead_heap, fts_writeThenWriteRead_internal, hs],
        fun h => hA4 h.symm⟩

theorem C12_size_check_witness :
    fts_writeFwCmd smallConsts noEchoBus (List.replicate 14 0xA5) 14 (boundState smallConsts) =
      some (smallConsts.ERROR_ALLOC, boundState smallConsts) ∧
    ∃ r s1, fts_writeFwCmd_heap smallConsts noEchoBus (List.replicate 14 0xA5) 14
        (boundState smallConsts) = some (r, s1) ∧ r ≠ smallConsts.ERROR_ALLOC :=
  (C12_size_check smallConsts noEchoBus smallConsts_codes
    ⟨by decide, by decide, by decide, by decide⟩
    (fun _ => (by decide : (-7 : Int) ≠ smallConsts.ERROR_ALLOC))
    (boundState smallConsts) (Or.inl (boundState_bound smallConsts))
    (List.replicate 14 0xA5) [] [] 14 0 0 (by decide) (by decide) (by decide)).2.2.2.1
    (by decide)

/-! ## The firmware command -/

theorem writesOk_of_all_ok (E : Env) (base : Nat) :
    ∀ n, (∀ i, i < n → 0 ≤ (E.bus (base + i)).ret) → writesOk E base n = n := by
  intro n
  induction n with
  | zero => intro _; rfl
  | succ n ih =>
    intro h
    rw [writesOk, ih (fun i hi => h i (by omega)), if_pos (h n (by omega))]

theorem writesOk_of_allFail (E : Env) (base : Nat) :
    ∀ n, AllFail E base n → writesOk E base n = 0 := by
  intro n
  induction n with
  | zero => intro _; rfl
  | succ n ih =>
    intro h
    have : ¬ 0 ≤ (E.bus (base + n)).ret := by have := h n (by omega); omega
    rw [writesOk, ih (fun i hi => h i (by omega)), if_neg this]

/-- C13: `fts_writeFwCmd` on a bound bus, for a command that fits `io_write_buf`, whatever
the transport and the echo check answer: the result is `OK` exactly when one of the first
`I2C_RETRY` attempts has its raw write and the echo check of that same attempt succeed; the
loop makes `m` attempts, up to and including the first such attempt, or all `I2C_RETRY` when
there is none; and an attempt makes an echo check exactly when its raw write succeeded. -/
theorem C13_fwcmd_ok_iff (K : Consts) (E : Env) (hK : K.Codes) (cmd : List Nat) (n : Nat)
    (hn : n ≤ cmd.length) (hsz : n ≤ K.sizeof_io_write_buf) (s : State) (hb : Bound K s) :
    ∃ r s1 m, fts_writeFwCmd K E cmd n s = some (r, s1) ∧
      FwRan K E (cmd.take n) m s s1 ∧
      (r = K.OK ↔ ∃ i, i < K.I2C_RETRY ∧ GoodAttempt E s.xfers s.echos i) ∧
      ((∃ j, j < K.I2C_RETRY ∧ GoodAttempt E s.xfers s.echos j ∧
          (∀ i, i < j → ¬ GoodAttempt E s.xfers s.echos i) ∧ m = j + 1) ∨
        ((∀ i, i < K.I2C_RETRY → ¬ GoodAttempt E s.xfers s.echos i) ∧ m = K.I2C_RETRY)) ∧
      (∀ i, Event.checkEcho (cmd.take n) ∈ fwAttempt K E (cmd.take n) s.xfers s.echos i ↔
        0 ≤ (E.bus (s.xfers + i)).ret) := by
  obtain ⟨r, s1, m, heq, -, hran, hr⟩ :=
    fts_writeFwCmd_internal_spec K E hK false hb (fun _ => hsz) hn
  refine ⟨r, s1, m, heq, hran, ?_, ?_, ?_⟩
  · rcases hr with ⟨j, hj, -, -, hg, rfl⟩ | ⟨hbad, -, hcode⟩
    · exact ⟨fun _ => ⟨j, hj, hg⟩, fun _ => rfl⟩
    · have hne : r ≠ K.OK := by
        rcases hcode with ⟨-, rfl⟩ | ⟨_, _, _, _, hneg⟩
        · have := hK.bus_w; have := hK.ok; omega
        · have := hK.ok; omega
      exact ⟨fun h => absurd h hne, fun ⟨i, hi, hg⟩ => absurd hg (hbad i hi)⟩
  · rcases hr with ⟨j, hj, hm, hbad, hg, -⟩ | ⟨hbad, hm, -⟩
    · exact Or.inl ⟨j, hj, hg, hbad, hm⟩
    · exact Or.inr ⟨hbad, hm⟩
  · intro i
    by_cases hw : 0 ≤ (E.bus (s.xfers + i)).ret
    · simp [fwAttempt, hw]
    · have h2 : ¬ (0 ≤ (E.bus (s.xfers + i)).ret ∧ 0 ≤ echoAt E s.xfers s.echos i) :=
        fun h => hw h.1
      simp [fwAttempt, hw]

theorem C13_fwcmd_ok_iff_witness :
    ∃ r s1 m, fts_writeFwCmd sampleConsts okBus [0xA0, 0x01, 0x02] 3 (boundState sampleConsts) =
        some (r, s1) ∧
      FwRan sampleConsts okBus ([0xA0, 0x01, 0x02].take 3) m (boundState sampleConsts) s1 ∧
      (r = sampleConsts.OK ↔ ∃ i, i < sampleConsts.I2C_RETRY ∧
        GoodAttempt okBus (boundState sampleConsts).xfers (boundState sampleConsts).echos i) ∧
      ((∃ j, j < sampleConsts.I2C_RETRY ∧
          GoodAttempt okBus (boundState sampleConsts).xfers (boundState sampleConsts).echos j ∧
          (∀ i, i < j → ¬ GoodAttempt okBus (boundState sampleConsts).xfers
            (boundState sampleConsts).echos i) ∧ m = j + 1) ∨
        ((∀ i, i < sampleConsts.I2C_RETRY → ¬ GoodAttempt okBus (boundState sampleConsts).xfers
            (boundState sampleConsts).echos i) ∧ m = sampleConsts.I2C_RETRY)) ∧
      (∀ i, Event.checkEcho ([0xA0, 0x01, 0x02].take 3) ∈
          fwAttempt sampleConsts okBus ([0xA0, 0x01, 0x02].take 3)
            (boundState sampleConsts).xfers (boundState sampleConsts).echos i ↔
        0 ≤ (okBus.bus ((boundState sampleConsts).xfers + i)).ret) :=
  C13_fwcmd_ok_iff sampleConsts okBus sampleConsts_codes [0xA0, 0x01, 0x02] 3 (by decide)
    (by decide) (boundState sampleConsts) (boundState_bound sampleConsts)

/-- C14 as stated fails: on a bus whose first raw write succeeds, with an echo check that
answers `-7`, and whose two later raw writes fail, `fts_writeFwCmd` makes its three attempts
and one echo check and returns `ERROR_BUS_W`, not the `-7` of the echo check, although the raw
write succeeded in one attempt. -/
theorem C14_counterexample :
    (fts_writeFwCmd smallConsts onceBus [0xA0, 0x01] 2 (boundState smallConsts)).map
        (fun x => (x.1, x.2.xfers, x.2.echos)) = some (smallConsts.ERROR_BUS_W, 3, 1) ∧
    0 ≤ (onceBus.bus 0).ret ∧ onceBus.echo 0 = -7 ∧ smallConsts.ERROR_BUS_W ≠ -7 := by
  refine ⟨by decide, by decide, by decide, by decide⟩

/-- C14 (as amended): when none of the `I2C_RETRY` attempts of `fts_writeFwCmd` on a bound
bus has its raw write and its echo check succeed, all attempts are made and the result is
`ERROR_BUS_W` if the raw write of the last attempt failed, in particular if the raw write
never succeeded; otherwise it is the code of the echo check of the last attempt, which is
negative. -/
theorem C14_fwcmd_exhausted (K : Consts) (E : Env) (hK : K.Codes) (cmd : List Nat) (n : Nat)
    (hn : n ≤ cmd.length) (hsz : n ≤ K.sizeof_io_write_buf) (s : State) (hb : Bound K s)
    (hbad : ∀ i, i < K.I2C_RETRY → ¬ GoodAttempt E s.xfers s.echos i) :
    ∃ r s1, fts_writeFwCmd K E cmd n s = some (r, s1) ∧
      FwRan K E (cmd.take n) K.I2C_RETRY s s1 ∧
      ((∀ k, K.I2C_RETRY = k + 1 → (E.bus (s.xfers + k)).ret < 0) → r = K.ERROR_BUS_W) ∧
      (AllFail E s.xfers K.I2C_RETRY → r = K.ERROR_BUS_W) ∧
      (∀ k, K.I2C_RETRY = k + 1 → 0 ≤ (E.bus (s.xfers + k)).ret →
        r = echoAt E s.xfers s.echos k ∧ r < 0) := by
  obtain ⟨r, s1, m, heq, -, hran, hr⟩ :=
    fts_writeFwCmd_internal_spec K E hK false hb (fun _ => hsz) hn
  rcases hr with ⟨j, hj, -, -, hg, -⟩ | ⟨-, rfl, hcode⟩
  · exact absurd hg (hbad j hj)
  · have hlast : (∀ k, K.I2C_RETRY = k + 1 → (E.bus (s.xfers + k)).ret < 0) →
        r = K.ERROR_BUS_W := by
      intro hl
      rcases hcode with ⟨-, h⟩ | ⟨k, hk, hw, -, -⟩
      · exact h
      · have := hl k hk; omega
    refine ⟨r, s1, heq, hran, hlast, fun hall => hlast (fun k hk => hall k (by omega)), ?_⟩
    intro k hk hw
    rcases hcode with ⟨hl, -⟩ | ⟨k1, hk1, -, h1, h2⟩
    · have := hl k hk; omega
    · have : k1 = k := by omega
      subst this
      exact ⟨h1, h2⟩

theorem C14_fwcmd_exhausted_witness :
    ∃ r s1, fts_writeFwCmd smallConsts onceBus [0xA0, 0x01] 2 (boundState smallConsts) =
        some (r, s1) ∧
      FwRan smallConsts onceBus ([0xA0, 0x01].take 2) smallConsts.I2C_RETRY
        (boundState smallConsts) s1 ∧
      ((∀ k, smallConsts.I2C_RETRY = k + 1 →
          (onceBus.bus ((boundState smallConsts).xfers + k)).ret < 0) →
        r = smallConsts.ERROR_BUS_W) ∧
      (AllFail onceBus (boundState smallConsts).xfers smallConsts.I2C_RETRY →
        r = smallConsts.ERROR_BUS_W) ∧
      (∀ k, smallConsts.I2C_RETRY = k + 1 →
        0 ≤ (onceBus.bus ((boundState smallConsts).xfers + k)).ret →
        r = echoAt onceBus (boundState smallConsts).xfers (boundState smallConsts).echos k ∧
          r < 0) :=
  C14_fwcmd_exhausted smallConsts onceBus smallConsts_codes [0xA0, 0x01] 2 (by decide)
    (by decide) (boundState smallConsts) (boundState_bound smallConsts)
    (fun i _ hg => absurd hg.2 (by
      show ¬ (0 : Int) ≤ -7
      decide))

/-- C15: `fts_writeFwCmd` on a bound bus, for a command that fits `io_write_buf`.  If the raw
write succeeds and the echo check fails in every attempt, the call makes `I2C_RETRY` raw
writes and `I2C_RETRY` echo checks and returns the code of the last echo check (for a budget
of at least one attempt).  If the raw write fails in every attempt, the call makes
`I2C_RETRY` raw writes and no echo check, and returns `ERROR_BUS_W`. -/
theorem C15_fwcmd_extremes (K : Consts) (E : Env) (hK : K.Codes) (cmd : List Nat) (n : Nat)
    (hn : n ≤ cmd.length) (hsz : n ≤ K.sizeof_io_write_buf) (s : State) (hb : Bound K s) :
    ((∀ i, i < K.I2C_RETRY → 0 ≤ (E.bus (s.xfers + i)).ret) →
      (∀ i, i < K.I2C_RETRY → E.echo (s.echos + i) < 0) → 0 < K.I2C_RETRY →
      ∃ s1, fts_writeFwCmd K E cmd n s = some (E.echo (s.echos + (K.I2C_RETRY - 1)), s1) ∧
        FwRan K E (cmd.take n) K.I2C_RETRY s s1 ∧
        s1.xfers = s.xfers + K.I2C_RETRY ∧ s1.echos = s.echos + K.I2C_RETRY) ∧
    (AllFail E s.xfers K.I2C_RETRY →
      ∃ s1, fts_writeFwCmd K E cmd n s = some (K.ERROR_BUS_W, s1) ∧
        FwRan K E (cmd.take n) K.I2C_RETRY s s1 ∧
        s1.xfers = s.xfers + K.I2C_RETRY ∧ s1.echos = s.echos) := by
  obtain ⟨r, s1, m, heq, -, hran, hr⟩ :=
    fts_writeFwCmd_internal_spec K E hK false hb (fun _ => hsz) hn
  constructor
  · intro hw he hpos
    have hcount : ∀ i, i ≤ K.I2C_RETRY → writesOk E s.xfers i = i := fun i hi =>
      writesOk_of_all_ok E s.xfers i (fun j hj => hw j (by omega))
    have hbad : ∀ i, i < K.I2C_RETRY → ¬ GoodAttempt E s.xfers s.echos i := by
      intro i hi hg
      have h1 := hg.2
      rw [echoAt, hcount i (by omega)] at h1
      have := he i hi
      omega
    rcases hr with ⟨j, hj, -, -, hg, -⟩ | ⟨-, rfl, hcode⟩
    · exact absurd hg (hbad j hj)
    · rcases hcode with ⟨hl, -⟩ | ⟨k, hk, -, h1, -⟩
      · have h1 := hl (K.I2C_RETRY - 1) (by omega)
        have h2 := hw (K.I2C_RETRY - 1) (by omega)
        omega
      · have hk1 : K.I2C_RETRY - 1 = k := by omega
        rw [echoAt, hcount k (by omega)] at h1
        refine ⟨s1, by rw [hk1, ← h1]; exact heq, hran, hran.1, ?_⟩
        rw [hran.2.1, hcount _ (Nat.le_refl _)]
  · intro hall
    have hbad : ∀ i, i < K.I2C_RETRY → ¬ GoodAttempt E s.xfers s.echos i := by
      intro i hi hg
      have h1 := hg.1
      have := hall i hi
      omega
    rcases hr with ⟨j, hj, -, -, hg, -⟩ | ⟨-, rfl, hcode⟩
    · exact absurd hg (hbad j hj)
    · rcases hcode with ⟨-, rfl⟩ | ⟨k, hk, hw, -, -⟩
      · refine ⟨s1, heq, hran, hran.1, ?_⟩
        rw [hran.2.1, writesOk_of_allFail E s.xfers _ hall]
        rfl
      · have := hall k (by omega)
        omega

theorem C15_fwcmd_extremes_witness :
    (∃ s1, fts_writeFwCmd sampleConsts noEchoBus [0xA0, 0x03] 2 (boundState sampleConsts) =
        some (noEchoBus.echo ((boundState sampleConsts).echos + (sampleConsts.I2C_RETRY - 1)),
          s1) ∧
      FwRan sampleConsts noEchoBus ([0xA0, 0x03].take 2) sampleConsts.I2C_RETRY
        (boundState sampleConsts) s1 ∧
      s1.xfers = (boundState sampleConsts).xfers + sampleConsts.I2C_RETRY ∧
      s1.echos = (boundState sampleConsts).echos + sampleConsts.I2C_RETRY) :=
  (C15_fwcmd_extremes sampleConsts noEchoBus sampleConsts_codes [0xA0, 0x03] 2 (by decide)
    (by decide) (boundState sampleConsts) (boundState_bound sampleConsts)).1
    (fun _ _ => (by decide : (0 : Int) ≤ 0)) (fun _ _ => (by decide : (-7 : Int) < 0))
    (by decide)

/-! ## The address width, and the failure of a chunk -/

/-- C16 fails on the code: `fts_writeU8UX` with an address width of 9 and three bytes to
write returns `OK`; the branch that reports `ERROR_OP_NOT_ALLOW` in the log falls through to
`return OK`. -/
theorem C16_width_returns_ok :
    fts_writeU8UX smallConsts okBus 0xFA 9 0x20000000 [1, 2, 3] 3 (boundState smallConsts) =
      some (smallConsts.OK, boundState smallConsts) := by
  decide

/-- C17: `fts_writeU8UX` with an address width greater than 8 leaves the state as it was,
whatever the data and its size: nothing is written to a scratch array and no transfer is
attempted. -/
theorem C17_width_no_effect (K : Consts) (E : Env) (cmd w addr : Nat) (data : List Nat)
    (L : Nat) (s : State) (hw : 8 < w) :
    ∃ r, fts_writeU8UX K E cmd w addr data L s = some (r, s) := by
  have : ¬ w ≤ 8 := by omega
  exact ⟨K.OK, by simp only [fts_writeU8UX, if_neg this]⟩

theorem C17_width_no_effect_witness :
    ∃ r, fts_writeU8UX sampleConsts deadBus 0xFA 9 0x20000000 [1, 2, 3, 4, 5] 5
      (boundState sampleConsts) = some (r, boundState sampleConsts) :=
  C17_width_no_effect sampleConsts deadBus 0xFA 9 0x20000000 [1, 2, 3, 4, 5] 5
    (boundState sampleConsts) (by decide)

/-- C18 fails on the code: with an address width of 9, on a bound bus whose transfers
succeed, `fts_writeReadU8UX` makes a transfer and returns `OK`, and so do
`fts_writeU8UXthenWriteU8UX` and `fts_writeU8UXthenWriteReadU8UX`, with two transfers, when
the first or the second address width is 9: none of the three tests the width. -/
theorem C18_width_unchecked :
    (fts_writeReadU8UX smallConsts okBus 0xFA 9 0x10203 [0, 0, 0, 0] 4 0
      (boundState smallConsts)).map (fun x => (x.1, x.2.2.xfers)) =
      some (smallConsts.OK, 1) ∧
    (fts_writeU8UXthenWriteU8UX smallConsts okBus 0xFA 9 0xFB 1 0x10203 [1, 2] 2
      (boundState smallConsts)).map (fun x => (x.1, x.2.xfers)) = some (smallConsts.OK, 2) ∧
    (fts_writeU8UXthenWriteU8UX smallConsts okBus 0xFA 1 0xFB 9 0x10203 [1, 2] 2
      (boundState smallConsts)).map (fun x => (x.1, x.2.xfers)) = some (smallConsts.OK, 2) ∧
    (fts_writeU8UXthenWriteReadU8UX smallConsts okBus 0xFA 9 0xFB 1 0x10203 [0, 0] 2 0
      (boundState smallConsts)).map (fun x => (x.1, x.2.2.xfers)) =
      some (smallConsts.OK, 2) ∧
    (fts_writeU8UXthenWriteReadU8UX smallConsts okBus 0xFA 1 0xFB 9 0x10203 [0, 0] 2 0
      (boundState smallConsts)).map (fun x => (x.1, x.2.2.xfers)) =
      some (smallConsts.OK, 2) := by
  refine ⟨by decide, by decide, by decide, by decide, by decide⟩

/-- C19 as stated fails: `fts_writeU8UXthenWriteU8UX` for two bytes returns `ERROR_BUS_W` on a
bus whose transfers all fail, where the first write fails in its three attempts, and
`ERROR_BUS_W` again on a bus whose first transfer succeeds and whose later transfers fail,
where the second write fails in its three attempts. -/
theorem C19_counterexample :
    (fts_writeU8UXthenWriteU8UX smallConsts deadBus 0xFA 2 0xFB 2 0x10203 [1, 2] 2
      (boundState smallConsts)).map (fun x => (x.1, x.2.xfers)) =
      some (smallConsts.ERROR_BUS_W, 3) ∧
    (fts_writeU8UXthenWriteU8UX smallConsts onceBus 0xFA 2 0xFB 2 0x10203 [1, 2] 2
      (boundState smallConsts)).map (fun x => (x.1, x.2.xfers)) =
      some (smallConsts.ERROR_BUS_W, 4) := by
  refine ⟨by decide, by decide⟩

/-- C19 (as amended): in `fts_writeU8UXthenWriteU8UX` on a bound bus, for address widths of
together at most 8 bytes, a failure of the first write of a chunk and a failure of the second
write of a chunk are surfaced with the same result `ERROR_BUS_W`.  The messages are the first
and the second write of each chunk in turn, so the failed message `subs.length` is a first
write when that number is even and a second write when it is odd. -/
theorem C19_same_code (K : Consts) (E : Env) (hK : K.Codes) (hL : K.Limits)
    (cmd1 w1 cmd2 w2 : Nat) (hw : w1 + w2 ≤ 8) (addr : Nat) (ha : addr < 2 ^ 64)
    (data : List Nat) (L : Nat) (hd : L ≤ data.length) (s : State) (hb : Bound K s) :
    ∃ r s1 subs, fts_writeU8UXthenWriteU8UX K E cmd1 w1 cmd2 w2 addr data L s = some (r, s1) ∧
      Ran K E ((chunks K.WRITE_CHUNK L addr).flatMap (dualWriteMsgs cmd1 w1 cmd2 w2 data))
        subs s s1 ∧
      (subs.length < 2 * (chunks K.WRITE_CHUNK L addr).length → subs.length % 2 = 0 →
        r = K.ERROR_BUS_W) ∧
      (subs.length < 2 * (chunks K.WRITE_CHUNK L addr).length → subs.length % 2 = 1 →
        r = K.ERROR_BUS_W) := by
  obtain ⟨r, s1, subs, heq, -, hran, hr⟩ := fts_writeU8UXthenWriteU8UX_spec K E hK hL cmd1 w1
    cmd2 w2 (by have := hL.wbuf; omega) (by omega) addr ha data L hd s hb
  refine ⟨r, s1, subs, heq, hran, fun h _ => ?_, fun h _ => ?_⟩ <;>
  · rcases hr with ⟨-, h1⟩ | ⟨h1, -⟩
    · omega
    · exact h1

theorem C19_same_code_witness :
    ∃ r s1 subs, fts_writeU8UXthenWriteU8UX smallConsts onceBus 0xFA 2 0xFB 2 0x10203 [1, 2] 2
        (boundState smallConsts) = some (r, s1) ∧
      Ran smallConsts onceBus
        ((chunks smallConsts.WRITE_CHUNK 2 0x10203).flatMap (dualWriteMsgs 0xFA 2 0xFB 2 [1, 2]))
        subs (boundState smallConsts) s1 ∧
      (subs.length < 2 * (chunks smallConsts.WRITE_CHUNK 2 0x10203).length →
        subs.length % 2 = 0 → r = smallConsts.ERROR_BUS_W) ∧
      (subs.length < 2 * (chunks smallConsts.WRITE_CHUNK 2 0x10203).length →
        subs.length % 2 = 1 → r = smallConsts.ERROR_BUS_W) :=
  C19_same_code smallConsts onceBus smallConsts_codes smallConsts_limits 0xFA 2 0xFB 2
    (by decide) 0x10203 (by decide) [1, 2] 2 (by decide) (boundState smallConsts)
    (boundState_bound smallConsts)

theorem Ran.stops {K : Consts} {E : Env} {msgs : List Msg} {subs : List Sub} {s s1 : State}
    {r : Int} (h : Ran K E msgs subs s s1) (hK : K.Codes) {err : List Int}
    (herr : ∀ e ∈ err, e < 0)
    (hr : r = K.OK ∧ subs.length = msgs.length ∨
      ∃ e ∈ err, r = e ∧ subs.length < msgs.length) :
    StopsAtFailure K E msgs s r s1 := by
  have hx := h.2.2.2.1
  refine ⟨subs, h, fun hlt => ?_, fun hok => ?_⟩
  · rw [if_pos hlt] at hx
    rcases hr with ⟨-, h1⟩ | ⟨e, he, hre, -⟩
    · omega
    · have := herr e he
      exact ⟨by omega, by have := hK.ok; omega, hx⟩
  · rcases hr with ⟨-, h1⟩ | ⟨e, he, hre, -⟩
    · rw [if_neg (by omega)] at hx
      exact ⟨h1, hx⟩
    · have := herr e he
      have := hK.ok
      omega

/-- C20: on a bound bus, each of the four chunked operations, for an address width of at
most 8 bytes (the two widths together for the dual operations), stops at the first
sub-transfer that fails after its retries: the result is then an
error, never `OK`, and no transfer follows the failed attempts, so no later chunk is sent and,
in the two dual operations, whose messages are the first and the second transfer of each chunk
in turn, no second transfer after a failed first write.  The result is `OK` only if every
sub-transfer of every chunk succeeded. -/
theorem C20_abort_on_failure (K : Consts) (E : Env) (hK : K.Codes) (hL : K.Limits)
    (cmd w cmd1 w1 cmd2 w2 : Nat) (hw : w ≤ 8) (hw12 : w1 + w2 ≤ 8) (addr : Nat)
    (ha : addr < 2 ^ 64) (data outBuf : List Nat) (L : Nat) (d : Int) (hd : L ≤ data.length)
    (ho : L ≤ outBuf.length) (s : State) (hb : Bound K s) :
    (∃ r s1, fts_writeU8UX K E cmd w addr data L s = some (r, s1) ∧
      StopsAtFailure K E ((chunks K.WRITE_CHUNK L addr).map (writeMsg cmd w data)) s r s1) ∧
    (∃ r out s1, fts_writeReadU8UX K E cmd w addr outBuf L d s = some (r, out, s1) ∧
      StopsAtFailure K E ((chunks K.READ_CHUNK L addr).map (readMsg cmd w (dummyOf d)))
        s r s1) ∧
    (∃ r s1, fts_writeU8UXthenWriteU8UX K E cmd1 w1 cmd2 w2 addr data L s = some (r, s1) ∧
      StopsAtFailure K E
        ((chunks K.WRITE_CHUNK L addr).flatMap (dualWriteMsgs cmd1 w1 cmd2 w2 data)) s r s1) ∧
    (∃ r out s1,
      fts_writeU8UXthenWriteReadU8UX K E cmd1 w1 cmd2 w2 addr outBuf L d s =
        some (r, out, s1) ∧
      StopsAtFailure K E
        ((chunks K.READ_CHUNK L addr).flatMap (dualReadMsgs cmd1 w1 cmd2 w2 (dummyOf d)))
        s r s1) := by
  have hwb : w1 + 1 ≤ K.sizeof_io_write_buf := by have := hL.wbuf; omega
  have hxb : w2 + 1 ≤ K.sizeof_io_extra_write_buf := by have := hL.xbuf; omega
  have hw2 : w2 ≤ 8 := by omega
  have herr : ∀ e ∈ [K.ERROR_BUS_W, K.ERROR_BUS_WR], e < 0 := by
    intro e he
    simp only [List.mem_cons, List.mem_singleton, List.not_mem_nil, or_false] at he
    rcases he with rfl | rfl
    · exact hK.bus_w
    · exact hK.bus_wr
  refine ⟨?_, ?_, ?_, ?_⟩
  · obtain ⟨r, s1, subs, heq, -, hran, hr⟩ :=
      fts_writeU8UX_spec K E hK hL cmd w hw addr ha data L hd s hb
    refine ⟨r, s1, heq, hran.stops hK herr ?_⟩
    rw [List.length_map]
    rcases hr with h | ⟨h1, h2⟩
    · exact Or.inl h
    · exact Or.inr ⟨_, by simp, h1, h2⟩
  · obtain ⟨r, out, s1, subs, heq, -, hran, -, hr⟩ :=
      fts_writeReadU8UX_spec K E hK hL cmd w (by have := hL.wbuf; omega) addr ha outBuf L d
        ho s hb
    refine ⟨r, out, s1, heq, hran.stops hK herr ?_⟩
    rw [List.length_map]
    rcases hr with h | ⟨h1, h2⟩
    · exact Or.inl h
    · exact Or.inr ⟨_, by simp, h1, h2⟩
  · obtain ⟨r, s1, subs, heq, -, hran, hr⟩ :=
      fts_writeU8UXthenWriteU8UX_spec K E hK hL cmd1 w1 cmd2 w2 hwb hw2 addr ha data L hd s hb
    refine ⟨r, s1, heq, hran.stops hK herr ?_⟩
    rw [dualWriteMsgs_length]
    rcases hr with h | ⟨h1, h2⟩
    · exact Or.inl h
    · exact Or.inr ⟨_, by simp, h1, h2⟩
  · obtain ⟨r, out, s1, subs, heq, -, hran, -, hr⟩ :=
      fts_writeU8UXthenWriteReadU8UX_spec K E hK hL cmd1 w1 cmd2 w2 hwb hxb addr ha outBuf L d
        ho s hb
    refine ⟨r, out, s1, heq, hran.stops hK herr ?_⟩
    rw [dualReadMsgs_length]
    rcases hr with h | ⟨h1, h2, -⟩ | ⟨h1, h2, -⟩
    · exact Or.inl h
    · exact Or.inr ⟨_, by simp, h1, h2⟩
    · exact Or.inr ⟨_, by simp, h1, h2⟩

theorem C20_abort_on_failure_witness :
    ∃ r out s1,
      fts_writeU8UXthenWriteReadU8UX smallConsts onceBus 0xFA 2 0xFB 2 0x10203
        [0, 0, 0, 0, 0, 0] 6 1 (boundState smallConsts) = some (r, out, s1) ∧
      StopsAtFailure smallConsts onceBus
        ((chunks smallConsts.READ_CHUNK 6 0x10203).flatMap
          (dualReadMsgs 0xFA 2 0xFB 2 (dummyOf 1)))
        (boundState smallConsts) r s1 :=
  (C20_abort_on_failure smallConsts onceBus smallConsts_codes smallConsts_limits 0xFC 2 0xFA 2
    0xFB 2 (by decide) (by decide) 0x10203 (by decide) [1, 2, 3, 4, 5, 6] [0, 0, 0, 0, 0, 0] 6 1
    (by decide) (by decide) (boundState smallConsts) (boundState_bound smallConsts)).2.2.2

/-! ## The two transfers of a chunk of the dual operations -/

theorem chunk_payload_length {C L addr k : Nat} {c : Chunk} {data : List Nat}
    (h : (chunks C L addr)[k]? = some c) (hd : L ≤ data.length) :
    ((data.drop c.off).take c.size).length = c.size := by
  obtain ⟨-, rfl⟩ := chunks_getElem?_eq h
  simp only [chunkAt, List.length_take, List.length_drop]
  omega

/-- C21: on a bound bus, for address widths of together at most 8 bytes, the dual operations
send two messages for every chunk, in this order (messages `2 * k` and `2 * k + 1` of the run
are those of chunk `k`).  `fts_writeU8UXthenWriteU8UX` sends a write of `header1` alone,
`1 + w1` bytes, and then a write of `header2` followed by the `n` payload bytes of the chunk,
`1 + w2 + n` bytes.  `fts_writeU8UXthenWriteReadU8UX` sends a write of `header1` alone and
then a write-then-read that writes `header2` alone, `1 + w2` bytes, and reads `n` bytes,
`n + 1` when `hasDummyByte == 1`.  The run sends these messages in order, each through one
retried raw operation, and stops only after one that failed; when every sub-transfer succeeds
the transfers made are exactly these two for each chunk. -/
theorem C21_two_operations (K : Consts) (E : Env) (hK : K.Codes) (hL : K.Limits)
    (cmd1 w1 cmd2 w2 : Nat) (hw : w1 + w2 ≤ 8) (addr : Nat) (ha : addr < 2 ^ 64)
    (data outBuf : List Nat) (L : Nat) (d : Int) (hd : L ≤ data.length)
    (ho : L ≤ outBuf.length) (s : State) (hb : Bound K s) :
    (∀ k c, (chunks K.WRITE_CHUNK L addr)[k]? = some c →
      ((chunks K.WRITE_CHUNK L addr).flatMap (dualWriteMsgs cmd1 w1 cmd2 w2 data))[2 * k]? =
        some ⟨[header1 cmd1 w1 w2 c.address], none⟩ ∧
      ((chunks K.WRITE_CHUNK L addr).flatMap
          (dualWriteMsgs cmd1 w1 cmd2 w2 data))[2 * k + 1]? =
        some ⟨[header2 cmd2 w1 w2 c.address ++ (data.drop c.off).take c.size], none⟩ ∧
      (header1 cmd1 w1 w2 c.address).length = 1 + w1 ∧
      ((data.drop c.off).take c.size).length = c.size ∧
      (header2 cmd2 w1 w2 c.address ++ (data.drop c.off).take c.size).length =
        1 + w2 + c.size) ∧
    (∀ k c, (chunks K.READ_CHUNK L addr)[k]? = some c →
      ((chunks K.READ_CHUNK L addr).flatMap
          (dualReadMsgs cmd1 w1 cmd2 w2 (dummyOf d)))[2 * k]? =
        some ⟨[header1 cmd1 w1 w2 c.address], none⟩ ∧
      ((chunks K.READ_CHUNK L addr).flatMap
          (dualReadMsgs cmd1 w1 cmd2 w2 (dummyOf d)))[2 * k + 1]? =
        some ⟨[header2 cmd2 w1 w2 c.address], some (c.size + if d = 1 then 1 else 0)⟩ ∧
      (header1 cmd1 w1 w2 c.address).length = 1 + w1 ∧
      (header2 cmd2 w1 w2 c.address).length = 1 + w2) ∧
    (∃ r s1 subs, fts_writeU8UXthenWriteU8UX K E cmd1 w1 cmd2 w2 addr data L s = some (r, s1) ∧
      Ran K E ((chunks K.WRITE_CHUNK L addr).flatMap (dualWriteMsgs cmd1 w1 cmd2 w2 data))
        subs s s1 ∧
      (AllSucceed K E s.xfers (2 * (chunks K.WRITE_CHUNK L addr).length) →
        r = K.OK ∧ subs.length = 2 * (chunks K.WRITE_CHUNK L addr).length ∧
        s1.trace = s.trace ++ runEvents K
          ((chunks K.WRITE_CHUNK L addr).flatMap (dualWriteMsgs cmd1 w1 cmd2 w2 data)) subs)) ∧
    (∃ r out s1 subs,
      fts_writeU8UXthenWriteReadU8UX K E cmd1 w1 cmd2 w2 addr outBuf L d s =
        some (r, out, s1) ∧
      Ran K E ((chunks K.READ_CHUNK L addr).flatMap
        (dualReadMsgs cmd1 w1 cmd2 w2 (dummyOf d))) subs s s1 ∧
      (AllSucceed K E s.xfers (2 * (chunks K.READ_CHUNK L addr).length) →
        r = K.OK ∧ subs.length = 2 * (chunks K.READ_CHUNK L addr).length ∧
        s1.trace = s.trace ++ runEvents K ((chunks K.READ_CHUNK L addr).flatMap
          (dualReadMsgs cmd1 w1 cmd2 w2 (dummyOf d))) subs)) := by
  have hwb : w1 + 1 ≤ K.sizeof_io_write_buf := by have := hL.wbuf; omega
  have hxb : w2 + 1 ≤ K.sizeof_io_extra_write_buf := by have := hL.xbuf; omega
  refine ⟨?_, ?_, ?_, ?_⟩
  · intro k c hc
    have hp := chunk_payload_length hc hd
    obtain ⟨h1, h2⟩ := flatMap_pair_getElem?
      (fun c : Chunk => (⟨[header1 cmd1 w1 w2 c.address], none⟩ : Msg))
      (fun c : Chunk =>
        (⟨[header2 cmd2 w1 w2 c.address ++ (data.drop c.off).take c.size], none⟩ : Msg))
      (chunks K.WRITE_CHUNK L addr) k
    rw [hc] at h1 h2
    refine ⟨h1, h2, by rw [header1_length]; omega, hp, ?_⟩
    rw [List.length_append, header2_length, hp]
    omega
  · intro k c hc
    obtain ⟨h1, h2⟩ := flatMap_pair_getElem?
      (fun c : Chunk => (⟨[header1 cmd1 w1 w2 c.address], none⟩ : Msg))
      (fun c : Chunk => (⟨[header2 cmd2 w1 w2 c.address], some (c.size + dummyOf d)⟩ : Msg))
      (chunks K.READ_CHUNK L addr) k
    rw [hc] at h1 h2
    exact ⟨h1, h2, by rw [header1_length]; omega, by rw [header2_length]; omega⟩
  · obtain ⟨r, s1, subs, heq, -, hran, hr⟩ := fts_writeU8UXthenWriteU8UX_spec K E hK hL cmd1 w1
      cmd2 w2 hwb (by omega) addr ha data L hd s hb
    refine ⟨r, s1, subs, heq, hran, fun hall => ?_⟩
    obtain ⟨hlen, htr⟩ := hran.complete (by rw [dualWriteMsgs_length]; exact hall)
    rw [dualWriteMsgs_length] at hlen
    rcases hr with ⟨rfl, -⟩ | ⟨-, hlt⟩
    · exact ⟨rfl, hlen, htr⟩
    · omega
  · obtain ⟨r, out, s1, subs, heq, -, hran, -, hr⟩ := fts_writeU8UXthenWriteReadU8UX_spec K E
      hK hL cmd1 w1 cmd2 w2 hwb hxb addr ha outBuf L d ho s hb
    refine ⟨r, out, s1, subs, heq, hran, fun hall => ?_⟩
    obtain ⟨hlen, htr⟩ := hran.complete (by rw [dualReadMsgs_length]; exact hall)
    rw [dualReadMsgs_length] at hlen
    rcases hr with ⟨rfl, -⟩ | ⟨-, hlt, -⟩ | ⟨-, hlt, -⟩
    · exact ⟨rfl, hlen, htr⟩
    · omega
    · omega

theorem C21_two_operations_witness :
    (∃ r s1 subs, fts_writeU8UXthenWriteU8UX smallConsts okBus 0xFA 2 0xFB 2 0x10203
        [1, 2, 3, 4, 5, 6] 6 (boundState smallConsts) = some (r, s1) ∧
      Ran smallConsts okBus ((chunks smallConsts.WRITE_CHUNK 6 0x10203).flatMap
        (dualWriteMsgs 0xFA 2 0xFB 2 [1, 2, 3, 4, 5, 6])) subs (boundState smallConsts) s1 ∧
      (AllSucceed smallConsts okBus (boundState smallConsts).xfers
          (2 * (chunks smallConsts.WRITE_CHUNK 6 0x10203).length) →
        r = smallConsts.OK ∧
        subs.length = 2 * (chunks smallConsts.WRITE_CHUNK 6 0x10203).length ∧
        s1.trace = (boundState smallConsts).trace ++ runEvents smallConsts
          ((chunks smallConsts.WRITE_CHUNK 6 0x10203).flatMap
            (dualWriteMsgs 0xFA 2 0xFB 2 [1, 2, 3, 4, 5, 6])) subs)) ∧
    (fts_writeU8UXthenWriteU8UX smallConsts okBus 0xFA 2 0xFB 2 0x10203 [1, 2, 3, 4, 5, 6] 6
        (boundState smallConsts)).map (fun x => (x.1, x.2.trace)) =
      some (smallConsts.OK,
        [Event.xfer [[0xFA, 0, 1]] none, Event.xfer [[0xFB, 2, 3, 1, 2, 3, 4]] none,
          Event.xfer [[0xFA, 0, 1]] none, Event.xfer [[0xFB, 2, 7, 5, 6]] none]) ∧
    (fts_writeU8UXthenWriteReadU8UX smallConsts okBus 0xFA 2 0xFB 2 0x10203
        [9, 9, 9, 9, 9, 9] 6 1 (boundState smallConsts)).map
        (fun x => (x.1, x.2.1, x.2.2.trace)) =
      some (smallConsts.OK, [1, 2, 3, 4, 1, 2],
        [Event.xfer [[0xFA, 0, 1]] none, Event.xfer [[0xFB, 2, 3]] (some 5),
          Event.xfer [[0xFA, 0, 1]] none, Event.xfer [[0xFB, 2, 7]] (some 3)]) :=
  ⟨(C21_two_operations smallConsts okBus smallConsts_codes smallConsts_limits 0xFA 2 0xFB 2
      (by decide) 0x10203 (by decide) [1, 2, 3, 4, 5, 6] [9, 9, 9, 9, 9, 9] 6 1
      (by decide) (by decide) (boundState smallConsts) (boundState_bound smallConsts)).2.2.1,
    by decide, by decide⟩

/-! ## The caller's buffer after a failed read -/

/-- A non-heap `fts_read` that returns an error has not touched the caller's buffer. -/
theorem fts_read_error_untouched (K : Consts) (E : Env) (outBuf : List Nat) (n : Nat)
    (s : State) {r : Int} {out : List Nat} {s1 : State}
    (h : fts_read K E outBuf n s = some (r, out, s1)) (hr : r ≠ K.OK) : out = outBuf := by
  simp only [fts_read, fts_read_internal, finishRead, true_and, if_true] at h
  repeat' split at h
  all_goals (cases h <;> first | rfl | exact absurd rfl hr)

/-- A non-heap `fts_writeRead` that returns an error has not touched the caller's buffer. -/
theorem fts_writeRead_error_untouched (K : Consts) (E : Env) (cmd : List Nat) (n : Nat)
    (outBuf : List Nat) (m : Nat) (s : State) {r : Int} {out : List Nat} {s1 : State}
    (h : fts_writeRead K E cmd n outBuf m s = some (r, out, s1)) (hr : r ≠ K.OK) :
    out = outBuf := by
  simp only [fts_writeRead, fts_writeRead_internal, finishRead, true_and, if_true] at h
  repeat' split at h
  all_goals (cases h <;> first | rfl | exact absurd rfl hr)

/-- A non-heap `fts_writeThenWriteRead` that returns an error has not touched the caller's
buffer. -/
theorem fts_writeThenWriteRead_error_untouched (K : Consts) (E : Env) (w : List Nat) (n : Nat)
    (c : List Nat) (k : Nat) (outBuf : List Nat) (m : Nat) (s : State) {r : Int}
    {out : List Nat} {s1 : State}
    (h : fts_writeThenWriteRead K E w n c k outBuf m s = some (r, out, s1)) (hr : r ≠ K.OK) :
    out = outBuf := by
  simp only [fts_writeThenWriteRead, fts_writeThenWriteRead_internal, finishRead, true_and,
    if_true] at h
  repeat' split at h
  all_goals (cases h <;> first | rfl | exact absurd rfl hr)

/-- The bytes gathered from the reads of the first chunks, all of them full, are one chunk
size for each read. -/
theorem gather_length_full (d C : Nat) :
    ∀ (cs : List Chunk) (subs : List Sub), subs.length ≤ cs.length →
      (∀ i c, i < subs.length → cs[i]? = some c → c.size = C) →
      (gather d cs subs).length = subs.length * C := by
  intro cs
  induction cs with
  | nil =>
    intro subs h _
    have : subs = [] := List.eq_nil_of_length_eq_zero (by simpa using h)
    subst this
    simp [gather]
  | cons c cs ih =>
    intro subs h hfull
    cases subs with
    | nil => simp [gather]
    | cons sub subs =>
      have hc : c.size = C := hfull 0 c (by simp) (by simp)
      have hrest := ih subs (by simpa using h) (fun i c hi hci =>
        hfull (i + 1) c (by simpa using hi) (by simpa using hci))
      simp only [gather, List.length_append, List.length_drop, delivered_length, hrest, hc,
        List.length_cons]
      rw [Nat.add_sub_cancel, Nat.add_mul, Nat.one_mul, Nat.add_comm]

/-- The chunks before a chunk of the plan are full. -/
theorem chunks_full_before {C L addr i k : Nat} {c : Chunk} (hC : 0 < C)
    (hk : k < (chunks C L addr).length) (hi : i < k) (h : (chunks C L addr)[i]? = some c) :
    c.size = C := by
  obtain ⟨-, rfl⟩ := chunks_getElem?_eq h
  have hk1 : k < nChunks C L := by simpa [chunks] using hk
  rw [lt_nChunks hC] at hk1
  have : (i + 1) * C ≤ k * C := Nat.mul_le_mul_right C hi
  simp only [chunkAt]
  rw [Nat.add_mul, Nat.one_mul] at this
  omega

/-- C22: a non-heap `fts_read`, `fts_writeRead` or `fts_writeThenWriteRead` that returns an
error, whichever it is and in whatever state, returns the caller's buffer as it received it;
on a bound bus, for lengths within the scratch arrays and the caller's buffers, the three
functions do return.  And on a bound bus `fts_writeReadU8UX` that returns an error has failed
at chunk `k`, the first `k` chunks having succeeded: the first `k * READ_CHUNK` bytes of the
destination are the bytes returned for these chunks, without their dummy bytes, and the
destination is unchanged from offset `k * READ_CHUNK` on. -/
theorem C22_failed_read_untouched (K : Consts) (E : Env) (hK : K.Codes) (hL : K.Limits)
    (s : State) (cmd cmd2 outBuf : List Nat) (n k m : Nat) :
    (∀ r out s1, fts_read K E outBuf m s = some (r, out, s1) → r ≠ K.OK → out = outBuf) ∧
    (∀ r out s1, fts_writeRead K E cmd n outBuf m s = some (r, out, s1) → r ≠ K.OK →
      out = outBuf) ∧
    (∀ r out s1, fts_writeThenWriteRead K E cmd n cmd2 k outBuf m s = some (r, out, s1) →
      r ≠ K.OK → out = outBuf) ∧
    (Bound K s → n ≤ K.sizeof_io_write_buf → k ≤ K.sizeof_io_extra_write_buf →
      m ≤ K.sizeof_io_read_buf → n ≤ cmd.length → k ≤ cmd2.length → m ≤ outBuf.length →
      (∃ r out s1, fts_read K E outBuf m s = some (r, out, s1)) ∧
      (∃ r out s1, fts_writeRead K E cmd n outBuf m s = some (r, out, s1)) ∧
      (∃ r out s1, fts_writeThenWriteRead K E cmd n cmd2 k outBuf m s = some (r, out, s1))) ∧
    (∀ op w addr d, Bound K s → w ≤ 8 → addr < 2 ^ 64 → m ≤ outBuf.length →
      ∃ r out s1 subs, fts_writeReadU8UX K E op w addr outBuf m d s = some (r, out, s1) ∧
        Ran K E ((chunks K.READ_CHUNK m addr).map (readMsg op w (dummyOf d))) subs s s1 ∧
        (r ≠ K.OK →
          subs.length < (chunks K.READ_CHUNK m addr).length ∧
          out.take (subs.length * K.READ_CHUNK) =
            gather (dummyOf d) (chunks K.READ_CHUNK m addr) subs ∧
          out.drop (subs.length * K.READ_CHUNK) =
            outBuf.drop (subs.length * K.READ_CHUNK))) := by
  refine ⟨fun r out s1 h hr => fts_read_error_untouched K E outBuf m s h hr,
    fun r out s1 h hr => fts_writeRead_error_untouched K E cmd n outBuf m s h hr,
    fun r out s1 h hr => fts_writeThenWriteRead_error_untouched K E cmd n cmd2 k outBuf m s h hr,
    ?_, ?_⟩
  · intro hb hn hk hm hcn hck hom
    obtain ⟨r, out, s1, h1, -⟩ := fts_read_internal_spec K E hK.ok false hb (fun _ => hm) hom
    obtain ⟨r', out', s1', h2, -⟩ :=
      fts_writeRead_internal_spec K E hK.ok false hb (fun _ => ⟨hn, hm⟩) hcn hom
    obtain ⟨r'', out'', s1'', h3, -⟩ :=
      fts_writeThenWriteRead_internal_spec K E hK.ok false hb (fun _ => ⟨hn, hk, hm⟩) hcn hck
        hom
    exact ⟨⟨r, out, s1, h1⟩, ⟨r', out', s1', h2⟩, ⟨r'', out'', s1'', h3⟩⟩
  · intro op w addr d hb hw ha hom
    obtain ⟨r, out, s1, subs, heq, -, hran, hout, hr⟩ := fts_writeReadU8UX_spec K E hK hL op w
      (by have := hL.wbuf; omega) addr ha outBuf m d hom s hb
    refine ⟨r, out, s1, subs, heq, hran, fun hne => ?_⟩
    rcases hr with ⟨rfl, -⟩ | ⟨-, hlt⟩
    · exact absurd rfl hne
    · have hlen : (gather (dummyOf d) (chunks K.READ_CHUNK m addr) subs).length =
          subs.length * K.READ_CHUNK :=
        gather_length_full (dummyOf d) K.READ_CHUNK _ subs (by omega)
          (fun i c hi hc => chunks_full_before hL.rchunk hlt hi hc)
      rw [hlen] at hout
      refine ⟨hlt, ?_, ?_⟩
      · rw [hout]
        exact List.take_left' hlen
      · rw [hout]
        exact List.drop_left' hlen

theorem C22_failed_read_untouched_witness :
    (∃ r out s1 subs, fts_writeReadU8UX smallConsts onceBus 0xFA 2 0x0203 [9, 9, 9, 9, 9, 9] 6 1
        (boundState smallConsts) = some (r, out, s1) ∧
      Ran smallConsts onceBus
        ((chunks smallConsts.READ_CHUNK 6 0x0203).map (readMsg 0xFA 2 (dummyOf 1))) subs
        (boundState smallConsts) s1 ∧
      (r ≠ smallConsts.OK →
        subs.length < (chunks smallConsts.READ_CHUNK 6 0x0203).length ∧
        out.take (subs.length * smallConsts.READ_CHUNK) =
          gather (dummyOf 1) (chunks smallConsts.READ_CHUNK 6 0x0203) subs ∧
        out.drop (subs.length * smallConsts.READ_CHUNK) =
          [9, 9, 9, 9, 9, 9].drop (subs.length * smallConsts.READ_CHUNK))) ∧
    (fts_writeReadU8UX smallConsts onceBus 0xFA 2 0x0203 [9, 9, 9, 9, 9, 9] 6 1
        (boundState smallConsts)).map (fun x => (x.1, x.2.1)) =
      some (smallConsts.ERROR_BUS_WR, [1, 2, 3, 4, 9, 9]) ∧
    (fts_writeRead smallConsts deadBus [1, 2] 2 [9, 9, 9] 3 (boundState smallConsts)).map
        (fun x => (x.1, x.2.1)) = some (smallConsts.ERROR_BUS_WR, [9, 9, 9]) :=
  ⟨(C22_failed_read_untouched smallConsts onceBus smallConsts_codes smallConsts_limits
      (boundState smallConsts) [] [] [9, 9, 9, 9, 9, 9] 0 0 6).2.2.2.2 0xFA 2 0x0203 1
      (boundState_bound smallConsts) (by decide) (by decide) (by decide),
    by decide, by decide⟩

/-! ## The heap and the non-heap variant of a raw operation -/

theorem RetriedRead.agree {K : Consts} {E : Env} {segs : List (List Nat)} {n : Nat}
    {err : Int} {ds ds' : Bool} {outBuf out out' : List Nat} {s s1 s1' : State} {r r' : Int}
    (h : RetriedRead K E segs n err ds outBuf s r out s1)
    (h' : RetriedRead K E segs n err ds' outBuf s r' out' s1') (hK : K.OK = 0)
    (herr : err < 0) :
    r = r' ∧ s1.xfers = s1'.xfers ∧ s1.trace = s1'.trace ∧ (r = K.OK → out = out') := by
  obtain ⟨hr, ht, hx⟩ := h.retried.determined h'.retried rfl rfl
  refine ⟨hr, hx, ht, fun hok => ?_⟩
  rcases h with ⟨j, hj, hfo, -, ho, -⟩ | ⟨-, he, -⟩
  · rcases h' with ⟨j', hj', hfo', -, ho', -⟩ | ⟨-, he', -⟩
    · obtain rfl := hfo.same_index hfo'
      rw [ho, ho']
    · omega
  · omega

theorem FwRan.same_events {K : Consts} {E : Env} {cmd : List Nat} {m : Nat} {s s1 s1' : State}
    (h : FwRan K E cmd m s s1) (h' : FwRan K E cmd m s s1') :
    s1.xfers = s1'.xfers ∧ s1.echos = s1'.echos ∧ s1.trace = s1'.trace :=
  ⟨by rw [h.1, h'.1], by rw [h.2.1, h'.2.1], by rw [h.2.2, h'.2.2]⟩

/-- On a bound bus, for lengths within the scratch arrays and within the caller's buffers,
the non-heap and the heap variant of each raw operation, started in the same state with the
same bus and echo verifier, return the same result code after the same events: the same
transfers with the same bytes and lengths, the same delays and echo checks; and when the
result is `OK` the caller's buffer holds the same bytes. -/
theorem heap_variants_agree (K : Consts) (E : Env) (hK : K.Codes) (s : State)
    (hb : Bound K s) (cmd cmd2 outBuf : List Nat) (n k m : Nat)
    (hn : n ≤ K.sizeof_io_write_buf) (hk : k ≤ K.sizeof_io_extra_write_buf)
    (hm : m ≤ K.sizeof_io_read_buf) (hcn : n ≤ cmd.length) (hck : k ≤ cmd2.length)
    (hom : m ≤ outBuf.length) :
    AgreeRead K (fts_read K E outBuf m s) (fts_read_heap K E outBuf m s) ∧
    AgreeWrite (fts_write K E cmd n s) (fts_write_heap K E cmd n s) ∧
    AgreeRead K (fts_writeRead K E cmd n outBuf m s) (fts_writeRead_heap K E cmd n outBuf m s) ∧
    AgreeWrite (fts_writeFwCmd K E cmd n s) (fts_writeFwCmd_heap K E cmd n s) ∧
    AgreeRead K (fts_writeThenWriteRead K E cmd n cmd2 k outBuf m s)
      (fts_writeThenWriteRead_heap K E cmd n cmd2 k outBuf m s) := by
  have hfalse : ∀ {p : Prop}, true = false → p := fun h => by cases h
  refine ⟨?_, ?_, ?_, ?_, ?_⟩
  · obtain ⟨r, out, s1, h1, hr, -, he⟩ :=
      fts_read_internal_spec K E hK.ok false hb (fun _ => hm) hom
    obtain ⟨r', out', s1', h1', hr', -, he'⟩ :=
      fts_read_internal_spec K E hK.ok true hb hfalse hom
    obtain ⟨rfl, hx, ht, ho⟩ := hr.agree hr' hK.ok hK.bus_r
    exact ⟨r, out, s1, out', s1', h1, h1', hx, by rw [he, he'], ht, ho⟩
  · obtain ⟨r, s1, h1, hr, -, he⟩ :=
      fts_write_internal_spec K E hK.ok false hb (fun _ => hn) hcn
    obtain ⟨r', s1', h1', hr', -, he'⟩ := fts_write_internal_spec K E hK.ok true hb hfalse hcn
    obtain ⟨rfl, ht, hx⟩ := hr.determined hr' rfl rfl
    exact ⟨r, s1, s1', h1, h1', hx, by rw [he, he'], ht⟩
  · obtain ⟨r, out, s1, h1, hr, -, he⟩ :=
      fts_writeRead_internal_spec K E hK.ok false hb (fun _ => ⟨hn, hm⟩) hcn hom
    obtain ⟨r', out', s1', h1', hr', -, he'⟩ :=
      fts_writeRead_internal_spec K E hK.ok true hb hfalse hcn hom
    obtain ⟨rfl, hx, ht, ho⟩ := hr.agree hr' hK.ok hK.bus_wr
    exact ⟨r, out, s1, out', s1', h1, h1', hx, by rw [he, he'], ht, ho⟩
  · obtain ⟨r, s1, j, h1, -, hran, hr⟩ :=
      fts_writeFwCmd_internal_spec K E hK false hb (fun _ => hn) hcn
    obtain ⟨r', s1', j', h1', -, hran', hr'⟩ :=
      fts_writeFwCmd_internal_spec K E hK true hb hfalse hcn
    have hsame : r = r' ∧ j = j' := by
      rcases hr with ⟨a, ha, rfl, hbad, hg, rfl⟩ | ⟨hbad, rfl, hcode⟩ <;>
        rcases hr' with ⟨a', ha', rfl, hbad', hg', rfl⟩ | ⟨hbad', rfl, hcode'⟩
      · have : a = a' := by
          rcases Nat.lt_trichotomy a a' with h | h | h
          · exact absurd hg (hbad' a h)
          · exact h
          · exact absurd hg' (hbad a' h)
        exact ⟨rfl, by rw [this]⟩
      · exact absurd hg (hbad' a ha)
      · exact absurd hg' (hbad a' ha')
      · refine ⟨?_, rfl⟩
        rcases hcode with ⟨hl, rfl⟩ | ⟨c, hc, hw, rfl, -⟩ <;>
          rcases hcode' with ⟨hl', rfl⟩ | ⟨c', hc', hw', rfl, -⟩
        · rfl
        · have := hl c' hc'; omega
        · have := hl' c hc; omega
        · have : c = c' := by omega
          rw [this]
    obtain ⟨rfl, rfl⟩ := hsame
    obtain ⟨hx, he, ht⟩ := hran.same_events hran'
    exact ⟨r, s1, s1', h1, h1', hx, he, ht⟩
  · obtain ⟨r, out, s1, h1, hr, -, he⟩ :=
      fts_writeThenWriteRead_internal_spec K E hK.ok false hb (fun _ => ⟨hn, hk, hm⟩) hcn hck
        hom
    obtain ⟨r', out', s1', h1', hr', -, he'⟩ :=
      fts_writeThenWriteRead_internal_spec K E hK.ok true hb hfalse hcn hck hom
    obtain ⟨rfl, hx, ht, ho⟩ := hr.agree hr' hK.ok hK.bus_wr
    exact ⟨r, out, s1, out', s1', h1, h1', hx, by rw [he, he'], ht, ho⟩

/-- C23 fails on the code: with no client bound and lengths within the scratch arrays, the
heap variants return `ERROR_BUS_O` and leave the state as it was, while non-heap `fts_write`,
`fts_writeRead`, `fts_writeFwCmd` and `fts_writeThenWriteRead` have no result: they copy the
command through the missing driver data before they test the client.  Non-heap `fts_read`,
which copies nothing before that test, returns `ERROR_BUS_O` like its heap variant. -/
theorem C23_unbound_divergence :
    fts_write_heap smallConsts okBus [0xA0, 0x01] 2 unboundState =
      some (smallConsts.ERROR_BUS_O, unboundState) ∧
    fts_write smallConsts okBus [0xA0, 0x01] 2 unboundState = none ∧
    fts_writeRead_heap smallConsts okBus [0xA0, 0x01] 2 [0, 0] 2 unboundState =
      some (smallConsts.ERROR_BUS_O, [0, 0], unboundState) ∧
    fts_writeRead smallConsts okBus [0xA0, 0x01] 2 [0, 0] 2 unboundState = none ∧
    fts_writeFwCmd_heap smallConsts okBus [0xA0, 0x01] 2 unboundState =
      some (smallConsts.ERROR_BUS_O, unboundState) ∧
    fts_writeFwCmd smallConsts okBus [0xA0, 0x01] 2 unboundState = none ∧
    fts_writeThenWriteRead_heap smallConsts okBus [0xA0] 1 [0x01] 1 [0, 0] 2 unboundState =
      some (smallConsts.ERROR_BUS_O, [0, 0], unboundState) ∧
    fts_writeThenWriteRead smallConsts okBus [0xA0] 1 [0x01] 1 [0, 0] 2 unboundState = none ∧
    fts_read_heap smallConsts okBus [0, 0] 2 unboundState =
      some (smallConsts.ERROR_BUS_O, [0, 0], unboundState) ∧
    fts_read smallConsts okBus [0, 0] 2 unboundState =
      some (smallConsts.ERROR_BUS_O, [0, 0], unboundState) := by
  refine ⟨by decide, by decide, by decide, by decide, by decide, by decide, by decide,
    by decide, by decide, by decide⟩

end Fts
